import Mathlib

/-!
# DTC export pipeline: the emitter `buildHTMLAndCSS` of `backend/index.js`

A shallow embedding of the JavaScript function `buildHTMLAndCSS(items, canvasWidth, canvasHeight)`
and of the parts of the ECMAScript runtime it relies on:

* JSON-shaped values (what `bodyParser.json` hands to the handler) and `undefined`;
* Number values as IEEE-754 binary64 in sign/magnitude form, with correctly rounded
  `/` and `*`, `Number.prototype.toFixed` and `Number::toString`;
* the abstract operations `ToBoolean`, `ToString`, `ToNumber` on those values;
* property reads with destructuring defaults, template literals, `String.prototype.replace`
  with a one-character global pattern, `Array.prototype.join`, `String.prototype.trim`.

Strings are modelled by Lean strings (sequences of Unicode scalar values; a JavaScript string
with an unpaired surrogate has no counterpart).  An object is modelled by the list of its own
properties; every exception the emitter can raise on such values is a `TypeError`.
-/

namespace DTC

/-! ## Number values -/

/-- Number value: `nan`, a signed infinity, or a signed finite magnitude.  The two zeros are
`fin false 0` and `fin true 0`.  The magnitude of a finite value is a non-negative rational. -/
inductive JSNum where
  | nan
  | inf (neg : Bool)
  | fin (neg : Bool) (mag : ℚ)
  deriving DecidableEq, Repr

/-- Floor of the binary logarithm of `n` by repeated halving, at most `fuel` times. -/
def log2Fuel : Nat → Nat → Nat
  | 0, _ => 0
  | fuel + 1, n => if n < 2 then 0 else log2Fuel fuel (n / 2) + 1

/-- Floor of the binary logarithm of a positive natural number. -/
def log2 (n : Nat) : Nat := log2Fuel n n

/-- Floor of the binary logarithm of `a / b`, for positive `a` and `b`. -/
def floorLog2 (a b : Nat) : Int :=
  let d : Int := (log2 a : Int) - (log2 b : Int)
  if 0 ≤ d then (if b * 2 ^ d.toNat ≤ a then d else d - 1)
  else (if b ≤ a * 2 ^ (-d).toNat then d else d - 1)

/-- Nearest integer to `n / d` (`d > 0`), ties to the even integer. -/
def roundHalfEven (n d : Nat) : Nat :=
  let m := n / d
  let r := n % d
  if 2 * r < d then m
  else if d < 2 * r then m + 1
  else if m % 2 = 0 then m else m + 1

/-- Round a non-negative rational to the nearest binary64 magnitude (53 significant bits,
least exponent `-1074`, ties to even); `none` stands for overflow to infinity. -/
def roundBinary64 (q : ℚ) : Option ℚ :=
  if q.num ≤ 0 then some 0
  else
    let a := q.num.toNat
    let b := q.den
    let p : Int := max (floorLog2 a b - 52) (-1074)
    if 0 ≤ p then
      let m := roundHalfEven a (b * 2 ^ p.toNat)
      if 2 ^ 1024 ≤ m * 2 ^ p.toNat then none else some ((m * 2 ^ p.toNat : Nat) : ℚ)
    else
      let m := roundHalfEven (a * 2 ^ (-p).toNat) b
      some (mkRat (m : Int) (2 ^ (-p).toNat))

/-- Number with sign `s` and magnitude the binary64 rounding of `q`. -/
def JSNum.ofMag (s : Bool) (q : ℚ) : JSNum :=
  match roundBinary64 q with
  | some v => .fin s v
  | none => .inf s

/-- Number literal for a natural number below `2 ^ 53`. -/
def JSNum.ofNat (n : Nat) : JSNum := .fin false (n : ℚ)

/-- Operator `/` on Numbers (`Number::divide`). -/
def JSNum.div : JSNum → JSNum → JSNum
  | .nan, _ => .nan
  | _, .nan => .nan
  | .inf _, .inf _ => .nan
  | .inf s, .fin t _ => .inf (xor s t)
  | .fin s _, .inf t => .fin (xor s t) 0
  | .fin s a, .fin t b =>
    if b = 0 then (if a = 0 then .nan else .inf (xor s t))
    else JSNum.ofMag (xor s t) (a / b)

/-- Operator `*` on Numbers (`Number::multiply`). -/
def JSNum.mul : JSNum → JSNum → JSNum
  | .nan, _ => .nan
  | _, .nan => .nan
  | .inf s, .inf t => .inf (xor s t)
  | .inf s, .fin t b => if b = 0 then .nan else .inf (xor s t)
  | .fin s a, .inf t => if a = 0 then .nan else .inf (xor s t)
  | .fin s a, .fin t b => JSNum.ofMag (xor s t) (a * b)

/-! ### Decimal output of Numbers -/

/-- Decimal digits of a natural number. -/
def digits (n : Nat) : String := Nat.repr n

/-- Number of decimal digits of a positive natural number (`0` for `0`). -/
def decLen (n : Nat) : Nat := if n = 0 then 0 else (Nat.toDigits 10 n).length

/-- Power of ten with an integer exponent. -/
def pow10 (t : Int) : ℚ :=
  if 0 ≤ t then ((10 ^ t.toNat : Nat) : ℚ) else 1 / ((10 ^ (-t).toNat : Nat) : ℚ)

/-- For `q > 0`, the integer `n` with `10 ^ (n - 1) ≤ q < 10 ^ n`. -/
def decExponent (q : ℚ) : Int :=
  if 1 ≤ q then (decLen (q.num.toNat / q.den) : Int)
  else
    let c := (q.den + q.num.toNat - 1) / q.num.toNat
    1 - (decLen (c - 1) : Int)

/-- For a magnitude `q` with decimal exponent `n`, a `k`-digit integer `s` such that
`s * 10 ^ (n - k)` rounds to `q`, the one nearest to `q` (the even one on a tie), if any. -/
def shortestAt (q : ℚ) (n : Int) (k : Nat) : Option Nat :=
  let sc := pow10 (n - k)
  let lo := (q / sc).floor.toNat
  let hi := lo + 1
  let okLo : Bool := roundBinary64 (lo * sc) = some q
  let okHi : Bool := roundBinary64 (hi * sc) = some q
  if okLo && okHi then
    (if q - lo * sc < hi * sc - q then some lo
     else if hi * sc - q < q - lo * sc then some hi
     else if lo % 2 = 0 then some lo else some hi)
  else if okLo then some lo
  else if okHi then some hi
  else none

/-- Search `k = k0, k0 + 1, ...` (at most `fuel` values) for the least number of digits `k`
that round-trips, returning `(s, k)`; after the last try the floor at `k` digits is taken. -/
def shortestFrom (q : ℚ) (n : Int) : Nat → Nat → Nat × Nat
  | 0, k => ((q / pow10 (n - k)).floor.toNat, k)
  | fuel + 1, k =>
    match shortestAt q n k with
    | some s => (s, k)
    | none => shortestFrom q n fuel (k + 1)

/-- The integers `(s, n)` of `Number::toString` for a positive finite magnitude: `s` has
`k` digits, `k` as small as possible, and `s * 10 ^ (n - k)` is the Number `q`.  When the
search returns `10 ^ k` (the value `10 ^ n`), the pair is `(1, n + 1)`. -/
def shortestDecimal (q : ℚ) : Nat × Int :=
  let n := decExponent q
  let (s, k) := shortestFrom q n 17 1
  if s = 10 ^ k then (1, n + 1) else (s, n)

/-- String of `n` zeros. -/
def zeros (n : Nat) : String := String.mk (List.replicate n '0')

/-- Result of `Number::toString` for a positive finite magnitude, radix 10. -/
def magToString (q : ℚ) : String :=
  let (s, n) := shortestDecimal q
  let ds := digits s
  let k : Int := ds.length
  if k ≤ n ∧ n ≤ 21 then ds ++ zeros (n - k).toNat
  else if 0 < n ∧ n ≤ 21 then
    String.mk (ds.data.take n.toNat) ++ "." ++ String.mk (ds.data.drop n.toNat)
  else if -6 < n ∧ n ≤ 0 then "0." ++ zeros (-n).toNat ++ ds
  else
    let e := n - 1
    let es := (if 0 ≤ e then "+" else "-") ++ digits e.natAbs
    if k = 1 then ds ++ "e" ++ es
    else String.mk (ds.data.take 1) ++ "." ++ String.mk (ds.data.drop 1) ++ "e" ++ es

/-- The operation `Number::toString(x, 10)`. -/
def JSNum.toString : JSNum → String
  | .nan => "NaN"
  | .inf false => "Infinity"
  | .inf true => "-Infinity"
  | .fin s q =>
    if q = 0 then "0"
    else (if s then "-" else "") ++ magToString q

/-- The method `Number.prototype.toFixed(f)` for `0 ≤ f ≤ 100`. -/
def JSNum.toFixed (x : JSNum) (f : Nat) : String :=
  match x with
  | .nan => "NaN"
  | .inf s => JSNum.toString (.inf s)
  | .fin neg q =>
    let s := if neg ∧ 0 < q then "-" else ""
    if (10 : ℚ) ^ 21 ≤ q then s ++ JSNum.toString (.fin false q)
    else
      let n := (q * 10 ^ f + 1 / 2).floor.toNat
      let m := if n = 0 then "0" else digits n
      if f = 0 then s ++ m
      else
        let m := if m.length ≤ f then zeros (f + 1 - m.length) ++ m else m
        let k := m.length
        s ++ String.mk (m.data.take (k - f)) ++ "." ++ String.mk (m.data.drop (k - f))

/-! ## Values -/

/-- Values the emitter can meet: `undefined` (an absent property or argument) and what
`JSON.parse` produces.  An object is the list of its own properties. -/
inductive JSVal where
  | undefined
  | null
  | bool (b : Bool)
  | num (n : JSNum)
  | str (s : String)
  | arr (elems : List JSVal)
  | obj (props : List (String × JSVal))
  deriving Repr

mutual
/-- Decidable equality of values. -/
def JSVal.decEq : (a b : JSVal) → Decidable (a = b)
  | .undefined, .undefined => isTrue rfl
  | .null, .null => isTrue rfl
  | .bool x, .bool y =>
    if h : x = y then isTrue (h ▸ rfl) else isFalse (fun e => h (by cases e; rfl))
  | .num x, .num y =>
    if h : x = y then isTrue (h ▸ rfl) else isFalse (fun e => h (by cases e; rfl))
  | .str x, .str y =>
    if h : x = y then isTrue (h ▸ rfl) else isFalse (fun e => h (by cases e; rfl))
  | .arr x, .arr y =>
    match decEqElems x y with
    | isTrue h => isTrue (h ▸ rfl)
    | isFalse h => isFalse (fun e => h (by cases e; rfl))
  | .obj x, .obj y =>
    match decEqProps x y with
    | isTrue h => isTrue (h ▸ rfl)
    | isFalse h => isFalse (fun e => h (by cases e; rfl))
  | .undefined, .null | .undefined, .bool _ | .undefined, .num _
  | .undefined, .str _ | .undefined, .arr _ | .undefined, .obj _ => isFalse nofun
  | .null, .undefined | .null, .bool _ | .null, .num _
  | .null, .str _ | .null, .arr _ | .null, .obj _ => isFalse nofun
  | .bool _, .undefined | .bool _, .null | .bool _, .num _
  | .bool _, .str _ | .bool _, .arr _ | .bool _, .obj _ => isFalse nofun
  | .num _, .undefined | .num _, .null | .num _, .bool _
  | .num _, .str _ | .num _, .arr _ | .num _, .obj _ => isFalse nofun
  | .str _, .undefined | .str _, .null | .str _, .bool _
  | .str _, .num _ | .str _, .arr _ | .str _, .obj _ => isFalse nofun
  | .arr _, .undefined | .arr _, .null | .arr _, .bool _
  | .arr _, .num _ | .arr _, .str _ | .arr _, .obj _ => isFalse nofun
  | .obj _, .undefined | .obj _, .null | .obj _, .bool _
  | .obj _, .num _ | .obj _, .str _ | .obj _, .arr _ => isFalse nofun
/-- Decidable equality of element lists. -/
def decEqElems : (a b : List JSVal) → Decidable (a = b)
  | [], [] => isTrue rfl
  | [], _ :: _ => isFalse nofun
  | _ :: _, [] => isFalse nofun
  | x :: xs, y :: ys =>
    match JSVal.decEq x y, decEqElems xs ys with
    | isTrue h, isTrue t => isTrue (h ▸ t ▸ rfl)
    | isFalse h, _ => isFalse (fun e => h (by cases e; rfl))
    | _, isFalse t => isFalse (fun e => t (by cases e; rfl))
/-- Decidable equality of property lists. -/
def decEqProps : (a b : List (String × JSVal)) → Decidable (a = b)
  | [], [] => isTrue rfl
  | [], _ :: _ => isFalse nofun
  | _ :: _, [] => isFalse nofun
  | (k, x) :: xs, (l, y) :: ys =>
    match decEq k l, JSVal.decEq x y, decEqProps xs ys with
    | isTrue c, isTrue h, isTrue t => isTrue (c ▸ h ▸ t ▸ rfl)
    | isFalse c, _, _ => isFalse (fun e => c (by cases e; rfl))
    | _, isFalse h, _ => isFalse (fun e => h (by cases e; rfl))
    | _, _, isFalse t => isFalse (fun e => t (by cases e; rfl))
end

instance : DecidableEq JSVal := JSVal.decEq

/-- Exceptions the emitter can raise. -/
inductive JSError where
  | typeError
  deriving DecidableEq, Repr

deriving instance DecidableEq for Except

/-! ## Abstract operations -/

/-- The operation `ToBoolean`. -/
def JSVal.toBoolean : JSVal → Bool
  | .undefined => false
  | .null => false
  | .bool b => b
  | .num .nan => false
  | .num (.inf _) => true
  | .num (.fin _ q) => q ≠ 0
  | .str s => s ≠ ""
  | .arr _ => true
  | .obj _ => true

/-- Operator `||`: the left operand when it is truthy, the right operand otherwise. -/
def JSVal.or (a b : JSVal) : JSVal := if a.toBoolean then a else b

/-- Whether an object has an own property `k`. -/
def hasOwn (props : List (String × JSVal)) (k : String) : Bool := props.any fun p => p.1 == k

mutual
/-- The operation `ToString`.  An object converts through `Object.prototype.toString` unless an own
`toString` property (never callable in parsed JSON) hides it, in which case no conversion
exists; an array converts through `Array.prototype.join`. -/
def JSVal.toStr : JSVal → Except JSError String
  | .undefined => .ok "undefined"
  | .null => .ok "null"
  | .bool b => .ok (if b then "true" else "false")
  | .num n => .ok n.toString
  | .str s => .ok s
  | .arr [] => .ok ""
  | .arr (x :: xs) => do
    let a ← elemStr x
    let b ← joinRest xs
    pure (a ++ b)
  | .obj ps => if hasOwn ps "toString" then .error .typeError else .ok "[object Object]"
/-- String of one array element inside `join`: empty for `undefined` and `null`. -/
def elemStr : JSVal → Except JSError String
  | .undefined => .ok ""
  | .null => .ok ""
  | v => JSVal.toStr v
/-- The elements after the first inside `join`, each preceded by a comma. -/
def joinRest : List JSVal → Except JSError String
  | [] => .ok ""
  | x :: xs => do
    let a ← elemStr x
    let b ← joinRest xs
    pure ("," ++ a ++ b)
end

/-- White space and line terminators, as `trim` and `StringToNumber` strip them. -/
def isWhiteSpace (c : Char) : Bool :=
  let v := c.toNat
  v = 0x09 || v = 0x0A || v = 0x0B || v = 0x0C || v = 0x0D || v = 0x20 || v = 0xA0 ||
  v = 0x1680 || (0x2000 ≤ v && v ≤ 0x200A) || v = 0x2028 || v = 0x2029 || v = 0x202F ||
  v = 0x205F || v = 0x3000 || v = 0xFEFF

/-- The method `String.prototype.trim` on a list of characters. -/
def trimChars (cs : List Char) : List Char :=
  ((cs.dropWhile isWhiteSpace).reverse.dropWhile isWhiteSpace).reverse

/-- The method `String.prototype.trim`. -/
def trim (s : String) : String := String.mk (trimChars s.data)

/-- Value of a digit in a radix up to 16, if the character is one. -/
def digitValue (radix : Nat) (c : Char) : Option Nat :=
  let v :=
    if '0' ≤ c ∧ c ≤ '9' then some (c.toNat - '0'.toNat)
    else if 'a' ≤ c ∧ c ≤ 'f' then some (c.toNat - 'a'.toNat + 10)
    else if 'A' ≤ c ∧ c ≤ 'F' then some (c.toNat - 'A'.toNat + 10)
    else none
  v.bind fun d => if d < radix then some d else none

/-- Value of a non-empty run of digits in the given radix. -/
def digitsValue (radix : Nat) (cs : List Char) : Option Nat :=
  if cs = [] then none
  else cs.foldl (fun acc c => acc.bind fun a => (digitValue radix c).map fun d => a * radix + d) (some 0)

/-- Exponent part of a decimal literal: empty, or `e`/`E`, an optional sign and digits. -/
def exponentValue : List Char → Option Int
  | [] => some 0
  | c :: rest =>
    if c = 'e' ∨ c = 'E' then
      match rest with
      | '+' :: ds => (digitsValue 10 ds).map fun n => (n : Int)
      | '-' :: ds => (digitsValue 10 ds).map fun n => -(n : Int)
      | ds => (digitsValue 10 ds).map fun n => (n : Int)
    else none

/-- Mathematical value of a `StrUnsignedDecimalLiteral` other than `Infinity`. -/
def unsignedDecimalValue (cs : List Char) : Option ℚ :=
  let ip := cs.takeWhile Char.isDigit
  let r1 := cs.dropWhile Char.isDigit
  let fp := match r1 with
    | '.' :: r => r.takeWhile Char.isDigit
    | _ => []
  let r2 := match r1 with
    | '.' :: r => r.dropWhile Char.isDigit
    | _ => r1
  if ip = [] ∧ fp = [] then none
  else
    match digitsValue 10 ('0' :: (ip ++ fp)), exponentValue r2 with
    | some m, some e => some ((m : ℚ) * pow10 (e - fp.length))
    | _, _ => none

/-- The operation `StringToNumber` after trimming: the Number of a `StrNumericLiteral`, `NaN` when the
text is not one. -/
def numericLiteral (cs : List Char) : JSNum :=
  let radixLit (radix : Nat) (ds : List Char) : JSNum :=
    match digitsValue radix ds with
    | some n => JSNum.ofMag false n
    | none => .nan
  let dec (s : Bool) (ds : List Char) : JSNum :=
    if ds = "Infinity".data then .inf s
    else match unsignedDecimalValue ds with
      | some q => JSNum.ofMag s q
      | none => .nan
  match cs with
  | [] => .fin false 0
  | '0' :: 'x' :: ds => radixLit 16 ds
  | '0' :: 'X' :: ds => radixLit 16 ds
  | '0' :: 'o' :: ds => radixLit 8 ds
  | '0' :: 'O' :: ds => radixLit 8 ds
  | '0' :: 'b' :: ds => radixLit 2 ds
  | '0' :: 'B' :: ds => radixLit 2 ds
  | '+' :: ds => dec false ds
  | '-' :: ds => dec true ds
  | ds => dec false ds

/-- The operation `StringToNumber`. -/
def stringToNumber (s : String) : JSNum := numericLiteral (trimChars s.data)

/-- The operation `ToNumber`.  Arrays and objects convert through `ToPrimitive` with hint number, which
ends in their `toString`. -/
def JSVal.toNumber : JSVal → Except JSError JSNum
  | .undefined => .ok .nan
  | .null => .ok (.fin false 0)
  | .bool b => .ok (if b then .fin false 1 else .fin false 0)
  | .num n => .ok n
  | .str s => .ok (stringToNumber s)
  | .arr xs => (JSVal.toStr (.arr xs)).map stringToNumber
  | .obj ps => (JSVal.toStr (.obj ps)).map stringToNumber

/-- Operator `/` on values: both operands go through `ToNumber`, left first. -/
def JSVal.div (a b : JSVal) : Except JSError JSNum := do
  let x ← a.toNumber
  let y ← b.toNumber
  pure (x.div y)

/-- Read of a property named in the emitter (`id`, `type`, `x`, `y`, `width`, `height`,
`fill`, `rotate`, `text`, `fontSize`, `src`) by a destructuring pattern: `undefined` and
`null` cannot be destructured; an object yields its own property, the first entry of that
name, or `undefined`; other values have none of these properties except an array its
inherited `fill`, which the emitter never reads because an array has no `type`. -/
def JSVal.get (v : JSVal) (k : String) : JSVal :=
  match v with
  | .obj ps => (ps.lookup k).getD .undefined
  | _ => .undefined

/-- Destructuring default `name = d`: applies when the property is `undefined`. -/
def JSVal.withDefault (v d : JSVal) : JSVal :=
  match v with
  | .undefined => d
  | _ => v

/-- Strict equality `v === s` with a string literal. -/
def JSVal.isStr (v : JSVal) (s : String) : Bool :=
  match v with
  | .str t => t == s
  | _ => false

/-! ## The emitter -/

/-- Asset request `{ id, src }` pushed for an image element. -/
structure Asset where
  id : JSVal
  src : JSVal
  deriving DecidableEq, Repr

/-- Result `{ html, css, assets }` of `buildHTMLAndCSS`. -/
structure Output where
  html : String
  css : String
  assets : List Asset
  deriving DecidableEq, Repr

/-- The locals `htmlChildren`, `cssRules` and `assets` that the `forEach` callback updates. -/
structure EmitState where
  htmlChildren : String
  cssRules : List String
  assets : List Asset
  deriving DecidableEq, Repr

/-- Initial value of `cssRules`: the five base rules. -/
def baseRules : List String :=
  ["*,*::before,*::after\x7bbox-sizing:border-box\x7d",
   "html, body \x7b height: 100%; margin: 0; padding: 0; \x7d",
   "body\x7bfont-family:Inter,system-ui,Arial,Helvetica,sans-serif\x7d",
   "#page\x7bposition:relative;width:100vw;height:100vh;background:#fff;overflow:hidden;\x7d",
   ".abs-el\x7bposition:absolute;transform-origin: top left;\x7d"]

/-- The expression `(v / c * 100).toFixed(2)`. -/
def percent (v c : JSVal) : Except JSError String := do
  let q ← JSVal.div v c
  pure ((q.mul (JSNum.ofNat 100)).toFixed 2)

/-- The call `s.replace(/c/g, r)` for a one-character pattern `c` and a replacement `r` without `$`. -/
def replaceAll (c : Char) (r : String) (s : String) : String :=
  String.mk (s.data.flatMap fun ch => if ch = c then r.data else [ch])

/-- The expression `String(text).replace(/</g, "&lt;").replace(/>/g, "&gt;")` on the string
of `text`. -/
def escape (s : String) : String := replaceAll '>' "&gt;" (replaceAll '<' "&lt;" s)

/-- Template literal of the class name. -/
def className (id : String) : String := "el-" ++ id

/-- Template literal of the asset path. -/
def filename (id : String) : String := "assets/" ++ id ++ ".png"

/-- Markup node of a rect. -/
def rectNode (cls : String) : String := "<div class=\"abs-el " ++ cls ++ "\"></div>\n"

/-- Markup node of a text. -/
def textNode (cls escaped : String) : String :=
  "<div class=\"abs-el " ++ cls ++ "\">" ++ escaped ++ "</div>\n"

/-- Markup node of an image. -/
def imageNode (cls file : String) : String :=
  "<img class=\"abs-el " ++ cls ++ "\" src=\"" ++ file ++ "\" alt=\"\" />\n"

/-- Style rule of a rect. -/
def rectRule (cls left top width height fill rotate : String) : String :=
  "." ++ cls ++ "\x7bleft:" ++ left ++ "%;top:" ++ top ++ "%;width:" ++ width ++ "%;height:" ++
    height ++ "%;background:" ++ fill ++ ";transform: rotate(" ++ rotate ++ "deg);\x7d"

/-- Style rule of a text. -/
def textRule (cls left top fontVw fill : String) : String :=
  "." ++ cls ++ "\x7bleft:" ++ left ++ "%;top:" ++ top ++ "%;font-size:" ++ fontVw ++
    "vw;color:" ++ fill ++ ";\x7d"

/-- Style rule of an image. -/
def imageRule (cls left top width height : String) : String :=
  "." ++ cls ++ "\x7bleft:" ++ left ++ "%;top:" ++ top ++ "%;width:" ++ width ++ "%;height:" ++
    height ++ "%;\x7d"

/-- Whether a value can be the source of an object destructuring pattern. -/
def JSVal.destructurable : JSVal → Bool
  | .undefined => false
  | .null => false
  | _ => true

/-- The `forEach` callback: one item `it` against the effective canvas size `cW`, `cH`. -/
def forEachBody (cW cH : JSVal) (st : EmitState) (it : JSVal) : Except JSError EmitState :=
  if it.destructurable = false then .error .typeError
  else do
    let id := it.get "id"
    let type := it.get "type"
    let x := it.get "x"
    let y := it.get "y"
    let left ← percent x cW
    let top ← percent y cH
    if type.isStr "rect" then
      let w := it.get "width"
      let h := it.get "height"
      let fill := (it.get "fill").withDefault (.str "#ddd")
      let rotate := (it.get "rotate").withDefault (.num (JSNum.ofNat 0))
      let width ← percent w cW
      let height ← percent h cH
      let cls ← id.toStr
      let fillS ← fill.toStr
      let rotateS ← rotate.toStr
      pure { htmlChildren := st.htmlChildren ++ rectNode (className cls)
             cssRules := st.cssRules ++
               [rectRule (className cls) left top width height fillS rotateS]
             assets := st.assets }
    else if type.isStr "text" then
      let text := (it.get "text").withDefault (.str "")
      let fontSize := (it.get "fontSize").withDefault (.num (JSNum.ofNat 16))
      let fill := (it.get "fill").withDefault (.str "#000")
      let fontVw ← percent fontSize cW
      let cls ← id.toStr
      let textS ← text.toStr
      let fillS ← fill.toStr
      pure { htmlChildren := st.htmlChildren ++ textNode (className cls) (escape textS)
             cssRules := st.cssRules ++ [textRule (className cls) left top fontVw fillS]
             assets := st.assets }
    else if type.isStr "image" then
      let w := (it.get "width").withDefault (.num (JSNum.ofNat 200))
      let h := (it.get "height").withDefault (.num (JSNum.ofNat 120))
      let src := it.get "src"
      let width ← percent w cW
      let height ← percent h cH
      let cls ← id.toStr
      pure { htmlChildren := st.htmlChildren ++ imageNode (className cls) (filename cls)
             cssRules := st.cssRules ++ [imageRule (className cls) left top width height]
             assets := st.assets ++ [{ id := id, src := src }] }
    else pure st

/-- Text of the page template before `htmlChildren`. -/
def pageHead : String :=
  "<!doctype html>\n<html>\n<head>\n<meta charset=\"utf-8\" />\n" ++
  "<meta name=\"viewport\" content=\"width=device-width,initial-scale=1\" />\n" ++
  "<link rel=\"stylesheet\" href=\"styles.css\" />\n<title>Exported Design</title>\n" ++
  "</head>\n<body>\n  <div id=\"page\">\n"

/-- Text of the page template after `htmlChildren`. -/
def pageFoot : String := "\n  </div>\n</body>\n</html>"

/-- The function `buildHTMLAndCSS(items, canvasWidth, canvasHeight)`.  `items.forEach` exists
only when `items` is an array. -/
def buildHTMLAndCSS (items canvasWidth canvasHeight : JSVal) : Except JSError Output :=
  let cW := canvasWidth.or (.num (JSNum.ofNat 1100))
  let cH := canvasHeight.or (.num (JSNum.ofNat 700))
  match items with
  | .arr its => do
    let st ← its.foldlM (forEachBody cW cH)
      { htmlChildren := "", cssRules := baseRules, assets := [] }
    pure { html := trim (pageHead ++ st.htmlChildren ++ pageFoot)
           css := "\n".intercalate st.cssRules
           assets := st.assets }
  | _ => .error .typeError

/-! ## Reading the emitter item by item -/

/-- State with nothing emitted. -/
def EmitState.empty : EmitState := { htmlChildren := "", cssRules := [], assets := [] }

/-- What `b` emitted, after what `a` emitted. -/
def EmitState.append (a b : EmitState) : EmitState :=
  { htmlChildren := a.htmlChildren ++ b.htmlChildren
    cssRules := a.cssRules ++ b.cssRules
    assets := a.assets ++ b.assets }

/-- What the callback emits for one item: the callback run on the empty state. -/
def emitItem (cW cH it : JSVal) : Except JSError EmitState :=
  forEachBody cW cH EmitState.empty it

/-- What the callback emits for each item of a list, in order; fails when one call throws. -/
def emitAll (cW cH : JSVal) : List JSVal → Except JSError (List EmitState)
  | [] => .ok []
  | it :: rest =>
    match emitItem cW cH it with
    | .error e => .error e
    | .ok p =>
      match emitAll cW cH rest with
      | .error e => .error e
      | .ok ps => .ok (p :: ps)

/-- Whether the emitter has a branch for the item: its `type` is `rect`, `text` or `image`. -/
def exported (it : JSVal) : Bool :=
  (it.get "type").isStr "rect" || (it.get "type").isStr "text" || (it.get "type").isStr "image"

/-- Values other than arrays and objects. -/
def JSVal.isPrimitive : JSVal → Bool
  | .arr _ => false
  | .obj _ => false
  | _ => true

/-- The property names whose values the `forEach` callback converts to a Number or to a
string: `x`, `y`, `width`, `height` and `fontSize` by a division, `id`, `fill`, `rotate`
and `text` by a template literal or `String`. -/
def convertedKeys : List String :=
  ["id", "x", "y", "width", "height", "fill", "rotate", "text", "fontSize"]

/-- Items on which the callback cannot throw: a value that can be destructured (anything but
`undefined` and `null`) and whose properties that the callback converts are primitive or
absent.  Properties that the callback does not convert are not constrained: the lines and
pencil strokes of the editing surface, which carry a `points` array, are such items. -/
def wellFormed (it : JSVal) : Bool :=
  it.destructurable && convertedKeys.all fun k => (it.get k).isPrimitive

/-- The result put together from what each item emitted, in order. -/
def assemble (ps : List EmitState) : Output :=
  { html := pageHead ++ String.join (ps.map fun p => p.htmlChildren) ++ pageFoot
    css := "\n".intercalate (baseRules ++ (ps.map fun p => p.cssRules).flatten)
    assets := (ps.map fun p => p.assets).flatten }

/-! ## Vocabulary of the specification -/

/-- The numeral "with two decimals" of a signed magnitude: the nearest hundredth (a tie goes
away from zero), written as a sign, the integer digits, a point and two digits. -/
def twoDecimals (neg : Bool) (q : ℚ) : String :=
  (if neg = true ∧ 0 < q then "-" else "") ++
    digits ((q * 10 ^ 2 + 1 / 2).floor.toNat / 100) ++ "." ++
    String.mk [Nat.digitChar ((q * 10 ^ 2 + 1 / 2).floor.toNat / 10 % 10),
      Nat.digitChar ((q * 10 ^ 2 + 1 / 2).floor.toNat % 10)]

/-- Whether a text is a decimal numeral with exactly two digits after the point: an optional
minus sign, one or more digits, a point, two digits. -/
def isTwoDecimal (s : String) : Bool :=
  let cs := match s.data with
    | '-' :: r => r
    | r => r
  let ip := cs.takeWhile Char.isDigit
  !ip.isEmpty && match cs.dropWhile Char.isDigit with
    | ['.', a, b] => a.isDigit && b.isDigit
    | _ => false

/-- Number value as an item property. -/
def numV (n : Nat) : JSVal := .num (JSNum.ofNat n)

/-- The rect of the specification's conversion example: `x=110, y=70, width=220` (and a
height of 140) for a 1100 by 700 canvas. -/
def sampleRect : JSVal :=
  .obj [("id", .str "rect-1"), ("type", .str "rect"), ("x", numV 110), ("y", numV 70),
    ("width", numV 220), ("height", numV 140), ("fill", .str "#60A5FA"), ("rotate", numV 0)]

/-- The text of the specification's conversion example: `fontSize=22`. -/
def sampleText : JSVal :=
  .obj [("id", .str "text-1"), ("type", .str "text"), ("x", numV 110), ("y", numV 70),
    ("text", .str "<script>"), ("fontSize", numV 22), ("fill", .str "#111")]

/-- An image element. -/
def sampleImage : JSVal :=
  .obj [("id", .str "img-1"), ("type", .str "image"), ("x", numV 110), ("y", numV 70),
    ("width", numV 220), ("height", numV 140), ("src", .str "https://example.com/a.png")]

/-- A rect placed at `x = 1.1e22`, which is `1e21` percent of a 1100 wide canvas. -/
def farRect : JSVal :=
  .obj [("id", .str "r"), ("type", .str "rect"), ("x", numV (11 * 10 ^ 21)), ("y", numV 70),
    ("width", numV 220), ("height", numV 140)]

/-- A rect of width `1.1e22`, which is `1e21` percent of a 1100 wide canvas. -/
def wideRect : JSVal :=
  .obj [("id", .str "r"), ("type", .str "rect"), ("x", numV 110), ("y", numV 70),
    ("width", numV (11 * 10 ^ 21)), ("height", numV 140)]

/-- A text of font size `1.1e22`, which is `1e21` percent of a canvas width of 1100. -/
def hugeText : JSVal :=
  .obj [("id", .str "t"), ("type", .str "text"), ("x", numV 110), ("y", numV 70),
    ("text", .str "Hi"), ("fontSize", numV (11 * 10 ^ 21))]

/-- The single-pass substitution of the specification: `<` becomes `&lt;`, `>` becomes
`&gt;`, every other character stays. -/
def escapeChar (c : Char) : List Char :=
  if c = '<' then "&lt;".data else if c = '>' then "&gt;".data else [c]

/-- The text `pat` occurs in `s` as a contiguous run of characters. -/
def Contains (s pat : String) : Prop := pat.data <:+: s.data

instance (s pat : String) : Decidable (Contains s pat) :=
  inferInstanceAs (Decidable (pat.data <:+: s.data))

/-- The raw tag searched for in the markup. -/
def scriptTag : List Char := "<script>".data

/-- One step of the scanner for `scriptTag`: state `q` is the number of characters of the
tag matched so far (`<` occurs only at the start of the tag, so a mismatch restarts at 1 on
`<` and at 0 otherwise); state 8 means the tag has been seen. -/
def scanStep (q : Nat) (c : Char) : Nat :=
  if 8 ≤ q then 8
  else if scriptTag[q]? = some c then q + 1
  else if c = '<' then 1
  else 0

/-- The scanner run over a list of characters from state `q`. -/
def scan (q : Nat) (l : List Char) : Nat := l.foldl scanStep q

/-- A rect whose id is the text `<script>`. -/
def scriptIdRect : JSVal :=
  .obj [("id", .str "<script>"), ("type", .str "rect"), ("x", numV 110), ("y", numV 70),
    ("width", numV 220), ("height", numV 140)]

/-- Two items that differ at most in their `src` property: both can be destructured or
neither can, and every property other than `src` reads the same. -/
def SameExceptSrc (a b : JSVal) : Prop :=
  a.destructurable = b.destructurable ∧ ∀ k : String, k ≠ "src" → a.get k = b.get k

/-- The sample image with another `src`. -/
def sampleImageMoved : JSVal :=
  .obj [("id", .str "img-1"), ("type", .str "image"), ("x", numV 110), ("y", numV 70),
    ("width", numV 220), ("height", numV 140), ("src", .str "data:image/png;base64,AAAA")]

/-- The asset request of an item: `{ id, src }` for an image, none otherwise. -/
def assetRequest (it : JSVal) : Option Asset :=
  if (it.get "type").isStr "image" = true then some { id := it.get "id", src := it.get "src" }
  else none

/-- The sample rect turned by 45 degrees. -/
def turnedRect : JSVal :=
  .obj [("id", .str "rect-2"), ("type", .str "rect"), ("x", numV 110), ("y", numV 70),
    ("width", numV 220), ("height", numV 140), ("fill", .str "transparent"),
    ("rotate", numV 45)]

/-- A rect without `rotate` and without `fill`. -/
def plainRect : JSVal :=
  .obj [("id", .str "rect-3"), ("type", .str "rect"), ("x", numV 110), ("y", numV 70),
    ("width", numV 220), ("height", numV 140)]

/-! ## The handler of `POST /api/export-zip`

The handler is a function of the parsed request body and of its environment: how each
`fetch` settles, and in which order the asset callbacks started by `Promise.all` complete.
JSZip is modelled by the file entries of the archive (the directory entries JSZip adds hold no
content and are left out); `generateAsync` is taken to succeed. -/

/-- Bytes of a response body. -/
abbrev Bytes := List Nat

/-- How `await fetch(a.src)` followed by `await resp.arrayBuffer()` settles for one asset:
`fetch` rejects (network error, invalid reference), or it fulfils with a response of some
HTTP status whose body is then read (`some` bytes) or fails to be read (`none`). -/
inductive FetchOutcome where
  | rejected
  | response (status : Nat) (body : Option Bytes)
  deriving DecidableEq, Repr

/-- Whether the two awaits of the asset callback both fulfil, yielding the bytes. -/
def FetchOutcome.bytes : FetchOutcome → Option Bytes
  | .rejected => none
  | .response _ body => body

/-- Data of an archive entry: a string (`html`, `css`) or a buffer. -/
inductive Content where
  | text (s : String)
  | binary (b : Bytes)
  deriving DecidableEq, Repr

/-- The file entries of a JSZip object, by name, in the order in which the names were first
added. -/
structure Archive where
  entries : List (String × Content)
  deriving DecidableEq, Repr

/-- The call `new JSZip()`. -/
def Archive.empty : Archive := { entries := [] }

/-- Replace the data of the entry `name`, or add the entry at the end. -/
def setEntry : List (String × Content) → String → Content → List (String × Content)
  | [], name, data => [(name, data)]
  | (k, v) :: rest, name, data =>
    if k = name then (name, data) :: rest else (k, v) :: setEntry rest name data

/-- The call `zip.file(name, data)`: replaces the entry of that name or adds one at the end. -/
def Archive.file (z : Archive) (name : String) (data : Content) : Archive :=
  { entries := setEntry z.entries name data }

/-- Data of the entry of a name, if there is one. -/
def Archive.read (z : Archive) (name : String) : Option Content := z.entries.lookup name

/-- The entries under the `assets/` folder. -/
def Archive.assetEntries (z : Archive) : List (String × Content) :=
  z.entries.filter fun e => "assets/".data.isPrefixOf e.1.data

/-- The body of the `try` in the asset callback once `fetch(a.src)` has settled, and its
`catch`: on bytes, `zip.folder("assets").file(name, Buffer.from(buf))` where `name` is the
template literal of `a.id` followed by `.png`; on a rejection or a throw, nothing but a
warning. -/
def assetCallback (z : Archive) (a : Asset) (o : FetchOutcome) : Archive :=
  match o.bytes with
  | none => z
  | some buf =>
    match a.id.toStr with
    | .error _ => z
    | .ok s => z.file ("assets/" ++ (s ++ ".png")) (.binary buf)

/-- What the handler sends. -/
inductive Response where
  /-- The call `res.status(status).json({ error })` with a fixed text. -/
  | invalid (status : Nat) (error : String)
  /-- The call `res.status(status).json({ error: err.message })` of the `catch`. -/
  | failed (status : Nat) (err : JSError)
  /-- The calls `res.set(headers)` and `res.send(content)`, status 200. -/
  | sent (status : Nat) (headers : List (String × String)) (content : Archive)
  deriving DecidableEq, Repr

/-- One run of the handler: the response and the `src` values passed to `fetch`, in the order
of the calls. -/
structure Run where
  response : Response
  fetched : List JSVal
  deriving DecidableEq, Repr

/-- The headers of the download. -/
def zipHeaders : List (String × String) :=
  [("Content-Type", "application/zip"),
   ("Content-Disposition", "attachment; filename=design-export.zip")]

/-- The handler `async (req, res) => ...` on `req.body = body`.  `outcome i` is how the fetch
of asset `i` settles; `order` lists the assets in the order in which their callbacks reach the
archive.  A throw before the archive is sent reaches the outer `catch`. -/
def exportZip (body : JSVal) (outcome : Nat → FetchOutcome) (order : List Nat) : Run :=
  if body.destructurable = false then { response := .failed 500 .typeError, fetched := [] }
  else
    let items := body.get "items"
    let canvasWidth := body.get "canvasWidth"
    let canvasHeight := body.get "canvasHeight"
    if items.toBoolean = false then
      { response := .invalid 400 "No 'items' array provided in request body.", fetched := [] }
    else
      match buildHTMLAndCSS items canvasWidth canvasHeight with
      | .error err => { response := .failed 500 err, fetched := [] }
      | .ok out =>
        let zip := (Archive.empty.file "index.html" (.text out.html)).file "styles.css"
          (.text out.css)
        let zip := order.foldl (fun z i =>
          match out.assets[i]? with
          | some a => assetCallback z a (outcome i)
          | none => z) zip
        { response := .sent 200 zipHeaders zip, fetched := out.assets.map fun a => a.src }

/-- Request body `{ items, canvasWidth: 1100, canvasHeight: 700 }`. -/
def requestOf (items : JSVal) : JSVal :=
  .obj [("items", items), ("canvasWidth", numV 1100), ("canvasHeight", numV 700)]

/-- Three image elements with the ids `a`, `b` and `c`. -/
def threeImages : List JSVal :=
  [.obj [("id", .str "a"), ("type", .str "image"), ("x", numV 0), ("y", numV 0),
     ("src", .str "https://example.com/a.png")],
   .obj [("id", .str "b"), ("type", .str "image"), ("x", numV 10), ("y", numV 10),
     ("src", .str "https://unreachable.invalid/b.png")],
   .obj [("id", .str "c"), ("type", .str "image"), ("x", numV 20), ("y", numV 20),
     ("src", .str "https://example.com/c.png")]]

/-- The first and the third fetch yield bytes, the second rejects. -/
def secondFails : Nat → FetchOutcome
  | 0 => .response 200 (some [137, 80, 78, 71])
  | 1 => .rejected
  | _ => .response 200 (some [137, 80, 78, 71, 13])

/-- Every fetch answers `404` with the bytes of `Not Found`. -/
def notFound : Nat → FetchOutcome :=
  fun _ => .response 404 (some [78, 111, 116, 32, 70, 111, 117, 110, 100])

/-- The entry that the callback of asset `i` writes, if it writes one. -/
def assetWrite (assets : List Asset) (outcome : Nat → FetchOutcome) (i : Nat) :
    Option (String × Content) :=
  match assets[i]? with
  | none => none
  | some a =>
    match (outcome i).bytes, a.id.toStr with
    | some buf, .ok s => some ("assets/" ++ (s ++ ".png"), .binary buf)
    | _, _ => none

/-- The archive after the callbacks of the assets listed in `order` have run, in that order,
on the archive `z`. -/
def writeAll (assets : List Asset) (outcome : Nat → FetchOutcome) (order : List Nat)
    (z : Archive) : Archive :=
  order.foldl (fun z i =>
    match assetWrite assets outcome i with
    | some e => z.file e.1 e.2
    | none => z) z

/-- The archive holding `index.html` and `styles.css` only. -/
def baseArchive (out : Output) : Archive :=
  (Archive.empty.file "index.html" (.text out.html)).file "styles.css" (.text out.css)

/-! ## Pieces of a result -/

/-- What a list of emitted pieces adds up to: the nodes joined, the rules and the asset
requests in order. -/
def collect (ps : List EmitState) : EmitState :=
  { htmlChildren := String.join (ps.map fun p => p.htmlChildren)
    cssRules := (ps.map fun p => p.cssRules).flatten
    assets := (ps.map fun p => p.assets).flatten }

/-- An item the callback can read a position from: it can be destructured and its `x` and
`y` are primitive values (absent ones included). -/
def positioned (it : JSVal) : Bool :=
  it.destructurable && (it.get "x").isPrimitive && (it.get "y").isPrimitive

/-- An ellipse as the editing surface creates it. -/
def sampleEllipse : JSVal :=
  .obj [("id", .str "circ-1"), ("type", .str "ellipse"), ("x", numV 300), ("y", numV 200),
    ("radiusX", numV 60), ("radiusY", numV 60), ("fill", .str "#8b5cf6"),
    ("stroke", .str "#0f172a"), ("strokeWidth", numV 2)]

/-- A pencil stroke as the editing surface creates it: points, no position. -/
def samplePencil : JSVal :=
  .obj [("id", .str "pencil-1"), ("type", .str "pencil"),
    ("points", .arr [numV 10, numV 20, numV 30, numV 40]), ("stroke", .str "#111827"),
    ("strokeWidth", numV 2)]

/-- A line as the editing surface creates it. -/
def sampleLine : JSVal :=
  .obj [("id", .str "line-1"), ("type", .str "line"),
    ("points", .arr [numV 10, numV 20, numV 10, numV 20]), ("stroke", .str "#0f172a"),
    ("strokeWidth", numV 3)]

/-- The result returned for the nodes, element rules and asset requests `c`: the page
template around the nodes, the base rules followed by the element rules, and the requests. -/
def pageOf (c : EmitState) : Output :=
  { html := pageHead ++ c.htmlChildren ++ pageFoot
    css := "\n".intercalate (baseRules ++ c.cssRules)
    assets := c.assets }

/-- The single-pass substitution on a whole text: each character is replaced on its own,
`<` by `&lt;`, `>` by `&gt;`, any other character by itself. -/
def escapeSinglePass (s : String) : String := String.mk (s.data.flatMap escapeChar)

/-- Two items that differ at most in their `rotation` property: both can be destructured or
neither can, and every property other than `rotation` reads the same. -/
def SameExceptRotation (a b : JSVal) : Prop :=
  a.destructurable = b.destructurable ∧ ∀ k : String, k ≠ "rotation" → a.get k = b.get k

/-! ## The editing surface

The item literals and patches of `CanvasWithToolbar.jsx` and `CanvasWithPanels.jsx` that
concern the rotation of a rect. -/

/-- Set an own property: replace the value of the first entry of that name, or add the
property at the end. -/
def setProp : List (String × JSVal) → String → JSVal → List (String × JSVal)
  | [], k, v => [(k, v)]
  | (a, b) :: rest, k, v => if a = k then (k, v) :: rest else (a, b) :: setProp rest k v

/-- The object spread of `updateItem`: the properties of the item, then those of the patch. -/
def updateItem (it : JSVal) (patch : List (String × JSVal)) : JSVal :=
  match it with
  | .obj ps => .obj (patch.foldl (fun acc kv => setProp acc kv.1 kv.2) ps)
  | _ => .obj (patch.foldl (fun acc kv => setProp acc kv.1 kv.2) [])

/-- The item literal of `addRect` in `CanvasWithToolbar.jsx`. -/
def CanvasWithToolbar.addRect (id x y : JSVal) : JSVal :=
  .obj [("id", id), ("type", .str "rect"), ("x", x), ("y", y), ("width", numV 200),
    ("height", numV 120), ("fill", .str "#F97316"), ("stroke", .str "#0f172a"),
    ("strokeWidth", numV 2), ("rotation", numV 0)]

/-- The patch of `onTransformEndNode` in `CanvasWithToolbar.jsx` for a rect or an image. -/
def CanvasWithToolbar.transformEndPatch (x y rotation newW newH : JSVal) :
    List (String × JSVal) :=
  [("x", x), ("y", y), ("rotation", rotation), ("width", newW), ("height", newH)]

/-- The item literal of `addRect` in `CanvasWithPanels.jsx`. -/
def CanvasWithPanels.addRect (id x y : JSVal) : JSVal :=
  .obj [("id", id), ("type", .str "rect"), ("x", x), ("y", y), ("width", numV 200),
    ("height", numV 120), ("fill", .str "#F97316"), ("stroke", .str "#0f172a"),
    ("strokeWidth", numV 2)]

/-- The property names that the `forEach` callback reads from an item. -/
def readKeys : List String :=
  ["id", "type", "x", "y", "width", "height", "fill", "rotate", "text", "fontSize", "src"]

/-- Two items that read the same: both can be destructured or neither can, and each property
the callback reads has the same value in both. -/
def SameReads (a b : JSVal) : Prop :=
  a.destructurable = b.destructurable ∧ ∀ k ∈ readKeys, a.get k = b.get k

/-- The sample rect with its properties in another order and one more property. -/
def sampleRectShuffled : JSVal :=
  .obj [("fill", .str "#60A5FA"), ("rotate", numV 0), ("height", numV 140),
    ("width", numV 220), ("y", numV 70), ("x", numV 110), ("type", .str "rect"),
    ("id", .str "rect-1"), ("stroke", .str "#0f172a")]

/-! ## Uniform scaling -/

/-- The Number `k * n` in exact arithmetic: a finite magnitude is multiplied, `NaN` and the
infinities stay. -/
def scaleNum (k : ℚ) : JSNum → JSNum
  | .fin s q => .fin s (k * q)
  | n => n

/-- A Number value multiplied by `k`; other values are left as they are. -/
def scaleVal (k : ℚ) : JSVal → JSVal
  | .num n => .num (scaleNum k n)
  | v => v

/-- The geometry properties of an element. -/
def scaledKeys : List String := ["x", "y", "width", "height", "fontSize"]

/-- The item with `x`, `y`, `width`, `height` and `fontSize` multiplied by `k`. -/
def scaleItem (k : ℚ) : JSVal → JSVal
  | .obj ps => .obj (ps.map fun p => if p.1 ∈ scaledKeys then (p.1, scaleVal k p.2) else p)
  | v => v

/-- Whether a value is a Number. -/
def JSVal.isNum : JSVal → Bool
  | .num _ => true
  | _ => false

/-- An element whose geometry is given as the data model has it: a rect and an image with
Number `x`, `y`, `width` and `height`, a text with Number `x`, `y` and `fontSize`. -/
def measured (it : JSVal) : Bool :=
  if (it.get "type").isStr "rect" || (it.get "type").isStr "image" then
    (it.get "x").isNum && (it.get "y").isNum && (it.get "width").isNum &&
      (it.get "height").isNum
  else if (it.get "type").isStr "text" then
    (it.get "x").isNum && (it.get "y").isNum && (it.get "fontSize").isNum
  else true

/-! ## Value of the emitted numerals -/

/-- Mathematical value of a finite Number. -/
def JSNum.value : JSNum → Option ℚ
  | .fin s q => some (if s then -q else q)
  | _ => none

/-- Mathematical value of a decimal numeral with an optional minus sign, read with the
grammar of numeric string literals. -/
def decimalValue (s : String) : Option ℚ :=
  if s.data.head? = some '-' then (unsignedDecimalValue (s.data.drop 1)).map fun v => -v
  else unsignedDecimalValue s.data

/-- The Number that the literal `0.385` denotes. -/
def x0385 : JSNum := .fin false (1733885856537641 / 4503599627370496)

/-- A rect placed at `x = 0.385`, which is just above `0.035` percent of a 1100 wide
canvas. -/
def nearTieRect : JSVal :=
  .obj [("id", .str "r"), ("type", .str "rect"), ("x", .num x0385), ("y", numV 70),
    ("width", numV 220), ("height", numV 140)]

/-! ## Search for the unit `px` -/

/-- One step of the scanner for the text `px`: state 1 means the last character was `p`,
state 2 that `px` has been seen. -/
def pxStep (q : Nat) (c : Char) : Nat :=
  if q = 2 then 2 else if q = 1 ∧ c = 'x' then 2 else if c = 'p' then 1 else 0

/-- The state of the scanner after a run of characters, from state `q`. -/
def pxScan (q : Nat) (l : List Char) : Nat := l.foldl pxStep q

/-- A rect whose `fill` carries a second declaration, a width in pixels. -/
def pxFillRect : JSVal :=
  .obj [("id", .str "r"), ("type", .str "rect"), ("x", numV 110), ("y", numV 70),
    ("width", numV 220), ("height", numV 140), ("fill", .str "red;width:10px")]

/-- No character of the run is `p`. -/
def noP (l : List Char) : Bool := l.all fun c => c != 'p'

/-- The texts of an item that the emitter embeds in its rule as they are, `id`, `fill` and
`rotate`, do not contain `px`. -/
def embedsNoPx (it : JSVal) : Prop :=
  ∀ k ∈ ["id", "fill", "rotate"], ∀ s, (it.get k).toStr = .ok s → ¬ Contains s "px"

/-! ## The in-browser exporter `CanvasEditor.generateHTMLCSS`

The part of `generateHTMLCSS` in `CanvasEditor.jsx` that builds the markup, the stylesheet
and the asset requests from the `items` of the editor, which is always an array. -/

/-- The function `Math.round`: the nearest integral Number, the one closer to positive
infinity on a tie; a result of zero keeps the sign of the argument. -/
def JSNum.round : JSNum → JSNum
  | .nan => .nan
  | .inf s => .inf s
  | .fin false q => .fin false ((q + 1 / 2).floor.toNat : ℚ)
  | .fin true q => .fin true ((q - 1 / 2).ceil.toNat : ℚ)

/-- The expression `Math.round(v)` on a value. -/
def mathRound (v : JSVal) : Except JSError JSNum := v.toNumber.map JSNum.round

/-- Initial value of `cssRules` in the in-browser exporter. -/
def CanvasEditor.baseRules : List String :=
  ["*,*::before,*::after\x7bbox-sizing:border-box\x7d",
   "body\x7bmargin:0;font-family:Inter,system-ui,Arial,Helvetica,sans-serif\x7d",
   "#page\x7bposition:relative;width:100%;max-width:1200px;margin:24px auto;" ++
     "background:#fff;min-height:600px;border:1px solid #e5e7eb\x7d",
   ".abs-el\x7bposition:absolute;transform-origin: top left;\x7d"]

/-- Style rule of a rect in the in-browser exporter. -/
def CanvasEditor.rectRule (cls left top width height fill rotate : String) : String :=
  "." ++ cls ++ "\x7bleft:" ++ left ++ "px;top:" ++ top ++ "px;width:" ++ width ++
    "px;height:" ++ height ++ "px;background:" ++ fill ++ ";transform: rotate(" ++ rotate ++
    "deg);\x7d"

/-- Style rule of a text in the in-browser exporter. -/
def CanvasEditor.textRule (cls left top fontSize fill : String) : String :=
  "." ++ cls ++ "\x7bleft:" ++ left ++ "px;top:" ++ top ++ "px;font-size:" ++ fontSize ++
    "px;color:" ++ fill ++ ";\x7d"

/-- Style rule of an image in the in-browser exporter. -/
def CanvasEditor.imageRule (cls left top width height : String) : String :=
  "." ++ cls ++ "\x7bleft:" ++ left ++ "px;top:" ++ top ++ "px;width:" ++ width ++
    "px;height:" ++ height ++ "px;\x7d"

/-- The `forEach` callback of the in-browser exporter. -/
def CanvasEditor.forEachBody (st : EmitState) (it : JSVal) : Except JSError EmitState :=
  if it.destructurable = false then .error .typeError
  else do
    let id := it.get "id"
    let type := it.get "type"
    let x := it.get "x"
    let y := it.get "y"
    let left ← mathRound x
    let top ← mathRound y
    if type.isStr "rect" then
      let w := it.get "width"
      let h := it.get "height"
      let fill := (it.get "fill").withDefault (.str "#ddd")
      let rotate := (it.get "rotate").withDefault (.num (JSNum.ofNat 0))
      let cls ← id.toStr
      let width ← mathRound w
      let height ← mathRound h
      let fillS ← fill.toStr
      let rotateS ← rotate.toStr
      pure { htmlChildren := st.htmlChildren ++ rectNode (className cls)
             cssRules := st.cssRules ++
               [CanvasEditor.rectRule (className cls) left.toString top.toString
                 width.toString height.toString fillS rotateS]
             assets := st.assets }
    else if type.isStr "text" then
      let text := (it.get "text").withDefault (.str "")
      let fontSize := (it.get "fontSize").withDefault (.num (JSNum.ofNat 16))
      let fill := (it.get "fill").withDefault (.str "#000")
      let cls ← id.toStr
      let textS ← text.toStr
      let fontS ← fontSize.toStr
      let fillS ← fill.toStr
      pure { htmlChildren := st.htmlChildren ++ textNode (className cls) (escape textS)
             cssRules := st.cssRules ++
               [CanvasEditor.textRule (className cls) left.toString top.toString fontS fillS]
             assets := st.assets }
    else if type.isStr "image" then
      let w := (it.get "width").withDefault (.num (JSNum.ofNat 200))
      let h := (it.get "height").withDefault (.num (JSNum.ofNat 120))
      let src := it.get "src"
      let cls ← id.toStr
      let width ← mathRound w
      let height ← mathRound h
      pure { htmlChildren := st.htmlChildren ++ imageNode (className cls) (filename cls)
             cssRules := st.cssRules ++
               [CanvasEditor.imageRule (className cls) left.toString top.toString
                 width.toString height.toString]
             assets := st.assets ++ [{ id := id, src := src }] }
    else pure st

/-- The markup, stylesheet and asset requests that `generateHTMLCSS` builds from the items of
the editor, before it packs them. -/
def CanvasEditor.generateHTMLCSS (items : List JSVal) : Except JSError Output := do
  let st ← items.foldlM CanvasEditor.forEachBody
    { htmlChildren := "", cssRules := CanvasEditor.baseRules, assets := [] }
  pure { html := trim (pageHead ++ st.htmlChildren ++ pageFoot)
         css := "\n".intercalate st.cssRules
         assets := st.assets }

/-! # Theorems -/

/-! ## Lemmas: conversions of primitive values -/

theorem empty_append (s : String) : "" ++ s = s := by
  apply String.ext; simp

theorem toStr_of_isPrimitive {v : JSVal} (h : v.isPrimitive = true) : ∃ s, v.toStr = .ok s := by
  cases v <;> simp [JSVal.isPrimitive] at h <;> simp [JSVal.toStr]

theorem toNumber_of_isPrimitive {v : JSVal} (h : v.isPrimitive = true) :
    ∃ n, v.toNumber = .ok n := by
  cases v <;> simp [JSVal.isPrimitive] at h <;> simp [JSVal.toNumber]

theorem isPrimitive_withDefault {v d : JSVal} (hv : v.isPrimitive = true)
    (hd : d.isPrimitive = true) : (v.withDefault d).isPrimitive = true := by
  cases v <;> simp_all [JSVal.withDefault]

theorem isPrimitive_or {v d : JSVal} (hv : v.isPrimitive = true) (hd : d.isPrimitive = true) :
    (v.or d).isPrimitive = true := by
  unfold JSVal.or; split <;> assumption

theorem isPrimitive_lookup (ps : List (String × JSVal)) (k : String)
    (h : (ps.all fun p => p.2.isPrimitive) = true) :
    ((ps.lookup k).getD .undefined).isPrimitive = true := by
  induction ps with
  | nil => rfl
  | cons p ps ih =>
    obtain ⟨a, v⟩ := p
    simp only [List.all_cons, Bool.and_eq_true] at h
    simp only [List.lookup]
    cases hk : (k == a)
    · exact ih h.2
    · exact h.1

theorem isPrimitive_get {it : JSVal} (h : wellFormed it = true) (k : String)
    (hk : k ∈ convertedKeys) : (it.get k).isPrimitive = true := by
  simp only [wellFormed, Bool.and_eq_true, List.all_eq_true] at h
  exact h.2 k hk

theorem destructurable_of_wellFormed {it : JSVal} (h : wellFormed it = true) :
    it.destructurable = true := by
  simp only [wellFormed, Bool.and_eq_true] at h
  exact h.1

/-- An object whose property values are all primitive is well-formed. -/
theorem wellFormed_of_primitive_props (ps : List (String × JSVal))
    (h : (ps.all fun p => p.2.isPrimitive) = true) : wellFormed (.obj ps) = true := by
  simp only [wellFormed, Bool.and_eq_true, List.all_eq_true]
  exact ⟨rfl, fun k _ => isPrimitive_lookup ps k h⟩

theorem percent_of_isPrimitive {v c : JSVal} (hv : v.isPrimitive = true)
    (hc : c.isPrimitive = true) : ∃ s, percent v c = .ok s := by
  obtain ⟨x, hx⟩ := toNumber_of_isPrimitive hv
  obtain ⟨y, hy⟩ := toNumber_of_isPrimitive hc
  exact ⟨_, by simp [percent, JSVal.div, hx, hy, bind, Except.bind, pure, Except.pure]; rfl⟩

theorem percent_num (x c : JSNum) :
    percent (.num x) (.num c) = .ok (((x.div c).mul (JSNum.ofNat 100)).toFixed 2) := by
  simp [percent, JSVal.div, JSVal.toNumber, bind, Except.bind, pure, Except.pure]


/-! ## Lemmas: what the callback emits for one item -/

/-- Piece emitted for a rect. -/
theorem emitItem_rect {cW cH it : JSVal} (ht : (it.get "type").isStr "rect" = true)
    (p : EmitState) :
    emitItem cW cH it = .ok p ↔
      it.destructurable = true ∧
      ∃ left top width height cls fill rot,
        percent (it.get "x") cW = .ok left ∧ percent (it.get "y") cH = .ok top ∧
        percent (it.get "width") cW = .ok width ∧ percent (it.get "height") cH = .ok height ∧
        (it.get "id").toStr = .ok cls ∧
        ((it.get "fill").withDefault (.str "#ddd")).toStr = .ok fill ∧
        ((it.get "rotate").withDefault (.num (JSNum.ofNat 0))).toStr = .ok rot ∧
        p = { htmlChildren := rectNode (className cls)
              cssRules := [rectRule (className cls) left top width height fill rot]
              assets := [] } := by
  simp only [emitItem, forEachBody, EmitState.empty, bind, Except.bind, pure, Except.pure, ht,
    if_true]
  by_cases hd : it.destructurable = false
  · simp [hd]
  simp only [if_neg hd]
  have hd' : it.destructurable = true := by simpa using hd
  cases percent (it.get "x") cW; · simp
  cases percent (it.get "y") cH; · simp
  cases percent (it.get "width") cW; · simp
  cases percent (it.get "height") cH; · simp
  cases (it.get "id").toStr; · simp
  cases ((it.get "fill").withDefault (.str "#ddd")).toStr; · simp
  cases ((it.get "rotate").withDefault (.num (JSNum.ofNat 0))).toStr; · simp
  simp [hd', empty_append, eq_comm]

/-- Piece emitted for a text. -/
theorem emitItem_text {cW cH it : JSVal} (hr : (it.get "type").isStr "rect" = false)
    (ht : (it.get "type").isStr "text" = true) (p : EmitState) :
    emitItem cW cH it = .ok p ↔
      it.destructurable = true ∧
      ∃ left top fontVw cls text fill,
        percent (it.get "x") cW = .ok left ∧ percent (it.get "y") cH = .ok top ∧
        percent ((it.get "fontSize").withDefault (.num (JSNum.ofNat 16))) cW = .ok fontVw ∧
        (it.get "id").toStr = .ok cls ∧
        ((it.get "text").withDefault (.str "")).toStr = .ok text ∧
        ((it.get "fill").withDefault (.str "#000")).toStr = .ok fill ∧
        p = { htmlChildren := textNode (className cls) (escape text)
              cssRules := [textRule (className cls) left top fontVw fill]
              assets := [] } := by
  simp only [emitItem, forEachBody, EmitState.empty, bind, Except.bind, pure, Except.pure, hr, ht,
    if_true]
  by_cases hd : it.destructurable = false
  · simp [hd]
  simp only [if_neg hd]
  have hd' : it.destructurable = true := by simpa using hd
  cases percent (it.get "x") cW; · simp
  cases percent (it.get "y") cH; · simp
  cases percent ((it.get "fontSize").withDefault (.num (JSNum.ofNat 16))) cW; · simp
  cases (it.get "id").toStr; · simp
  cases ((it.get "text").withDefault (.str "")).toStr; · simp
  cases ((it.get "fill").withDefault (.str "#000")).toStr; · simp
  simp [hd', empty_append, eq_comm]

/-- Piece emitted for an image. -/
theorem emitItem_image {cW cH it : JSVal} (hr : (it.get "type").isStr "rect" = false)
    (ht : (it.get "type").isStr "text" = false) (hi : (it.get "type").isStr "image" = true)
    (p : EmitState) :
    emitItem cW cH it = .ok p ↔
      it.destructurable = true ∧
      ∃ left top width height cls,
        percent (it.get "x") cW = .ok left ∧ percent (it.get "y") cH = .ok top ∧
        percent ((it.get "width").withDefault (.num (JSNum.ofNat 200))) cW = .ok width ∧
        percent ((it.get "height").withDefault (.num (JSNum.ofNat 120))) cH = .ok height ∧
        (it.get "id").toStr = .ok cls ∧
        p = { htmlChildren := imageNode (className cls) (filename cls)
              cssRules := [imageRule (className cls) left top width height]
              assets := [{ id := it.get "id", src := it.get "src" }] } := by
  simp only [emitItem, forEachBody, EmitState.empty, bind, Except.bind, pure, Except.pure, hr, ht,
    hi, if_true]
  by_cases hd : it.destructurable = false
  · simp [hd]
  simp only [if_neg hd]
  have hd' : it.destructurable = true := by simpa using hd
  cases percent (it.get "x") cW; · simp
  cases percent (it.get "y") cH; · simp
  cases percent ((it.get "width").withDefault (.num (JSNum.ofNat 200))) cW; · simp
  cases percent ((it.get "height").withDefault (.num (JSNum.ofNat 120))) cH; · simp
  cases (it.get "id").toStr; · simp
  simp [hd', empty_append, eq_comm]

/-- An item of any other type emits nothing. -/
theorem emitItem_other {cW cH it : JSVal} (he : exported it = false) (p : EmitState) :
    emitItem cW cH it = .ok p ↔
      it.destructurable = true ∧
      (∃ left top, percent (it.get "x") cW = .ok left ∧ percent (it.get "y") cH = .ok top) ∧
      p = EmitState.empty := by
  simp only [exported, Bool.or_eq_false_iff] at he
  obtain ⟨⟨hr, ht⟩, hi⟩ := he
  simp only [emitItem, forEachBody, bind, Except.bind, pure, Except.pure, hr, ht, hi]
  by_cases hd : it.destructurable = false
  · simp [hd]
  simp only [if_neg hd]
  have hd' : it.destructurable = true := by simpa using hd
  cases percent (it.get "x") cW; · simp
  cases percent (it.get "y") cH; · simp
  simp [hd', eq_comm]


/-! ## Lemmas: the loop and the assembled result -/

theorem forEachBody_eq (cW cH st it) :
    forEachBody cW cH st it = (emitItem cW cH it).map (fun p => st.append p) := by
  simp only [emitItem, forEachBody, EmitState.empty, bind, Except.bind, pure, Except.pure, Except.map]
  by_cases hd : it.destructurable = false
  · simp [hd]
  · simp only [if_neg hd]
    cases percent (it.get "x") cW
    · rfl
    cases percent (it.get "y") cH
    · rfl
    simp only
    split_ifs
    · cases percent (it.get "width") cW
      · rfl
      cases percent (it.get "height") cH
      · rfl
      cases (it.get "id").toStr
      · rfl
      cases ((it.get "fill").withDefault (.str "#ddd")).toStr
      · rfl
      cases ((it.get "rotate").withDefault (.num (JSNum.ofNat 0))).toStr
      · rfl
      simp [EmitState.append, empty_append]
    · cases percent ((it.get "fontSize").withDefault (.num (JSNum.ofNat 16))) cW
      · rfl
      cases (it.get "id").toStr
      · rfl
      cases ((it.get "text").withDefault (.str "")).toStr
      · rfl
      cases ((it.get "fill").withDefault (.str "#000")).toStr
      · rfl
      simp [EmitState.append, empty_append]
    · cases percent ((it.get "width").withDefault (.num (JSNum.ofNat 200))) cW
      · rfl
      cases percent ((it.get "height").withDefault (.num (JSNum.ofNat 120))) cH
      · rfl
      cases (it.get "id").toStr
      · rfl
      simp [EmitState.append, empty_append]
    · simp [EmitState.append]
theorem foldlM_forEachBody (cW cH : JSVal) (its : List JSVal) (st : EmitState) :
    its.foldlM (forEachBody cW cH) st =
      (emitAll cW cH its).map fun ps => ps.foldl EmitState.append st := by
  induction its generalizing st with
  | nil => simp [emitAll, Except.map, pure, Except.pure]
  | cons it rest ih =>
    simp only [List.foldlM_cons, emitAll, forEachBody_eq]
    cases emitItem cW cH it with
    | error e => rfl
    | ok p =>
      simp only [Except.map, bind, Except.bind, ih]
      cases emitAll cW cH rest with
      | error e => rfl
      | ok ps => rfl

theorem foldl_append_html (ps : List EmitState) (st : EmitState) :
    (ps.foldl EmitState.append st).htmlChildren =
      st.htmlChildren ++ String.join (ps.map fun p => p.htmlChildren) := by
  induction ps generalizing st with
  | nil => apply String.ext; simp
  | cons p ps ih =>
    simp only [List.foldl_cons, ih, List.map_cons]
    apply String.ext
    simp [EmitState.append]

theorem foldl_append_css (ps : List EmitState) (st : EmitState) :
    (ps.foldl EmitState.append st).cssRules =
      st.cssRules ++ (ps.map fun p => p.cssRules).flatten := by
  induction ps generalizing st with
  | nil => simp
  | cons p ps ih => simp [List.foldl_cons, ih, EmitState.append]

theorem foldl_append_assets (ps : List EmitState) (st : EmitState) :
    (ps.foldl EmitState.append st).assets =
      st.assets ++ (ps.map fun p => p.assets).flatten := by
  induction ps generalizing st with
  | nil => simp
  | cons p ps ih => simp [List.foldl_cons, ih, EmitState.append]

theorem isWhiteSpace_lt : isWhiteSpace '<' = false := by decide

theorem isWhiteSpace_gt : isWhiteSpace '>' = false := by decide

theorem pageHead_data : pageHead.data = '<' :: (pageHead.data.drop 1) := by rfl

theorem pageFoot_data : pageFoot.data = pageFoot.data.dropLast ++ ['>'] := by rfl

theorem trim_page (mid : String) :
    trim (pageHead ++ mid ++ pageFoot) = pageHead ++ mid ++ pageFoot := by
  apply String.ext
  simp only [trim, trimChars, String.data_append]
  rw [pageHead_data, pageFoot_data]
  generalize pageHead.data.drop 1 = hd
  generalize pageFoot.data.dropLast = ft
  simp [List.dropWhile_cons, isWhiteSpace_lt, isWhiteSpace_gt, List.reverse_append]

/-- The emitter on an array: the pieces of the items, assembled. -/
theorem buildHTMLAndCSS_arr (its : List JSVal) (cw ch : JSVal) :
    buildHTMLAndCSS (.arr its) cw ch =
      (emitAll (cw.or (.num (JSNum.ofNat 1100))) (ch.or (.num (JSNum.ofNat 700))) its).map
        assemble := by
  simp only [buildHTMLAndCSS, foldlM_forEachBody, bind, Except.bind, pure, Except.pure]
  cases emitAll (cw.or (.num (JSNum.ofNat 1100))) (ch.or (.num (JSNum.ofNat 700))) its with
  | error e => rfl
  | ok ps =>
    simp only [Except.map, assemble, foldl_append_html, foldl_append_css, foldl_append_assets,
      trim_page, empty_append, List.nil_append]

/-! ## Lemmas: decimal digits and `toFixed(2)` -/

theorem toDigitsCore_eq (n : Nat) : ∀ (fuel : Nat) (ds : List Char), n < fuel →
    Nat.toDigitsCore 10 fuel n ds = Nat.toDigits 10 n ++ ds := by
  induction n using Nat.strong_induction_on with
  | _ n ih =>
    intro fuel ds h
    obtain ⟨f, rfl⟩ : ∃ f, fuel = f + 1 := ⟨fuel - 1, by omega⟩
    by_cases h0 : n / 10 = 0
    · simp [Nat.toDigits, Nat.toDigitsCore, h0]
    · have hlt : n / 10 < n := by omega
      have e1 : Nat.toDigits 10 n = Nat.toDigits 10 (n / 10) ++ [Nat.digitChar (n % 10)] := by
        show Nat.toDigitsCore 10 (n + 1) n [] = _
        simp only [Nat.toDigitsCore, h0, if_false]
        exact ih (n / 10) hlt n _ hlt
      rw [e1]
      simp only [Nat.toDigitsCore, h0, if_false]
      rw [ih (n / 10) hlt f _ (by omega)]
      simp

theorem toDigits_of_lt {n : Nat} (h : n < 10) : Nat.toDigits 10 n = [Nat.digitChar n] := by
  have h0 : n / 10 = 0 := by omega
  have h1 : n % 10 = n := by omega
  simp [Nat.toDigits, Nat.toDigitsCore, h0, h1]

theorem toDigits_of_ge {n : Nat} (h : 10 ≤ n) :
    Nat.toDigits 10 n = Nat.toDigits 10 (n / 10) ++ [Nat.digitChar (n % 10)] := by
  have h0 : n / 10 ≠ 0 := by omega
  show Nat.toDigitsCore 10 (n + 1) n [] = _
  simp only [Nat.toDigitsCore, h0, if_false]
  exact toDigitsCore_eq (n / 10) n _ (by omega)

theorem digitChar_zero : Nat.digitChar 0 = '0' := rfl

theorem toDigits_length_pos (n : Nat) : 0 < (Nat.toDigits 10 n).length := by
  by_cases h : n < 10
  · simp [toDigits_of_lt h]
  · simp [toDigits_of_ge (by omega : 10 ≤ n)]

/-- The two last digits of a natural number, as characters. -/
theorem toDigits_split (n : Nat) :
    (if (Nat.toDigits 10 n).length ≤ 2
      then List.replicate (3 - (Nat.toDigits 10 n).length) '0' ++ Nat.toDigits 10 n
      else Nat.toDigits 10 n) =
    Nat.toDigits 10 (n / 100) ++ [Nat.digitChar (n / 10 % 10), Nat.digitChar (n % 10)] := by
  by_cases h1 : n < 10
  · have e0 : n / 100 = 0 := by omega
    have e1 : n / 10 % 10 = 0 := by omega
    have e2 : n % 10 = n := by omega
    rw [toDigits_of_lt h1, e0, e1, e2]
    simp [toDigits_of_lt, digitChar_zero]
  · by_cases h2 : n < 100
    · have e0 : n / 100 = 0 := by omega
      have e1 : n / 10 % 10 = n / 10 := by omega
      rw [toDigits_of_ge (by omega), toDigits_of_lt (by omega : n / 10 < 10), e0, e1]
      simp [toDigits_of_lt, digitChar_zero]
    · have e0 : n / 10 / 10 = n / 100 := by omega
      have hpos := toDigits_length_pos (n / 100)
      rw [toDigits_of_ge (by omega), toDigits_of_ge (by omega : 10 ≤ n / 10), e0]
      have : ¬ ((Nat.toDigits 10 (n / 100) ++ [Nat.digitChar (n / 10 % 10)] ++
          [Nat.digitChar (n % 10)]).length ≤ 2) := by
        simp only [List.length_append, List.length_cons, List.length_nil]; omega
      rw [if_neg this]
      simp

theorem digits_data (n : Nat) : (digits n).data = Nat.toDigits 10 n := rfl

theorem digits_zero : digits 0 = "0" := rfl

/-- Below `10 ^ 21`, `toFixed(2)` writes the nearest hundredth (ties away from zero): a sign,
the digits of the integer part, a point and two digits. -/
theorem toFixed_two (neg : Bool) (q : ℚ) (hq : q < 10 ^ 21) :
    (JSNum.fin neg q).toFixed 2 =
      (if neg = true ∧ 0 < q then "-" else "") ++
        digits ((q * 10 ^ 2 + 1 / 2).floor.toNat / 100) ++ "." ++
        String.mk [Nat.digitChar ((q * 10 ^ 2 + 1 / 2).floor.toNat / 10 % 10),
          Nat.digitChar ((q * 10 ^ 2 + 1 / 2).floor.toNat % 10)] := by
  have hq' : ¬ ((10 : ℚ) ^ 21 ≤ q) := not_le.mpr hq
  simp only [JSNum.toFixed, if_neg hq', (by decide : ¬ (2 = 0))]
  generalize (q * 10 ^ 2 + 1 / 2).floor.toNat = n
  have hm : (if n = 0 then "0" else digits n) = digits n := by
    split
    · next h => rw [h, digits_zero]
    · rfl
  rw [hm]
  have key := toDigits_split n
  apply String.ext
  simp only [String.data_append, String.length, digits_data, zeros]
  have e : ((if (Nat.toDigits 10 n).length ≤ 2
      then String.mk (List.replicate (2 + 1 - (Nat.toDigits 10 n).length) '0') ++ digits n
      else digits n).data) =
      Nat.toDigits 10 (n / 100) ++ [Nat.digitChar (n / 10 % 10), Nat.digitChar (n % 10)] := by
    rw [← key]
    split <;> simp [digits_data]
  rw [e]
  simp

/-! ## Lemmas: the numeral with two decimals is one -/

theorem isDigit_digitChar {k : Nat} (h : k < 10) : (Nat.digitChar k).isDigit = true := by
  interval_cases k <;> decide

theorem digitChar_ne_minus {k : Nat} (h : k < 10) : Nat.digitChar k ≠ '-' := by
  interval_cases k <;> decide

theorem isDigit_toDigits (n : Nat) : ∀ c ∈ Nat.toDigits 10 n, c.isDigit = true := by
  induction n using Nat.strong_induction_on with
  | _ n ih =>
    by_cases h : n < 10
    · rw [toDigits_of_lt h]
      intro c hc
      simp only [List.mem_singleton] at hc
      rw [hc]; exact isDigit_digitChar h
    · rw [toDigits_of_ge (by omega)]
      intro c hc
      rcases List.mem_append.mp hc with hc | hc
      · exact ih (n / 10) (by omega) c hc
      · simp only [List.mem_singleton] at hc
        rw [hc]; exact isDigit_digitChar (Nat.mod_lt _ (by decide))

theorem takeWhile_digits (ds rest : List Char) (h : ∀ c ∈ ds, c.isDigit = true) :
    (ds ++ '.' :: rest).takeWhile Char.isDigit = ds ∧
    (ds ++ '.' :: rest).dropWhile Char.isDigit = '.' :: rest := by
  induction ds with
  | nil => exact ⟨by simp [List.takeWhile_cons, show Char.isDigit '.' = false by decide],
      by simp [List.dropWhile_cons, show Char.isDigit '.' = false by decide]⟩
  | cons d ds ih =>
    have hd : d.isDigit = true := h d (by simp)
    obtain ⟨h1, h2⟩ := ih (fun c hc => h c (by simp [hc]))
    exact ⟨by simp [List.takeWhile_cons, hd, h1], by simp [List.dropWhile_cons, hd, h2]⟩

theorem isTwoDecimal_digits (ds : List Char) (a b : Char) (hds : ∀ c ∈ ds, c.isDigit = true)
    (hne : ds ≠ []) (ha : a.isDigit = true) (hb : b.isDigit = true) (neg : Bool) :
    isTwoDecimal (String.mk ((if neg then ['-'] else []) ++ (ds ++ ['.', a, b]))) = true := by
  obtain ⟨h1, h2⟩ := takeWhile_digits ds [a, b] hds
  have hstrip : (match (if neg then ['-'] else []) ++ (ds ++ ['.', a, b]) with
      | '-' :: r => r
      | r => r) = ds ++ ['.', a, b] := by
    cases neg
    · cases ds with
      | nil => exact absurd rfl hne
      | cons d t =>
        have hd : d.isDigit = true := hds d (by simp)
        have : d ≠ '-' := by
          intro hc; rw [hc] at hd; exact absurd hd (by decide)
        simp only [Bool.false_eq_true, if_false, List.nil_append, List.cons_append]
        split
        · next r heq => simp only [List.cons.injEq] at heq; exact absurd heq.1 this
        · rfl
    · simp
  simp only [isTwoDecimal, hstrip, h1, h2, ha, hb]
  cases ds with
  | nil => exact absurd rfl hne
  | cons d t => simp

/-- The numeral `twoDecimals s q` has exactly two digits after its point. -/
theorem isTwoDecimal_twoDecimals (s : Bool) (q : ℚ) : isTwoDecimal (twoDecimals s q) = true := by
  have h := isTwoDecimal_digits (Nat.toDigits 10 ((q * 10 ^ 2 + 1 / 2).floor.toNat / 100))
    (Nat.digitChar ((q * 10 ^ 2 + 1 / 2).floor.toNat / 10 % 10))
    (Nat.digitChar ((q * 10 ^ 2 + 1 / 2).floor.toNat % 10))
    (isDigit_toDigits _) (by
      intro hnil
      have := toDigits_length_pos ((q * 10 ^ 2 + 1 / 2).floor.toNat / 100)
      rw [hnil] at this
      exact absurd this (by decide))
    (isDigit_digitChar (Nat.mod_lt _ (by decide))) (isDigit_digitChar (Nat.mod_lt _ (by decide)))
    (decide (s = true ∧ 0 < q))
  rw [← h]
  congr 1
  apply String.ext
  simp only [twoDecimals, String.data_append, digits_data]
  by_cases hs : s = true ∧ 0 < q
  · simp [hs]
  · simp [hs]

/-- Below `10 ^ 21`, `toFixed(2)` yields the numeral with two decimals. -/
theorem toFixed_two_spec (v : JSNum) (s : Bool) (q : ℚ) (hv : v = .fin s q) (hq : q < 10 ^ 21) :
    v.toFixed 2 = twoDecimals s q ∧ isTwoDecimal (v.toFixed 2) = true := by
  have h : v.toFixed 2 = twoDecimals s q := by rw [hv]; exact toFixed_two s q hq
  exact ⟨h, by rw [h]; exact isTwoDecimal_twoDecimals s q⟩

/-! ## Lemmas: the pieces of a list of items -/

theorem emitAll_cons_ok {cW cH it : JSVal} {rest : List JSVal} {ps : List EmitState} :
    emitAll cW cH (it :: rest) = .ok ps ↔
      ∃ p qs, emitItem cW cH it = .ok p ∧ emitAll cW cH rest = .ok qs ∧ ps = p :: qs := by
  simp only [emitAll]
  cases emitItem cW cH it with
  | error e => simp
  | ok p =>
    cases emitAll cW cH rest with
    | error e => simp
    | ok qs => simp [eq_comm]

theorem emitAll_length {cW cH : JSVal} {its : List JSVal} {ps : List EmitState}
    (h : emitAll cW cH its = .ok ps) : ps.length = its.length := by
  induction its generalizing ps with
  | nil => simp [emitAll] at h; simp [← h]
  | cons it rest ih =>
    obtain ⟨p, qs, _, h2, rfl⟩ := emitAll_cons_ok.mp h
    simp [ih h2]

theorem emitAll_getElem {cW cH : JSVal} {its : List JSVal} {ps : List EmitState}
    (h : emitAll cW cH its = .ok ps) {i : Nat} {it : JSVal} (hi : its[i]? = some it) :
    ∃ p, ps[i]? = some p ∧ emitItem cW cH it = .ok p := by
  induction its generalizing ps i with
  | nil => simp at hi
  | cons a rest ih =>
    obtain ⟨p, qs, h1, h2, rfl⟩ := emitAll_cons_ok.mp h
    cases i with
    | zero =>
      simp only [List.getElem?_cons_zero, Option.some.injEq] at hi
      subst hi
      exact ⟨p, by simp, h1⟩
    | succ j =>
      simp only [List.getElem?_cons_succ] at hi
      obtain ⟨q, hq, hq'⟩ := ih h2 hi
      exact ⟨q, by simpa using hq, hq'⟩

theorem emitItem_total {cW cH it : JSVal} (hit : wellFormed it = true)
    (hW : cW.isPrimitive = true) (hH : cH.isPrimitive = true) :
    ∃ p, emitItem cW cH it = .ok p := by
  have hd := destructurable_of_wellFormed hit
  have hg := isPrimitive_get hit
  obtain ⟨left, hl⟩ := percent_of_isPrimitive (hg "x" (by decide)) hW
  obtain ⟨top, ht⟩ := percent_of_isPrimitive (hg "y" (by decide)) hH
  obtain ⟨cls, hc⟩ := toStr_of_isPrimitive (hg "id" (by decide))
  by_cases h1 : (it.get "type").isStr "rect" = true
  · obtain ⟨w, hw⟩ := percent_of_isPrimitive (hg "width" (by decide)) hW
    obtain ⟨h, hh⟩ := percent_of_isPrimitive (hg "height" (by decide)) hH
    obtain ⟨f, hf⟩ := toStr_of_isPrimitive
      (isPrimitive_withDefault (hg "fill" (by decide)) (d := .str "#ddd") rfl)
    obtain ⟨r, hr⟩ := toStr_of_isPrimitive
      (isPrimitive_withDefault (hg "rotate" (by decide)) (d := .num (JSNum.ofNat 0)) rfl)
    exact ⟨_, (emitItem_rect h1 _).mpr ⟨hd, _, _, _, _, _, _, _, hl, ht, hw, hh, hc, hf, hr, rfl⟩⟩
  have h1' : (it.get "type").isStr "rect" = false := by simpa using h1
  by_cases h2 : (it.get "type").isStr "text" = true
  · obtain ⟨v, hv⟩ := percent_of_isPrimitive
      (isPrimitive_withDefault (hg "fontSize" (by decide)) (d := .num (JSNum.ofNat 16)) rfl) hW
    obtain ⟨t, htx⟩ := toStr_of_isPrimitive
      (isPrimitive_withDefault (hg "text" (by decide)) (d := .str "") rfl)
    obtain ⟨f, hf⟩ := toStr_of_isPrimitive
      (isPrimitive_withDefault (hg "fill" (by decide)) (d := .str "#000") rfl)
    exact ⟨_, (emitItem_text h1' h2 _).mpr ⟨hd, _, _, _, _, _, _, hl, ht, hv, hc, htx, hf, rfl⟩⟩
  have h2' : (it.get "type").isStr "text" = false := by simpa using h2
  by_cases h3 : (it.get "type").isStr "image" = true
  · obtain ⟨w, hw⟩ := percent_of_isPrimitive
      (isPrimitive_withDefault (hg "width" (by decide)) (d := .num (JSNum.ofNat 200)) rfl) hW
    obtain ⟨h, hh⟩ := percent_of_isPrimitive
      (isPrimitive_withDefault (hg "height" (by decide)) (d := .num (JSNum.ofNat 120)) rfl) hH
    exact ⟨_, (emitItem_image h1' h2' h3 _).mpr ⟨hd, _, _, _, _, _, hl, ht, hw, hh, hc, rfl⟩⟩
  have h3' : (it.get "type").isStr "image" = false := by simpa using h3
  exact ⟨_, (emitItem_other (by simp [exported, h1', h2', h3']) _).mpr
    ⟨hd, ⟨_, _, hl, ht⟩, rfl⟩⟩

theorem emitAll_total {cW cH : JSVal} {its : List JSVal}
    (hits : ∀ e ∈ its, wellFormed e = true)
    (hW : cW.isPrimitive = true) (hH : cH.isPrimitive = true) :
    ∃ ps, emitAll cW cH its = .ok ps := by
  induction its with
  | nil => exact ⟨[], rfl⟩
  | cons it rest ih =>
    obtain ⟨p, hp⟩ := emitItem_total (hits it (by simp)) hW hH
    obtain ⟨qs, hqs⟩ := ih (fun e he => hits e (by simp [he]))
    exact ⟨p :: qs, emitAll_cons_ok.mpr ⟨p, qs, hp, hqs, rfl⟩⟩

/-- On well-formed items and primitive canvas dimensions the emitter returns. -/
theorem buildHTMLAndCSS_total (its : List JSVal) (cw ch : JSVal)
    (hits : ∀ e ∈ its, wellFormed e = true)
    (hW : cw.isPrimitive = true) (hH : ch.isPrimitive = true) :
    ∃ ps, emitAll (cw.or (.num (JSNum.ofNat 1100))) (ch.or (.num (JSNum.ofNat 700))) its = .ok ps ∧
      buildHTMLAndCSS (.arr its) cw ch = .ok (assemble ps) := by
  obtain ⟨ps, hps⟩ := emitAll_total hits (isPrimitive_or hW (d := .num (JSNum.ofNat 1100)) rfl)
    (isPrimitive_or hH (d := .num (JSNum.ofNat 700)) rfl)
  exact ⟨ps, hps, by rw [buildHTMLAndCSS_arr, hps]; rfl⟩

/-! ## Lemmas: shape of the style rules -/

theorem rectRule_eq (cls left top width height fill rot : String) :
    rectRule cls left top width height fill rot =
      "." ++ cls ++ "\x7bleft:" ++ left ++ "%;top:" ++ top ++ "%;" ++
        ("width:" ++ width ++ "%;height:" ++ height ++ "%;" ++
          ("background:" ++ fill ++ ";transform: rotate(" ++ rot ++ "deg);\x7d")) := by
  apply String.ext
  simp only [rectRule, String.data_append, List.append_assoc]
  rfl

theorem textRule_eq (cls left top fontVw fill : String) :
    textRule cls left top fontVw fill =
      "." ++ cls ++ "\x7bleft:" ++ left ++ "%;top:" ++ top ++ "%;" ++
        ("font-size:" ++ fontVw ++ "vw" ++ (";color:" ++ fill ++ ";\x7d")) := by
  apply String.ext
  simp only [textRule, String.data_append, List.append_assoc]
  rfl

theorem imageRule_eq (cls left top width height : String) :
    imageRule cls left top width height =
      "." ++ cls ++ "\x7bleft:" ++ left ++ "%;top:" ++ top ++ "%;" ++
        ("width:" ++ width ++ "%;height:" ++ height ++ "%;" ++ "\x7d") := by
  apply String.ext
  simp only [imageRule, String.data_append, List.append_assoc]
  rfl

theorem or_of_pos {w : ℚ} (hw : 0 < w) (s : Bool) (d : JSVal) :
    (JSVal.num (.fin s w)).or d = .num (.fin s w) := by
  simp [JSVal.or, JSVal.toBoolean, ne_of_gt hw]

/-- Every exported item has one style rule, which starts with its class and its position. -/
theorem exported_rule {cW cH it : JSVal} {p : EmitState} (he : exported it = true)
    (h : emitItem cW cH it = .ok p) :
    ∃ left top cls rest,
      percent (it.get "x") cW = .ok left ∧ percent (it.get "y") cH = .ok top ∧
      (it.get "id").toStr = .ok cls ∧
      p.cssRules =
        ["." ++ className cls ++ "\x7bleft:" ++ left ++ "%;top:" ++ top ++ "%;" ++ rest] := by
  by_cases h1 : (it.get "type").isStr "rect" = true
  · obtain ⟨_, l, t, w, hh, c, f, r, hl, ht, _, _, hc, _, _, rfl⟩ := (emitItem_rect h1 p).mp h
    exact ⟨l, t, c, _, hl, ht, hc, by rw [rectRule_eq]⟩
  have h1' : (it.get "type").isStr "rect" = false := by simpa using h1
  by_cases h2 : (it.get "type").isStr "text" = true
  · obtain ⟨_, l, t, v, c, tx, f, hl, ht, _, hc, _, _, rfl⟩ := (emitItem_text h1' h2 p).mp h
    exact ⟨l, t, c, _, hl, ht, hc, by rw [textRule_eq]⟩
  have h2' : (it.get "type").isStr "text" = false := by simpa using h2
  have h3 : (it.get "type").isStr "image" = true := by
    simpa [exported, h1', h2'] using he
  obtain ⟨_, l, t, w, hh, c, hl, ht, _, _, hc, rfl⟩ := (emitItem_image h1' h2' h3 p).mp h
  exact ⟨l, t, c, _, hl, ht, hc, by rw [imageRule_eq]⟩

theorem buildHTMLAndCSS_ok {its : List JSVal} {cw ch : JSVal} {r : Output}
    (h : buildHTMLAndCSS (.arr its) cw ch = .ok r) :
    ∃ ps, emitAll (cw.or (.num (JSNum.ofNat 1100))) (ch.or (.num (JSNum.ofNat 700))) its = .ok ps ∧
      r = assemble ps := by
  rw [buildHTMLAndCSS_arr] at h
  cases hps : emitAll (cw.or (.num (JSNum.ofNat 1100))) (ch.or (.num (JSNum.ofNat 700))) its with
  | error e => simp [hps, Except.map] at h
  | ok ps =>
    simp only [hps, Except.map, Except.ok.injEq] at h
    exact ⟨ps, rfl, h.symm⟩

/-- C1 (amended). For an element of type rect, text or image at index `i` with Number `x`
and `y`, on a canvas of positive width `w` and height `h`: the emitter returns on well-formed
items, and whenever it returns, the style rule emitted for that element reads
`.el-<id>{left:<L>%;top:<T>%;...` where `L` is `toFixed(2)` of the Number `x / w * 100` and
`T` is `toFixed(2)` of the Number `y / h * 100`; each is the numeral with two decimals of
that Number whenever the Number is finite and below `10 ^ 21` in magnitude. -/
theorem C1_left_top_percent (its : List JSVal) (i : Nat) (it : JSVal) (x y : JSNum) (w h : ℚ)
    (hi : its[i]? = some it) (he : exported it = true)
    (hx : it.get "x" = .num x) (hy : it.get "y" = .num y) (hw : 0 < w) (hh : 0 < h) :
    ((∀ e ∈ its, wellFormed e = true) →
      ∃ r, buildHTMLAndCSS (.arr its) (.num (.fin false w)) (.num (.fin false h)) = .ok r) ∧
    ∀ r, buildHTMLAndCSS (.arr its) (.num (.fin false w)) (.num (.fin false h)) = .ok r →
      ∃ ps p cls rest,
        emitAll (.num (.fin false w)) (.num (.fin false h)) its = .ok ps ∧ r = assemble ps ∧
        ps[i]? = some p ∧ (it.get "id").toStr = .ok cls ∧
        p.cssRules =
          ["." ++ className cls ++ "\x7bleft:" ++
            ((x.div (.fin false w)).mul (JSNum.ofNat 100)).toFixed 2 ++ "%;top:" ++
            ((y.div (.fin false h)).mul (JSNum.ofNat 100)).toFixed 2 ++ "%;" ++ rest] ∧
        (∀ s q, (x.div (.fin false w)).mul (JSNum.ofNat 100) = .fin s q → q < 10 ^ 21 →
          ((x.div (.fin false w)).mul (JSNum.ofNat 100)).toFixed 2 = twoDecimals s q ∧
            isTwoDecimal (((x.div (.fin false w)).mul (JSNum.ofNat 100)).toFixed 2) = true) ∧
        (∀ s q, (y.div (.fin false h)).mul (JSNum.ofNat 100) = .fin s q → q < 10 ^ 21 →
          ((y.div (.fin false h)).mul (JSNum.ofNat 100)).toFixed 2 = twoDecimals s q ∧
            isTwoDecimal (((y.div (.fin false h)).mul (JSNum.ofNat 100)).toFixed 2) = true) := by
  constructor
  · intro hits
    obtain ⟨ps, _, hb⟩ := buildHTMLAndCSS_total its (.num (.fin false w))
      (.num (.fin false h)) hits rfl rfl
    exact ⟨_, hb⟩
  · intro r hr
    obtain ⟨ps, hps, rfl⟩ := buildHTMLAndCSS_ok hr
    rw [or_of_pos hw, or_of_pos hh] at hps
    obtain ⟨p, hp, hpi⟩ := emitAll_getElem hps hi
    obtain ⟨l, t, c, rest, hl, ht, hc, hrule⟩ := exported_rule he hpi
    rw [hx, percent_num] at hl
    rw [hy, percent_num] at ht
    simp only [Except.ok.injEq] at hl ht
    subst hl ht
    refine ⟨ps, p, c, rest, hps, rfl, hp, hc, hrule, ?_, ?_⟩
    · intro s q hv hq
      exact toFixed_two_spec _ s q hv hq
    · intro s q hv hq
      exact toFixed_two_spec _ s q hv hq

/-- C1, the specification's example: `x=110, y=70` on a 1100 by 700 canvas gives
`left:10.00%;top:10.00%` in the rule of the element. -/
theorem C1_left_top_percent_witness :
    ∃ r ps p rest,
      buildHTMLAndCSS (.arr [sampleRect]) (numV 1100) (numV 700) = .ok r ∧
      r = assemble ps ∧ ps[0]? = some p ∧
      p.cssRules = [".el-rect-1\x7bleft:10.00%;top:10.00%;" ++ rest] := by
  have hC := C1_left_top_percent [sampleRect] 0 sampleRect (JSNum.ofNat 110) (JSNum.ofNat 70)
    (1100 : ℕ) (700 : ℕ) rfl (by decide) (by decide) (by decide) (by norm_num) (by norm_num)
  obtain ⟨r, hr⟩ := hC.1 (by decide)
  obtain ⟨ps, p, cls, rest, -, hrp, hp, hid, hrule, -, -⟩ := hC.2 r hr
  have hl : (((JSNum.ofNat 110).div (.fin false (1100 : ℕ))).mul (JSNum.ofNat 100)).toFixed 2 =
      "10.00" := by decide!
  have ht : (((JSNum.ofNat 70).div (.fin false (700 : ℕ))).mul (JSNum.ofNat 100)).toFixed 2 =
      "10.00" := by decide!
  have hcls : (sampleRect.get "id").toStr = .ok "rect-1" := by decide!
  rw [hcls] at hid
  obtain rfl := Except.ok.inj hid
  rw [hl, ht] at hrule
  refine ⟨r, ps, p, rest, hr, hrp, hp, ?_⟩
  rw [hrule]
  congr 1

/-- C1, counterexample: a rect at `x = 1.1e22` on a 1100 by 700 canvas gets the rule
`left:1e+21%`, and `1e+21` is not a numeral with two decimals (that of `10 ^ 21` is
`1000000000000000000000.00`). -/
theorem C1_counterexample :
    (buildHTMLAndCSS (.arr [farRect]) (numV 1100) (numV 700)).map Output.css =
      .ok ("\n".intercalate (baseRules ++
        [".el-r\x7bleft:1e+21%;top:10.00%;width:20.00%;height:20.00%;" ++
          "background:#ddd;transform: rotate(0deg);\x7d"])) ∧
    percent (farRect.get "x") (numV 1100) = .ok "1e+21" ∧
    isTwoDecimal "1e+21" = false ∧
    twoDecimals false (10 ^ 21) = "1000000000000000000000.00" := by
  refine ⟨by decide!, by decide!, by decide!, by decide!⟩

/-! ## Lemmas: the type tag -/

theorem isStr_eq {v : JSVal} {s : String} (h : v.isStr s = true) : v = .str s := by
  cases v <;> simp_all [JSVal.isStr]

theorem isStr_image {v : JSVal} (h : v.isStr "image" = true) :
    v.isStr "rect" = false ∧ v.isStr "text" = false := by
  rw [isStr_eq h]; exact ⟨by decide, by decide⟩

theorem isStr_text {v : JSVal} (h : v.isStr "text" = true) : v.isStr "rect" = false := by
  rw [isStr_eq h]; decide

theorem withDefault_num (n : JSNum) (d : JSVal) : (JSVal.num n).withDefault d = .num n := rfl

/-- C2 (amended). For a rect or an image at index `i` with Number `width` and `height`, on a
canvas of positive width `w` and height `h`: the emitter returns on well-formed items, and
whenever it returns, the style rule emitted for that element contains
`width:<W>%;height:<H>%;` where `W` is `toFixed(2)` of the Number `width / w * 100` and `H`
is `toFixed(2)` of the Number `height / h * 100`; each is the numeral with two decimals of
that Number whenever the Number is finite and below `10 ^ 21` in magnitude. -/
theorem C2_width_height_percent (its : List JSVal) (i : Nat) (it : JSVal) (wd ht : JSNum)
    (w h : ℚ) (hi : its[i]? = some it)
    (hty : (it.get "type").isStr "rect" = true ∨ (it.get "type").isStr "image" = true)
    (hwd : it.get "width" = .num wd) (hht : it.get "height" = .num ht)
    (hw : 0 < w) (hh : 0 < h) :
    ((∀ e ∈ its, wellFormed e = true) →
      ∃ r, buildHTMLAndCSS (.arr its) (.num (.fin false w)) (.num (.fin false h)) = .ok r) ∧
    ∀ r, buildHTMLAndCSS (.arr its) (.num (.fin false w)) (.num (.fin false h)) = .ok r →
      ∃ ps p cls left top rest,
        emitAll (.num (.fin false w)) (.num (.fin false h)) its = .ok ps ∧ r = assemble ps ∧
        ps[i]? = some p ∧ (it.get "id").toStr = .ok cls ∧
        p.cssRules =
          ["." ++ className cls ++ "\x7bleft:" ++ left ++ "%;top:" ++ top ++ "%;" ++
            ("width:" ++ ((wd.div (.fin false w)).mul (JSNum.ofNat 100)).toFixed 2 ++
              "%;height:" ++ ((ht.div (.fin false h)).mul (JSNum.ofNat 100)).toFixed 2 ++
              "%;" ++ rest)] ∧
        (∀ s q, (wd.div (.fin false w)).mul (JSNum.ofNat 100) = .fin s q → q < 10 ^ 21 →
          ((wd.div (.fin false w)).mul (JSNum.ofNat 100)).toFixed 2 = twoDecimals s q ∧
            isTwoDecimal (((wd.div (.fin false w)).mul (JSNum.ofNat 100)).toFixed 2) = true) ∧
        (∀ s q, (ht.div (.fin false h)).mul (JSNum.ofNat 100) = .fin s q → q < 10 ^ 21 →
          ((ht.div (.fin false h)).mul (JSNum.ofNat 100)).toFixed 2 = twoDecimals s q ∧
            isTwoDecimal (((ht.div (.fin false h)).mul (JSNum.ofNat 100)).toFixed 2) = true) := by
  constructor
  · intro hits
    obtain ⟨ps, _, hb⟩ := buildHTMLAndCSS_total its (.num (.fin false w))
      (.num (.fin false h)) hits rfl rfl
    exact ⟨_, hb⟩
  · intro r hr
    obtain ⟨ps, hps, rfl⟩ := buildHTMLAndCSS_ok hr
    rw [or_of_pos hw, or_of_pos hh] at hps
    obtain ⟨p, hp, hpi⟩ := emitAll_getElem hps hi
    have two : ∀ (v : JSNum) (s : Bool) (q : ℚ), v = .fin s q → q < 10 ^ 21 →
        v.toFixed 2 = twoDecimals s q ∧ isTwoDecimal (v.toFixed 2) = true :=
      fun v s q hv hq => toFixed_two_spec v s q hv hq
    rcases hty with h1 | h3
    · obtain ⟨_, l, t, wS, hS, c, f, ro, _, _, hwS, hhS, hc, _, _, rfl⟩ :=
        (emitItem_rect h1 p).mp hpi
      rw [hwd, percent_num] at hwS
      rw [hht, percent_num] at hhS
      simp only [Except.ok.injEq] at hwS hhS
      subst hwS hhS
      exact ⟨ps, _, c, l, t, _, hps, rfl, hp, hc, by rw [rectRule_eq], two _, two _⟩
    · obtain ⟨h1, h2⟩ := isStr_image h3
      obtain ⟨_, l, t, wS, hS, c, _, _, hwS, hhS, hc, rfl⟩ := (emitItem_image h1 h2 h3 p).mp hpi
      rw [hwd, withDefault_num, percent_num] at hwS
      rw [hht, withDefault_num, percent_num] at hhS
      simp only [Except.ok.injEq] at hwS hhS
      subst hwS hhS
      exact ⟨ps, _, c, l, t, _, hps, rfl, hp, hc, by rw [imageRule_eq], two _, two _⟩

/-- C2, the specification's example: a rect with `width=220` on a canvas 1100 wide gets
`width:20.00%` in its rule (and `height:20.00%` for a height of 140 on 700). -/
theorem C2_width_height_percent_witness :
    ∃ r ps p pre rest,
      buildHTMLAndCSS (.arr [sampleRect]) (numV 1100) (numV 700) = .ok r ∧
      r = assemble ps ∧ ps[0]? = some p ∧
      p.cssRules = [pre ++ ("width:20.00%;height:20.00%;" ++ rest)] := by
  have hC := C2_width_height_percent [sampleRect] 0 sampleRect (JSNum.ofNat 220)
    (JSNum.ofNat 140) (1100 : ℕ) (700 : ℕ) rfl (Or.inl (by decide)) (by decide) (by decide)
    (by norm_num) (by norm_num)
  obtain ⟨r, hr⟩ := hC.1 (by decide)
  obtain ⟨ps, p, cls, left, top, rest, -, hrp, hp, -, hrule, -, -⟩ := hC.2 r hr
  have hl : (((JSNum.ofNat 220).div (.fin false (1100 : ℕ))).mul (JSNum.ofNat 100)).toFixed 2 =
      "20.00" := by decide!
  have ht : (((JSNum.ofNat 140).div (.fin false (700 : ℕ))).mul (JSNum.ofNat 100)).toFixed 2 =
      "20.00" := by decide!
  rw [hl, ht] at hrule
  refine ⟨r, ps, p, "." ++ className cls ++ "\x7bleft:" ++ left ++ "%;top:" ++ top ++ "%;", rest,
    hr, hrp, hp, ?_⟩
  rw [hrule]
  congr 1

/-- C2, counterexample: a rect of width `1.1e22` on a 1100 by 700 canvas gets the rule
`width:1e+21%`, and `1e+21` is not a numeral with two decimals. -/
theorem C2_counterexample :
    (buildHTMLAndCSS (.arr [wideRect]) (numV 1100) (numV 700)).map Output.css =
      .ok ("\n".intercalate (baseRules ++
        [".el-r\x7bleft:10.00%;top:10.00%;width:1e+21%;height:20.00%;" ++
          "background:#ddd;transform: rotate(0deg);\x7d"])) ∧
    percent (wideRect.get "width") (numV 1100) = .ok "1e+21" ∧
    isTwoDecimal "1e+21" = false := by
  refine ⟨by decide!, by decide!, by decide!⟩

/-- C3 (amended). For a text element at index `i` with Number `fontSize` `f`, on a canvas of
positive width `w` and with any `canvasHeight`: the emitter returns on well-formed items (and
a primitive `canvasHeight`), and whenever it returns, the style rule emitted for that element
contains `font-size:<V>vw` where `V` is `toFixed(2)` of the Number `f / w * 100`, whatever
the canvas height; `V` is the numeral with two decimals of that Number whenever the Number is
finite and below `10 ^ 21` in magnitude. -/
theorem C3_font_size_vw (its : List JSVal) (i : Nat) (it : JSVal) (f : JSNum) (w : ℚ)
    (ch : JSVal) (hi : its[i]? = some it) (hty : (it.get "type").isStr "text" = true)
    (hf : it.get "fontSize" = .num f) (hw : 0 < w) :
    ((∀ e ∈ its, wellFormed e = true) → ch.isPrimitive = true →
      ∃ r, buildHTMLAndCSS (.arr its) (.num (.fin false w)) ch = .ok r) ∧
    ∀ r, buildHTMLAndCSS (.arr its) (.num (.fin false w)) ch = .ok r →
      ∃ ps p cls left top rest,
        emitAll (.num (.fin false w)) (ch.or (.num (JSNum.ofNat 700))) its = .ok ps ∧
        r = assemble ps ∧ ps[i]? = some p ∧ (it.get "id").toStr = .ok cls ∧
        p.cssRules =
          ["." ++ className cls ++ "\x7bleft:" ++ left ++ "%;top:" ++ top ++ "%;" ++
            ("font-size:" ++ ((f.div (.fin false w)).mul (JSNum.ofNat 100)).toFixed 2 ++ "vw" ++
              rest)] ∧
        (∀ s q, (f.div (.fin false w)).mul (JSNum.ofNat 100) = .fin s q → q < 10 ^ 21 →
          ((f.div (.fin false w)).mul (JSNum.ofNat 100)).toFixed 2 = twoDecimals s q ∧
            isTwoDecimal (((f.div (.fin false w)).mul (JSNum.ofNat 100)).toFixed 2) = true) := by
  constructor
  · intro hits hch
    obtain ⟨ps, _, hb⟩ := buildHTMLAndCSS_total its (.num (.fin false w)) ch hits rfl hch
    exact ⟨_, hb⟩
  · intro r hr
    obtain ⟨ps, hps, rfl⟩ := buildHTMLAndCSS_ok hr
    rw [or_of_pos hw] at hps
    obtain ⟨p, hp, hpi⟩ := emitAll_getElem hps hi
    obtain ⟨_, l, t, v, c, tx, fl, _, _, hv, hc, _, _, rfl⟩ :=
      (emitItem_text (isStr_text hty) hty p).mp hpi
    rw [hf, withDefault_num, percent_num] at hv
    simp only [Except.ok.injEq] at hv
    subst hv
    refine ⟨ps, _, c, l, t, _, hps, rfl, hp, hc, by rw [textRule_eq], ?_⟩
    intro s q hv hq
    exact toFixed_two_spec _ s q hv hq

/-- C3, the specification's example: `fontSize=22` on a canvas 1100 wide gives
`font-size:2.00vw`, here with the canvas height absent. -/
theorem C3_font_size_vw_witness :
    ∃ r ps p pre rest,
      buildHTMLAndCSS (.arr [sampleText]) (numV 1100) .undefined = .ok r ∧
      r = assemble ps ∧ ps[0]? = some p ∧
      p.cssRules = [pre ++ ("font-size:2.00vw" ++ rest)] := by
  have hC := C3_font_size_vw [sampleText] 0 sampleText (JSNum.ofNat 22) (1100 : ℕ) .undefined
    rfl (by decide) (by decide) (by norm_num)
  obtain ⟨r, hr⟩ := hC.1 (by decide) rfl
  obtain ⟨ps, p, cls, left, top, rest, -, hrp, hp, -, hrule, -⟩ := hC.2 r hr
  have hl : (((JSNum.ofNat 22).div (.fin false (1100 : ℕ))).mul (JSNum.ofNat 100)).toFixed 2 =
      "2.00" := by decide!
  rw [hl] at hrule
  refine ⟨r, ps, p, "." ++ className cls ++ "\x7bleft:" ++ left ++ "%;top:" ++ top ++ "%;", rest,
    hr, hrp, hp, ?_⟩
  rw [hrule]
  congr 1

/-- C3, counterexample: a text of font size `1.1e22` on a canvas 1100 wide gets the rule
`font-size:1e+21vw`, and `1e+21` is not a numeral with two decimals. -/
theorem C3_counterexample :
    (buildHTMLAndCSS (.arr [hugeText]) (numV 1100) (numV 700)).map Output.css =
      .ok ("\n".intercalate (baseRules ++
        [".el-t\x7bleft:10.00%;top:10.00%;font-size:1e+21vw;color:#000;\x7d"])) ∧
    percent (hugeText.get "fontSize") (numV 1100) = .ok "1e+21" ∧
    isTwoDecimal "1e+21" = false := by
  refine ⟨by decide!, by decide!, by decide!⟩

/-! ## The canvas-size fallback -/

theorem or_undefined (d : JSVal) : JSVal.undefined.or d = d := rfl

theorem or_zero (s : Bool) (d : JSVal) : (JSVal.num (.fin s 0)).or d = d := by
  simp [JSVal.or, JSVal.toBoolean]

theorem or_numV_pos {n : Nat} (hn : 0 < n) (d : JSVal) : (numV n).or d = numV n := by
  have : ((n : ℚ)) ≠ 0 := by exact_mod_cast (Nat.pos_iff_ne_zero.mp hn)
  simp [numV, JSNum.ofNat, JSVal.or, JSVal.toBoolean, this]

/-- The result depends on the canvas size through the effective size only. -/
theorem buildHTMLAndCSS_congr {items cw ch cw' ch' : JSVal}
    (hw : cw.or (.num (JSNum.ofNat 1100)) = cw'.or (.num (JSNum.ofNat 1100)))
    (hh : ch.or (.num (JSNum.ofNat 700)) = ch'.or (.num (JSNum.ofNat 700))) :
    buildHTMLAndCSS items cw ch = buildHTMLAndCSS items cw' ch' := by
  simp only [buildHTMLAndCSS, hw, hh]

/-- C4. With `canvasWidth` zero (of either sign) or absent, the emitter returns exactly what
it returns for `canvasWidth = 1100`, whatever the items and the height; with `canvasHeight`
zero or absent, exactly what it returns for `canvasHeight = 700`, whatever the items and the
width (so also when the other dimension falls back too); and on well-formed items with both
dimensions zero or absent it returns a result: there is no division error. -/
theorem C4_zero_or_absent_fallback (items cw ch : JSVal) (s t : Bool) (its : List JSVal) :
    buildHTMLAndCSS items .undefined ch = buildHTMLAndCSS items (numV 1100) ch ∧
    buildHTMLAndCSS items (.num (.fin s 0)) ch = buildHTMLAndCSS items (numV 1100) ch ∧
    buildHTMLAndCSS items cw .undefined = buildHTMLAndCSS items cw (numV 700) ∧
    buildHTMLAndCSS items cw (.num (.fin t 0)) = buildHTMLAndCSS items cw (numV 700) ∧
    ((∀ e ∈ its, wellFormed e = true) →
      (∃ r, buildHTMLAndCSS (.arr its) .undefined .undefined = .ok r ∧
        buildHTMLAndCSS (.arr its) (numV 1100) (numV 700) = .ok r) ∧
      (∃ r, buildHTMLAndCSS (.arr its) (.num (.fin s 0)) (.num (.fin t 0)) = .ok r ∧
        buildHTMLAndCSS (.arr its) (numV 1100) (numV 700) = .ok r)) := by
  have e1 : (numV 1100).or (.num (JSNum.ofNat 1100)) = .num (JSNum.ofNat 1100) :=
    or_numV_pos (by decide) _
  have e2 : (numV 700).or (.num (JSNum.ofNat 700)) = .num (JSNum.ofNat 700) :=
    or_numV_pos (by decide) _
  refine ⟨buildHTMLAndCSS_congr (by rw [or_undefined, e1]) rfl,
    buildHTMLAndCSS_congr (by rw [or_zero, e1]) rfl,
    buildHTMLAndCSS_congr rfl (by rw [or_undefined, e2]),
    buildHTMLAndCSS_congr rfl (by rw [or_zero, e2]), ?_⟩
  intro hits
  obtain ⟨ps, _, hb⟩ := buildHTMLAndCSS_total its (numV 1100) (numV 700) hits rfl rfl
  refine ⟨⟨_, ?_, hb⟩, ⟨_, ?_, hb⟩⟩
  · rw [← hb]
    exact buildHTMLAndCSS_congr (by rw [or_undefined, e1]) (by rw [or_undefined, e2])
  · rw [← hb]
    exact buildHTMLAndCSS_congr (by rw [or_zero, e1]) (by rw [or_zero, e2])

/-- C4 on the specification's example elements, with both dimensions zero or absent. -/
theorem C4_zero_or_absent_fallback_witness :
    (∃ r, buildHTMLAndCSS (.arr [sampleRect, sampleText, sampleImage]) .undefined .undefined =
        .ok r ∧
      buildHTMLAndCSS (.arr [sampleRect, sampleText, sampleImage]) (numV 1100) (numV 700) =
        .ok r) ∧
    (∃ r, buildHTMLAndCSS (.arr [sampleRect, sampleText, sampleImage]) (.num (.fin false 0))
        (.num (.fin true 0)) = .ok r ∧
      buildHTMLAndCSS (.arr [sampleRect, sampleText, sampleImage]) (numV 1100) (numV 700) =
        .ok r) :=
  (C4_zero_or_absent_fallback .null .null .null false true
    [sampleRect, sampleText, sampleImage]).2.2.2.2 (by decide)

/-- C5, counterexample: with `canvasWidth = -1100` the default is not substituted: the rect at
`x=110` gets `left:-10.00%` and `width:-20.00%`, and the result differs from the one for
`canvasWidth = 1100`. -/
theorem C5_counterexample :
    (buildHTMLAndCSS (.arr [sampleRect]) (.num (.fin true 1100)) (numV 700)).map Output.css =
      .ok ("\n".intercalate (baseRules ++
        [".el-rect-1\x7bleft:-10.00%;top:10.00%;width:-20.00%;height:20.00%;" ++
          "background:#60A5FA;transform: rotate(0deg);\x7d"])) ∧
    buildHTMLAndCSS (.arr [sampleRect]) (.num (.fin true 1100)) (numV 700) ≠
      buildHTMLAndCSS (.arr [sampleRect]) (numV 1100) (numV 700) := by
  refine ⟨by decide!, by decide!⟩

/-- C5 (amended). A `canvasWidth` that is zero (of either sign) is replaced by the default
1100 and a `canvasHeight` that is zero by the default 700, each whatever the other dimension,
also both at once: the result is the one of the default.  A negative finite dimension is
not replaced: with `canvasWidth = -w` and `canvasHeight = -h` (`w, h > 0`) the callback runs
against `-w` and `-h`, so the rule of an exported element with Number `x` and `y` reads
`left:<L>%;top:<T>%` with `L` the `toFixed(2)` of the Number `x / (-w) * 100` and `T` that
of `y / (-h) * 100`. -/
theorem C5_zero_fallback_negative_kept (items cw ch : JSVal) (s t : Bool) (its : List JSVal)
    (i : Nat) (it : JSVal) (x y : JSNum) (w h : ℚ) (hw : 0 < w) (hh : 0 < h)
    (hi : its[i]? = some it) (he : exported it = true)
    (hx : it.get "x" = .num x) (hy : it.get "y" = .num y) :
    buildHTMLAndCSS items (.num (.fin s 0)) ch = buildHTMLAndCSS items (numV 1100) ch ∧
    buildHTMLAndCSS items cw (.num (.fin t 0)) = buildHTMLAndCSS items cw (numV 700) ∧
    buildHTMLAndCSS items (.num (.fin s 0)) (.num (.fin t 0)) =
      buildHTMLAndCSS items (numV 1100) (numV 700) ∧
    buildHTMLAndCSS (.arr its) (.num (.fin true w)) (.num (.fin true h)) =
      (emitAll (.num (.fin true w)) (.num (.fin true h)) its).map assemble ∧
    ∀ r, buildHTMLAndCSS (.arr its) (.num (.fin true w)) (.num (.fin true h)) = .ok r →
      ∃ ps p cls rest,
        r = assemble ps ∧ ps[i]? = some p ∧ (it.get "id").toStr = .ok cls ∧
        p.cssRules =
          ["." ++ className cls ++ "\x7bleft:" ++
            ((x.div (.fin true w)).mul (JSNum.ofNat 100)).toFixed 2 ++ "%;top:" ++
            ((y.div (.fin true h)).mul (JSNum.ofNat 100)).toFixed 2 ++ "%;" ++ rest] := by
  have e1 : (numV 1100).or (.num (JSNum.ofNat 1100)) = .num (JSNum.ofNat 1100) :=
    or_numV_pos (by decide) _
  have e2 : (numV 700).or (.num (JSNum.ofNat 700)) = .num (JSNum.ofNat 700) :=
    or_numV_pos (by decide) _
  have hb : buildHTMLAndCSS (.arr its) (.num (.fin true w)) (.num (.fin true h)) =
      (emitAll (.num (.fin true w)) (.num (.fin true h)) its).map assemble := by
    rw [buildHTMLAndCSS_arr, or_of_pos hw, or_of_pos hh]
  refine ⟨buildHTMLAndCSS_congr (by rw [or_zero, e1]) rfl,
    buildHTMLAndCSS_congr rfl (by rw [or_zero, e2]),
    buildHTMLAndCSS_congr (by rw [or_zero, e1]) (by rw [or_zero, e2]), hb, ?_⟩
  intro r hr
  obtain ⟨ps, hps, rfl⟩ := buildHTMLAndCSS_ok hr
  rw [or_of_pos hw, or_of_pos hh] at hps
  obtain ⟨p, hp, hpi⟩ := emitAll_getElem hps hi
  obtain ⟨l, tp, c, rest, hl, ht, hc, hrule⟩ := exported_rule he hpi
  rw [hx, percent_num] at hl
  rw [hy, percent_num] at ht
  simp only [Except.ok.injEq] at hl ht
  subst hl ht
  exact ⟨ps, p, c, rest, rfl, hp, hc, hrule⟩

/-- C5 on the specification's example rect with a canvas of -1100 by -700: `left:-10.00%`
and `top:-10.00%`. -/
theorem C5_zero_fallback_negative_kept_witness :
    ∃ r ps p rest,
      buildHTMLAndCSS (.arr [sampleRect]) (.num (.fin true (1100 : ℕ)))
        (.num (.fin true (700 : ℕ))) = .ok r ∧
      r = assemble ps ∧ ps[0]? = some p ∧
      p.cssRules = [".el-rect-1\x7bleft:-10.00%;top:-10.00%;" ++ rest] := by
  have hC := C5_zero_fallback_negative_kept .null .null .null false false [sampleRect] 0
    sampleRect (JSNum.ofNat 110) (JSNum.ofNat 70) (1100 : ℕ) (700 : ℕ) (by norm_num) (by norm_num) rfl
    (by decide) (by decide) (by decide)
  have hr : ∃ r, buildHTMLAndCSS (.arr [sampleRect]) (.num (.fin true (1100 : ℕ)))
      (.num (.fin true (700 : ℕ))) = .ok r := by
    obtain ⟨ps, _, hb⟩ := buildHTMLAndCSS_total [sampleRect]
      (.num (.fin true (1100 : ℕ))) (.num (.fin true (700 : ℕ))) (by decide) rfl rfl
    exact ⟨_, hb⟩
  obtain ⟨r, hr⟩ := hr
  obtain ⟨ps, p, cls, rest, hrp, hp, hid, hrule⟩ := hC.2.2.2.2 r hr
  have hl : (((JSNum.ofNat 110).div (.fin true (1100 : ℕ))).mul (JSNum.ofNat 100)).toFixed 2 =
      "-10.00" := by decide!
  have ht : (((JSNum.ofNat 70).div (.fin true (700 : ℕ))).mul (JSNum.ofNat 100)).toFixed 2 =
      "-10.00" := by decide!
  have hcls : (sampleRect.get "id").toStr = .ok "rect-1" := by decide!
  rw [hcls] at hid
  obtain rfl := Except.ok.inj hid
  rw [hl, ht] at hrule
  refine ⟨r, ps, p, rest, hr, hrp, hp, ?_⟩
  rw [hrule]
  congr 1

/-! ## Order of the markup nodes -/

theorem emitAll_forall₂ {cW cH : JSVal} {its : List JSVal} {ps : List EmitState}
    (h : emitAll cW cH its = .ok ps) :
    List.Forall₂ (fun it p => emitItem cW cH it = .ok p) its ps := by
  induction its generalizing ps with
  | nil =>
    simp only [emitAll, Except.ok.injEq] at h
    subst h; exact List.Forall₂.nil
  | cons it rest ih =>
    obtain ⟨p, qs, h1, h2, rfl⟩ := emitAll_cons_ok.mp h
    exact List.Forall₂.cons h1 (ih h2)

theorem list_split {α : Type} {l : List α} {i : Nat} {a : α} (h : l[i]? = some a) :
    l = l.take i ++ a :: l.drop (i + 1) := by
  induction l generalizing i with
  | nil => simp at h
  | cons x xs ih =>
    cases i with
    | zero =>
      simp only [List.getElem?_cons_zero, Option.some.injEq] at h
      simp [h]
    | succ k =>
      simp only [List.getElem?_cons_succ] at h
      simp only [List.take_succ_cons, List.drop_succ_cons, List.cons_append, List.cons.injEq,
        true_and]
      exact ih h

theorem join_split {l : List String} {i j : Nat} {a b : String} (hij : i < j)
    (hi : l[i]? = some a) (hj : l[j]? = some b) :
    ∃ before between after, String.join l = before ++ a ++ between ++ b ++ after := by
  have e1 := list_split hi
  have hj' : (l.drop (i + 1))[j - (i + 1)]? = some b := by
    rw [List.getElem?_drop]
    have : i + 1 + (j - (i + 1)) = j := by omega
    rw [this]; exact hj
  have e2 := list_split hj'
  generalize l.drop (i + 1) = m at e1 e2
  refine ⟨String.join (l.take i), String.join (m.take (j - (i + 1))),
    String.join (m.drop (j - (i + 1) + 1)), ?_⟩
  apply String.ext
  conv_lhs => rw [e1, e2]
  simp [String.data_join, String.data_append]

/-- The markup of one item: nothing for a type without a branch, else one node whose class
comes from the id. -/
theorem emitted_node {cW cH it : JSVal} {p : EmitState} (h : emitItem cW cH it = .ok p) :
    (exported it = false ∧ p.htmlChildren = "") ∨
    ∃ cls, (it.get "id").toStr = .ok cls ∧
      (((it.get "type").isStr "rect" = true ∧ p.htmlChildren = rectNode (className cls)) ∨
       ((it.get "type").isStr "text" = true ∧
          ∃ t, ((it.get "text").withDefault (.str "")).toStr = .ok t ∧
            p.htmlChildren = textNode (className cls) (escape t)) ∨
       ((it.get "type").isStr "image" = true ∧
          p.htmlChildren = imageNode (className cls) (filename cls))) := by
  by_cases h1 : (it.get "type").isStr "rect" = true
  · obtain ⟨_, l, t, w, hh, c, f, r, _, _, _, _, hc, _, _, rfl⟩ := (emitItem_rect h1 p).mp h
    exact Or.inr ⟨c, hc, Or.inl ⟨h1, rfl⟩⟩
  have h1' : (it.get "type").isStr "rect" = false := by simpa using h1
  by_cases h2 : (it.get "type").isStr "text" = true
  · obtain ⟨_, l, t, v, c, tx, f, _, _, _, hc, htx, _, rfl⟩ := (emitItem_text h1' h2 p).mp h
    exact Or.inr ⟨c, hc, Or.inr (Or.inl ⟨h2, tx, htx, rfl⟩)⟩
  have h2' : (it.get "type").isStr "text" = false := by simpa using h2
  by_cases h3 : (it.get "type").isStr "image" = true
  · obtain ⟨_, l, t, w, hh, c, _, _, _, _, hc, rfl⟩ := (emitItem_image h1' h2' h3 p).mp h
    exact Or.inr ⟨c, hc, Or.inr (Or.inr ⟨h3, rfl⟩)⟩
  have h3' : (it.get "type").isStr "image" = false := by simpa using h3
  have he : exported it = false := by simp [exported, h1', h2', h3']
  obtain ⟨_, _, rfl⟩ := (emitItem_other he p).mp h
  exact Or.inl ⟨he, rfl⟩

/-- C6. Whenever the emitter returns (and on well-formed items with primitive canvas
dimensions it does), the markup is the page head, then the markup of each item in input
order, then the page foot: the pieces `ps` correspond one to one, in order, to the items,
each piece being what the callback emits for that item alone (nothing for a type without a
branch), so for `i < j` the node of item `i` stands before the node of item `j`, whatever
their types. -/
theorem C6_markup_in_input_order (its : List JSVal) (cw ch : JSVal) :
    ((∀ e ∈ its, wellFormed e = true) → cw.isPrimitive = true → ch.isPrimitive = true →
      ∃ r, buildHTMLAndCSS (.arr its) cw ch = .ok r) ∧
    ∀ r, buildHTMLAndCSS (.arr its) cw ch = .ok r →
      ∃ ps,
        List.Forall₂ (fun it p =>
          emitItem (cw.or (.num (JSNum.ofNat 1100))) (ch.or (.num (JSNum.ofNat 700))) it = .ok p ∧
          (exported it = false → p.htmlChildren = "")) its ps ∧
        r.html = pageHead ++ String.join (ps.map fun p => p.htmlChildren) ++ pageFoot ∧
        ∀ (i j : Nat) (a b : JSVal), i < j → its[i]? = some a → its[j]? = some b →
          ∃ pa pb before between after,
            emitItem (cw.or (.num (JSNum.ofNat 1100))) (ch.or (.num (JSNum.ofNat 700))) a =
              .ok pa ∧
            emitItem (cw.or (.num (JSNum.ofNat 1100))) (ch.or (.num (JSNum.ofNat 700))) b =
              .ok pb ∧
            r.html = before ++ pa.htmlChildren ++ between ++ pb.htmlChildren ++ after := by
  constructor
  · intro hits hW hH
    obtain ⟨ps, _, hb⟩ := buildHTMLAndCSS_total its cw ch hits hW hH
    exact ⟨_, hb⟩
  · intro r hr
    obtain ⟨ps, hps, rfl⟩ := buildHTMLAndCSS_ok hr
    refine ⟨ps, ?_, rfl, ?_⟩
    · refine (emitAll_forall₂ hps).imp ?_
      intro it p hp
      refine ⟨hp, fun he => ?_⟩
      obtain ⟨_, _, rfl⟩ := (emitItem_other he p).mp hp
      rfl
    · intro i j a b hij hi hj
      obtain ⟨pa, hpa, ha⟩ := emitAll_getElem hps hi
      obtain ⟨pb, hpb, hb⟩ := emitAll_getElem hps hj
      have hi' : (ps.map fun p => p.htmlChildren)[i]? = some pa.htmlChildren := by
        simp [List.getElem?_map, hpa]
      have hj' : (ps.map fun p => p.htmlChildren)[j]? = some pb.htmlChildren := by
        simp [List.getElem?_map, hpb]
      obtain ⟨b1, b2, b3, hjoin⟩ := join_split hij hi' hj'
      refine ⟨pa, pb, pageHead ++ b1, b2, b3 ++ pageFoot, ha, hb, ?_⟩
      simp only [assemble, hjoin]
      apply String.ext
      simp [String.data_append]

/-- C6 on an image followed by a rect and a text: the `img` node comes first, then the two
`div` nodes, in input order. -/
theorem C6_markup_in_input_order_witness :
    ∃ r, buildHTMLAndCSS (.arr [sampleImage, sampleRect, sampleText]) (numV 1100) (numV 700) =
        .ok r ∧
      r.html = pageHead ++
        ("<img class=\"abs-el el-img-1\" src=\"assets/img-1.png\" alt=\"\" />\n" ++
         "<div class=\"abs-el el-rect-1\"></div>\n" ++
         "<div class=\"abs-el el-text-1\">&lt;script&gt;</div>\n") ++ pageFoot := by
  have hC := C6_markup_in_input_order [sampleImage, sampleRect, sampleText] (numV 1100)
    (numV 700)
  obtain ⟨r, hr⟩ := hC.1 (by decide) rfl rfl
  obtain ⟨ps, hps, hhtml, -⟩ := hC.2 r hr
  refine ⟨r, hr, ?_⟩
  rw [hhtml]
  have e1 : emitItem ((numV 1100).or (.num (JSNum.ofNat 1100)))
      ((numV 700).or (.num (JSNum.ofNat 700))) sampleImage =
      .ok { htmlChildren := "<img class=\"abs-el el-img-1\" src=\"assets/img-1.png\" alt=\"\" />\n"
            cssRules := [".el-img-1\x7bleft:10.00%;top:10.00%;width:20.00%;height:20.00%;\x7d"]
            assets := [{ id := .str "img-1", src := .str "https://example.com/a.png" }] } := by
    decide!
  have e2 : (emitItem ((numV 1100).or (.num (JSNum.ofNat 1100)))
      ((numV 700).or (.num (JSNum.ofNat 700))) sampleRect).map (fun p => p.htmlChildren) =
      .ok "<div class=\"abs-el el-rect-1\"></div>\n" := by decide!
  have e3 : (emitItem ((numV 1100).or (.num (JSNum.ofNat 1100)))
      ((numV 700).or (.num (JSNum.ofNat 700))) sampleText).map (fun p => p.htmlChildren) =
      .ok "<div class=\"abs-el el-text-1\">&lt;script&gt;</div>\n" := by decide!
  cases hps with
  | cons h1 t1 =>
    cases t1 with
    | cons h2 t2 =>
      cases t2 with
      | cons h3 t3 =>
        cases t3
        rw [h1.1] at e1
        rw [h2.1] at e2
        rw [h3.1] at e3
        simp only [Except.map, Except.ok.injEq] at e1 e2 e3
        subst e1
        simp only [List.map_cons, List.map_nil, e2, e3]
        rfl

/-! ## Escaping of text content -/

theorem escape_data (t : String) : (escape t).data = t.data.flatMap escapeChar := by
  simp only [escape, replaceAll, List.flatMap_assoc]
  congr 1
  funext c
  by_cases h1 : c = '<'
  · subst h1; rfl
  · by_cases h2 : c = '>'
    · subst h2; rfl
    · simp [escapeChar, h1, h2]

theorem escapeChar_no_lt (c : Char) : '<' ∉ escapeChar c := by
  unfold escapeChar
  split
  · decide
  · split
    · decide
    · next h1 _ => simpa using fun h => h1 h.symm

theorem escapeChar_no_gt (c : Char) : '>' ∉ escapeChar c := by
  unfold escapeChar
  split
  · decide
  · split
    · decide
    · next _ h2 => simpa using fun h => h2 h.symm

theorem escape_no_lt (t : String) : '<' ∉ (escape t).data := by
  rw [escape_data]
  intro h
  obtain ⟨c, _, hc⟩ := List.mem_flatMap.mp h
  exact escapeChar_no_lt c hc

theorem escape_no_gt (t : String) : '>' ∉ (escape t).data := by
  rw [escape_data]
  intro h
  obtain ⟨c, _, hc⟩ := List.mem_flatMap.mp h
  exact escapeChar_no_gt c hc

/-- C7. For a text element at index `i` whose `text` is the string `t`: whenever the emitter
returns (and on well-formed items with primitive canvas dimensions it does), the node of
that element is `<div class="abs-el el-<id>">` + content + `</div>` and a line feed, where
the content is `t` with each `<` written `&lt;`, each `>` written `&gt;` and every other
character kept; the content holds no `<` and no `>`. -/
theorem C7_text_content_escaped (its : List JSVal) (i : Nat) (it : JSVal) (t : String)
    (cw ch : JSVal) (hi : its[i]? = some it) (hty : (it.get "type").isStr "text" = true)
    (htx : it.get "text" = .str t) :
    ((∀ e ∈ its, wellFormed e = true) → cw.isPrimitive = true → ch.isPrimitive = true →
      ∃ r, buildHTMLAndCSS (.arr its) cw ch = .ok r) ∧
    ∀ r, buildHTMLAndCSS (.arr its) cw ch = .ok r →
      ∃ (ps : List EmitState) (p : EmitState) (cls content : String),
        r.html = pageHead ++ String.join (ps.map fun p => p.htmlChildren) ++ pageFoot ∧
        ps.length = its.length ∧ ps[i]? = some p ∧ (it.get "id").toStr = .ok cls ∧
        p.htmlChildren = "<div class=\"abs-el " ++ className cls ++ "\">" ++ content ++
          "</div>\n" ∧
        content.data = t.data.flatMap escapeChar ∧
        '<' ∉ content.data ∧ '>' ∉ content.data := by
  constructor
  · intro hits hW hH
    obtain ⟨ps, _, hb⟩ := buildHTMLAndCSS_total its cw ch hits hW hH
    exact ⟨_, hb⟩
  · intro r hr
    obtain ⟨ps, hps, rfl⟩ := buildHTMLAndCSS_ok hr
    obtain ⟨p, hp, hpi⟩ := emitAll_getElem hps hi
    obtain ⟨_, l, tp, v, c, tx, fl, _, _, _, hc, htxs, _, rfl⟩ :=
      (emitItem_text (isStr_text hty) hty p).mp hpi
    have : tx = t := by
      rw [htx] at htxs
      simp only [JSVal.withDefault, JSVal.toStr, Except.ok.injEq] at htxs
      exact htxs.symm
    subst this
    exact ⟨ps, _, c, escape tx, rfl, emitAll_length hps, hp, hc, rfl, escape_data tx,
      escape_no_lt tx, escape_no_gt tx⟩

/-- C7 on the text `<script>` of the sample text element: the content is
`&lt;script&gt;`. -/
theorem C7_text_content_escaped_witness :
    ∃ (r : Output) (ps : List EmitState) (p : EmitState),
      buildHTMLAndCSS (.arr [sampleRect, sampleText]) (numV 1100) (numV 700) = .ok r ∧
      r.html = pageHead ++ String.join (ps.map fun p => p.htmlChildren) ++ pageFoot ∧
      ps[1]? = some p ∧
      p.htmlChildren = "<div class=\"abs-el el-text-1\">&lt;script&gt;</div>\n" := by
  have hC := C7_text_content_escaped [sampleRect, sampleText] 1 sampleText "<script>"
    (numV 1100) (numV 700) rfl (by decide) (by decide)
  obtain ⟨r, hr⟩ := hC.1 (by decide) rfl rfl
  obtain ⟨ps, p, cls, content, hhtml, -, hp, hid, hnode, hdata, -, -⟩ := hC.2 r hr
  have hcls : (sampleText.get "id").toStr = .ok "text-1" := by decide!
  rw [hcls] at hid
  obtain rfl := Except.ok.inj hid
  have hcontent : content = "&lt;script&gt;" := by
    apply String.ext
    rw [hdata]; decide
  subst hcontent
  exact ⟨r, ps, p, hr, hhtml, hp, by rw [hnode]; rfl⟩

/-! ## Scanning the markup for a raw script tag -/

theorem scan_append (q : Nat) (a b : List Char) : scan q (a ++ b) = scan (scan q a) b := by
  simp [scan, List.foldl_append]

theorem scanStep_le (q : Nat) (c : Char) (h : q ≤ 8) : scanStep q c ≤ 8 := by
  unfold scanStep
  split
  · exact Nat.le_refl 8
  · split
    · omega
    · split <;> omega

theorem scan_le (l : List Char) : ∀ q, q ≤ 8 → scan q l ≤ 8 := by
  induction l with
  | nil => intro q h; exact h
  | cons c l ih => intro q h; exact ih _ (scanStep_le q c h)

theorem scan_eight (l : List Char) : scan 8 l = 8 := by
  induction l with
  | nil => rfl
  | cons c l ih => exact ih

theorem scan_tag (q : Nat) (h : q ≤ 8) : scan q scriptTag = 8 := by
  interval_cases q <;> decide

/-- If the tag occurs in `l`, the scanner ends in state 8. -/
theorem scan_of_present {l : List Char} (h : scriptTag <:+: l) : scan 0 l = 8 := by
  obtain ⟨pre, post, rfl⟩ := h
  rw [scan_append, scan_append, scan_tag _ (scan_le pre 0 (by decide)), scan_eight]

/-- What state `q` of the scanner knows about the characters read so far. -/
theorem scanStep_inv (pre : List Char) (q : Nat) (c : Char) (hq : q ≤ 8)
    (h8 : q = 8 → scriptTag <:+: pre) (hs : q < 8 → scriptTag.take q <:+ pre) :
    (scanStep q c = 8 → scriptTag <:+: pre ++ [c]) ∧
    (scanStep q c < 8 → scriptTag.take (scanStep q c) <:+ pre ++ [c]) := by
  by_cases h : q = 8
  · subst h
    have : scanStep 8 c = 8 := by simp [scanStep]
    rw [this]
    exact ⟨fun _ => (h8 rfl).trans (List.infix_append' [] pre [c] |>.trans (by simp)),
      fun hlt => absurd hlt (by decide)⟩
  · have hlt : q < 8 := by omega
    obtain ⟨t, ht⟩ := hs hlt
    by_cases hm : scriptTag[q]? = some c
    · have hstep : scanStep q c = q + 1 := by
        simp [scanStep, hm, Nat.not_le.mpr hlt]
      have htake : scriptTag.take (q + 1) = scriptTag.take q ++ [c] := by
        rw [List.take_succ, hm]; rfl
      have hsuf : scriptTag.take (q + 1) <:+ pre ++ [c] :=
        ⟨t, by rw [htake, ← List.append_assoc, ht]⟩
      rw [hstep]
      refine ⟨fun h8' => ?_, fun _ => hsuf⟩
      have : scriptTag.take (q + 1) = scriptTag := by
        have hq7 : q = 7 := by omega
        subst hq7; rfl
      rw [this] at hsuf
      exact hsuf.isInfix
    · by_cases hc : c = '<'
      · have hstep : scanStep q c = 1 := by
          simp [scanStep, hm, hc, Nat.not_le.mpr hlt]
          intro h'; exact absurd (hc ▸ h') (by simpa [hc] using hm)
        rw [hstep]
        exact ⟨fun h' => absurd h' (by decide), fun _ => ⟨pre, by rw [hc]; rfl⟩⟩
      · have hstep : scanStep q c = 0 := by
          simp [scanStep, hm, hc, Nat.not_le.mpr hlt]
        rw [hstep]
        exact ⟨fun h' => absurd h' (by decide), fun _ => ⟨pre ++ [c], by simp [scriptTag]⟩⟩

theorem scan_inv (l : List Char) : ∀ (pre : List Char) (q : Nat), q ≤ 8 →
    (q = 8 → scriptTag <:+: pre) → (q < 8 → scriptTag.take q <:+ pre) →
    scan q l = 8 → scriptTag <:+: pre ++ l := by
  induction l with
  | nil =>
    intro pre q _ h8 _ h
    simpa using h8 h
  | cons c l ih =>
    intro pre q hq h8 hs h
    obtain ⟨i8, is⟩ := scanStep_inv pre q c hq h8 hs
    have := ih (pre ++ [c]) (scanStep q c) (scanStep_le q c hq) i8 is h
    simpa using this

/-- If the scanner ends in state 8, the tag occurs in `l`. -/
theorem present_of_scan {l : List Char} (h : scan 0 l = 8) : scriptTag <:+: l := by
  have := scan_inv l [] 0 (by decide) (fun h0 => absurd h0 (by decide))
    (fun _ => ⟨[], rfl⟩) h
  simpa using this

theorem scan_lt_of_absent {l : List Char} (h : ¬ scriptTag <:+: l) : scan 0 l < 8 := by
  have h1 := scan_le l 0 (by decide)
  have h2 : scan 0 l ≠ 8 := fun h8 => h (present_of_scan h8)
  omega

theorem scan_zero_of_no_lt (l : List Char) (h : '<' ∉ l) : scan 0 l = 0 := by
  induction l with
  | nil => rfl
  | cons c l ih =>
    have hc : c ≠ '<' := fun e => h (by simp [e])
    have hstep : scanStep 0 c = 0 := by
      have : scriptTag[0]? ≠ some c := by
        intro e
        have : c = '<' := by
          have e' : scriptTag[0]? = some '<' := rfl
          rw [e'] at e; exact (Option.some.inj e).symm
        exact hc this
      simp [scanStep, this, hc]
    show scan (scanStep 0 c) l = 0
    rw [hstep]
    exact ih (fun hm => h (by simp [hm]))

theorem scan_pageHead : scan 0 pageHead.data = 0 := by decide!

theorem scan_pageFoot : scan 0 pageFoot.data = 0 := by decide!

theorem scan_open_div : scan 0 "<div class=\"abs-el el-".data = 0 := by decide

theorem scan_open_img : scan 0 "<img class=\"abs-el el-".data = 0 := by decide

theorem scan_close_rect (q : Nat) (h : q < 8) : scan q "\"></div>\n".data = 0 := by
  interval_cases q <;> decide

theorem scan_close_class (q : Nat) (h : q < 8) : scan q "\">".data = 0 := by
  interval_cases q <;> decide

theorem scan_close_div : scan 0 "</div>\n".data = 0 := by decide

theorem scan_src (q : Nat) (h : q < 8) : scan q "\" src=\"assets/".data = 0 := by
  interval_cases q <;> decide

theorem scan_png (q : Nat) (h : q < 8) : scan q ".png\" alt=\"\" />\n".data = 0 := by
  interval_cases q <;> decide

theorem scan_rectNode (cls : String) (h : ¬ scriptTag <:+: cls.data) :
    scan 0 (rectNode (className cls)).data = 0 := by
  have e : (rectNode (className cls)).data =
      "<div class=\"abs-el el-".data ++ (cls.data ++ "\"></div>\n".data) := by
    simp only [rectNode, className, String.data_append, List.append_assoc]; rfl
  rw [e, scan_append, scan_open_div, scan_append, scan_close_rect _ (scan_lt_of_absent h)]

theorem scan_textNode (cls t : String) (h : ¬ scriptTag <:+: cls.data) :
    scan 0 (textNode (className cls) (escape t)).data = 0 := by
  have e : (textNode (className cls) (escape t)).data =
      "<div class=\"abs-el el-".data ++ (cls.data ++ ("\">".data ++
        ((escape t).data ++ "</div>\n".data))) := by
    simp only [textNode, className, String.data_append, List.append_assoc]; rfl
  rw [e, scan_append, scan_open_div, scan_append, scan_append,
    scan_close_class _ (scan_lt_of_absent h), scan_append,
    scan_zero_of_no_lt _ (escape_no_lt t), scan_close_div]

theorem scan_imageNode (cls : String) (h : ¬ scriptTag <:+: cls.data) :
    scan 0 (imageNode (className cls) (filename cls)).data = 0 := by
  have e : (imageNode (className cls) (filename cls)).data =
      "<img class=\"abs-el el-".data ++ (cls.data ++ ("\" src=\"assets/".data ++
        (cls.data ++ ".png\" alt=\"\" />\n".data))) := by
    simp only [imageNode, className, filename, String.data_append, List.append_assoc]; rfl
  rw [e, scan_append, scan_open_img, scan_append, scan_append,
    scan_src _ (scan_lt_of_absent h), scan_append, scan_png _ (scan_lt_of_absent h)]

/-- The markup of one item leaves the scanner in state 0 when the id holds no raw tag. -/
theorem scan_piece {cW cH it : JSVal} {p : EmitState} (h : emitItem cW cH it = .ok p)
    (hid : exported it = true → ∀ s, (it.get "id").toStr = .ok s → ¬ Contains s "<script>") :
    scan 0 p.htmlChildren.data = 0 := by
  rcases emitted_node h with ⟨_, he⟩ | ⟨cls, hc, hn⟩
  · rw [he]; rfl
  · have hex : exported it = true := by
      rcases hn with ⟨h1, _⟩ | ⟨h2, _⟩ | ⟨h3, _⟩
      · simp [exported, h1]
      · simp [exported, h2]
      · simp [exported, h3]
    have hcls : ¬ scriptTag <:+: cls.data := hid hex cls hc
    rcases hn with ⟨_, e⟩ | ⟨_, t, _, e⟩ | ⟨_, e⟩
    · rw [e]; exact scan_rectNode cls hcls
    · rw [e]; exact scan_textNode cls t hcls
    · rw [e]; exact scan_imageNode cls hcls

theorem scan_pieces {cW cH : JSVal} {its : List JSVal} {ps : List EmitState}
    (h : emitAll cW cH its = .ok ps)
    (hid : ∀ e ∈ its, exported e = true → ∀ s, (e.get "id").toStr = .ok s →
      ¬ Contains s "<script>") :
    scan 0 (String.join (ps.map fun p => p.htmlChildren)).data = 0 := by
  induction its generalizing ps with
  | nil =>
    simp only [emitAll, Except.ok.injEq] at h
    subst h; rfl
  | cons it rest ih =>
    obtain ⟨p, qs, h1, h2, rfl⟩ := emitAll_cons_ok.mp h
    have e : (String.join ((p :: qs).map fun p => p.htmlChildren)).data =
        p.htmlChildren.data ++ (String.join (qs.map fun p => p.htmlChildren)).data := by
      simp [String.data_join]
    rw [e, scan_append, scan_piece h1 (hid it (by simp))]
    exact ih h2 (fun e he => hid e (by simp [he]))

/-- C8, counterexample: a scene with a rect whose id is `<script>` and a text element whose
text is `<script>`: the id is embedded unescaped in the class attribute, so the markup
contains the raw `<script>`. -/
theorem C8_counterexample :
    (buildHTMLAndCSS (.arr [scriptIdRect, sampleText]) (numV 1100) (numV 700)).map Output.html =
      .ok (pageHead ++ ("<div class=\"abs-el el-<script>\"></div>\n" ++
        "<div class=\"abs-el el-text-1\">&lt;script&gt;</div>\n") ++ pageFoot) ∧
    Contains (pageHead ++ ("<div class=\"abs-el el-<script>\"></div>\n" ++
        "<div class=\"abs-el el-text-1\">&lt;script&gt;</div>\n") ++ pageFoot) "<script>" := by
  refine ⟨by decide!, ?_⟩
  exact ⟨(pageHead ++ "<div class=\"abs-el el-").data,
    ("\"></div>\n<div class=\"abs-el el-text-1\">&lt;script&gt;</div>\n" ++ pageFoot).data,
    by decide!⟩

/-- C8 (amended). For a list of items holding a text element whose `text` is `<script>`, in
which no rect, text or image element has an id whose string contains `<script>`: the
emitter returns on well-formed items with primitive canvas dimensions, and whenever it
returns, the markup contains `&lt;script&gt;` and nowhere the raw `<script>`. -/
theorem C8_no_raw_script (its : List JSVal) (i : Nat) (it : JSVal) (cw ch : JSVal)
    (hi : its[i]? = some it) (hty : (it.get "type").isStr "text" = true)
    (htx : it.get "text" = .str "<script>")
    (hid : ∀ e ∈ its, exported e = true → ∀ s, (e.get "id").toStr = .ok s →
      ¬ Contains s "<script>") :
    ((∀ e ∈ its, wellFormed e = true) → cw.isPrimitive = true → ch.isPrimitive = true →
      ∃ r, buildHTMLAndCSS (.arr its) cw ch = .ok r) ∧
    ∀ r, buildHTMLAndCSS (.arr its) cw ch = .ok r →
      Contains r.html "&lt;script&gt;" ∧ ¬ Contains r.html "<script>" := by
  constructor
  · intro hits hW hH
    obtain ⟨ps, _, hb⟩ := buildHTMLAndCSS_total its cw ch hits hW hH
    exact ⟨_, hb⟩
  · intro r hr
    obtain ⟨ps, hps, rfl⟩ := buildHTMLAndCSS_ok hr
    constructor
    · obtain ⟨p, hp, hpi⟩ := emitAll_getElem hps hi
      obtain ⟨_, l, tp, v, c, tx, fl, _, _, _, hc, htxs, _, rfl⟩ :=
        (emitItem_text (isStr_text hty) hty p).mp hpi
      have : tx = "<script>" := by
        rw [htx] at htxs
        simp only [JSVal.withDefault, JSVal.toStr, Except.ok.injEq] at htxs
        exact htxs.symm
      subst this
      have hp' : (ps.map fun p => p.htmlChildren)[i]? =
          some (textNode (className c) (escape "<script>")) := by
        simp [List.getElem?_map, hp]
      have hsplit := list_split hp'
      have hesc : (escape "<script>").data = "&lt;script&gt;".data := by decide
      refine ⟨pageHead.data ++ (String.join ((ps.map fun p => p.htmlChildren).take i)).data ++
          ("<div class=\"abs-el " ++ className c ++ "\">").data,
        "</div>\n".data ++
          (String.join ((ps.map fun p => p.htmlChildren).drop (i + 1))).data ++ pageFoot.data,
        ?_⟩
      simp only [assemble]
      conv_rhs => rw [hsplit]
      simp [String.data_join, String.data_append, textNode, hesc]
    · intro hcon
      have h8 := scan_of_present hcon
      have e : (assemble ps).html.data =
          pageHead.data ++ ((String.join (ps.map fun p => p.htmlChildren)).data ++
            pageFoot.data) := by
        simp [assemble, String.data_append]
      rw [e, scan_append, scan_pageHead, scan_append, scan_pieces hps hid, scan_pageFoot] at h8
      exact absurd h8 (by decide)

/-- C8 on the sample rect and the sample text element, whose text is `<script>`. -/
theorem C8_no_raw_script_witness :
    ∃ r, buildHTMLAndCSS (.arr [sampleRect, sampleText]) (numV 1100) (numV 700) = .ok r ∧
      Contains r.html "&lt;script&gt;" ∧ ¬ Contains r.html "<script>" := by
  have hC := C8_no_raw_script [sampleRect, sampleText] 1 sampleText (numV 1100) (numV 700) rfl
    (by decide) (by decide) (by
      intro e he _ s hs
      simp only [List.mem_cons, List.mem_singleton, List.not_mem_nil, or_false] at he
      rcases he with rfl | rfl
      · have h1 : (sampleRect.get "id").toStr = .ok "rect-1" := by decide!
        rw [h1] at hs
        obtain rfl := Except.ok.inj hs
        intro hc
        exact absurd (scan_of_present hc) (by decide)
      · have h1 : (sampleText.get "id").toStr = .ok "text-1" := by decide!
        rw [h1] at hs
        obtain rfl := Except.ok.inj hs
        intro hc
        exact absurd (scan_of_present hc) (by decide))
  obtain ⟨r, hr⟩ := hC.1 (by decide) rfl rfl
  exact ⟨r, hr, hC.2 r hr⟩

/-! ## The `src` of an image is not embedded -/

/-- Markup, rules and asset ids of a piece: everything but the `src` of its asset requests. -/
theorem emitItem_sameExceptSrc (cW cH : JSVal) {a b : JSVal} (h : SameExceptSrc a b) :
    (emitItem cW cH a).map (fun p => (p.htmlChildren, p.cssRules, p.assets.map fun x => x.id)) =
    (emitItem cW cH b).map (fun p => (p.htmlChildren, p.cssRules, p.assets.map fun x => x.id)) := by
  obtain ⟨hd, hg⟩ := h
  have hid := hg "id" (by decide)
  have hty := hg "type" (by decide)
  have hx := hg "x" (by decide)
  have hy := hg "y" (by decide)
  have hwd := hg "width" (by decide)
  have hht := hg "height" (by decide)
  have hfi := hg "fill" (by decide)
  have hro := hg "rotate" (by decide)
  have hte := hg "text" (by decide)
  have hfs := hg "fontSize" (by decide)
  simp only [emitItem, forEachBody, EmitState.empty, bind, Except.bind, pure, Except.pure,
    hd, hid, hty, hx, hy, hwd, hht, hfi, hro, hte, hfs]
  by_cases hb : b.destructurable = false
  · simp [hb]
  simp only [if_neg hb]
  cases percent (b.get "x") cW; · rfl
  cases percent (b.get "y") cH; · rfl
  simp only
  split_ifs
  · rfl
  · rfl
  · cases percent ((b.get "width").withDefault (.num (JSNum.ofNat 200))) cW; · rfl
    cases percent ((b.get "height").withDefault (.num (JSNum.ofNat 120))) cH; · rfl
    cases (b.get "id").toStr; · rfl
    rfl
  · rfl

theorem emitAll_sameExceptSrc (cW cH : JSVal) {its its' : List JSVal}
    (h : List.Forall₂ SameExceptSrc its its') :
    (emitAll cW cH its).map
        (List.map fun p => (p.htmlChildren, p.cssRules, p.assets.map fun x => x.id)) =
    (emitAll cW cH its').map
        (List.map fun p => (p.htmlChildren, p.cssRules, p.assets.map fun x => x.id)) := by
  induction h with
  | nil => rfl
  | @cons a b l l' hab _ ih =>
    have h1 := emitItem_sameExceptSrc cW cH hab
    simp only [emitAll]
    cases ha : emitItem cW cH a with
    | error e =>
      cases hb : emitItem cW cH b with
      | error e' => rfl
      | ok q => rw [ha, hb] at h1; simp [Except.map] at h1
    | ok p =>
      cases hb : emitItem cW cH b with
      | error e' => rw [ha, hb] at h1; simp [Except.map] at h1
      | ok q =>
        rw [ha, hb] at h1
        simp only [Except.map, Except.ok.injEq] at h1
        cases hl : emitAll cW cH l with
        | error e =>
          cases hl' : emitAll cW cH l' with
          | error e' => rfl
          | ok qs => rw [hl, hl'] at ih; simp [Except.map] at ih
        | ok ps =>
          cases hl' : emitAll cW cH l' with
          | error e' => rw [hl, hl'] at ih; simp [Except.map] at ih
          | ok qs =>
            rw [hl, hl'] at ih
            simp only [Except.map, Except.ok.injEq] at ih
            simp only [Except.map, List.map_cons, h1, ih]

theorem assemble_proj (ps : List EmitState) :
    ((assemble ps).html, (assemble ps).css, (assemble ps).assets.map fun x => x.id) =
      (pageHead ++ String.join ((ps.map fun p =>
          (p.htmlChildren, p.cssRules, p.assets.map fun x => x.id)).map fun t => t.1) ++ pageFoot,
        "\n".intercalate (baseRules ++ ((ps.map fun p =>
          (p.htmlChildren, p.cssRules, p.assets.map fun x => x.id)).map fun t => t.2.1).flatten),
        ((ps.map fun p =>
          (p.htmlChildren, p.cssRules, p.assets.map fun x => x.id)).map fun t => t.2.2).flatten) := by
  simp only [assemble, List.map_map, Function.comp_def, List.map_flatten]

/-- C9. For an image element at index `i`: whenever the emitter returns (and on well-formed
items with primitive canvas dimensions it does), the node of that element is
`<img class="abs-el el-<id>" src="assets/<id>.png" alt="" />` and a line feed.  Two lists of
items that agree item by item except for their `src` properties give the same outcome as to
markup, stylesheet and the ids of the asset requests (both calls throw, or both return and
these parts are equal): the `src` reaches the asset requests only. -/
theorem C9_src_not_embedded (its its' : List JSVal) (cw ch : JSVal)
    (hsame : List.Forall₂ SameExceptSrc its its') :
    ((∀ e ∈ its, wellFormed e = true) → cw.isPrimitive = true → ch.isPrimitive = true →
      ∃ r, buildHTMLAndCSS (.arr its) cw ch = .ok r) ∧
    (∀ r (i : Nat) (it : JSVal), buildHTMLAndCSS (.arr its) cw ch = .ok r →
      its[i]? = some it → (it.get "type").isStr "image" = true →
      ∃ (ps : List EmitState) (p : EmitState) (cls : String),
        r.html = pageHead ++ String.join (ps.map fun p => p.htmlChildren) ++ pageFoot ∧
        ps.length = its.length ∧ ps[i]? = some p ∧ (it.get "id").toStr = .ok cls ∧
        p.htmlChildren = "<img class=\"abs-el el-" ++ cls ++ "\" src=\"assets/" ++ cls ++
          ".png\" alt=\"\" />\n") ∧
    (buildHTMLAndCSS (.arr its) cw ch).map
        (fun r => (r.html, r.css, r.assets.map fun x => x.id)) =
      (buildHTMLAndCSS (.arr its') cw ch).map
        (fun r => (r.html, r.css, r.assets.map fun x => x.id)) := by
  refine ⟨?_, ?_, ?_⟩
  · intro hits hW hH
    obtain ⟨ps, _, hb⟩ := buildHTMLAndCSS_total its cw ch hits hW hH
    exact ⟨_, hb⟩
  · intro r i it hr hi hty
    obtain ⟨ps, hps, rfl⟩ := buildHTMLAndCSS_ok hr
    obtain ⟨p, hp, hpi⟩ := emitAll_getElem hps hi
    obtain ⟨h1, h2⟩ := isStr_image hty
    obtain ⟨_, l, t, w, hh, c, _, _, _, _, hc, rfl⟩ := (emitItem_image h1 h2 hty p).mp hpi
    refine ⟨ps, _, c, rfl, emitAll_length hps, hp, hc, ?_⟩
    apply String.ext
    simp only [imageNode, className, filename, String.data_append, List.append_assoc]
    rfl
  · have h := emitAll_sameExceptSrc (cw.or (.num (JSNum.ofNat 1100)))
      (ch.or (.num (JSNum.ofNat 700))) hsame
    rw [buildHTMLAndCSS_arr, buildHTMLAndCSS_arr]
    cases h1 : emitAll (cw.or (.num (JSNum.ofNat 1100))) (ch.or (.num (JSNum.ofNat 700))) its with
    | error e =>
      cases h2 : emitAll (cw.or (.num (JSNum.ofNat 1100))) (ch.or (.num (JSNum.ofNat 700)))
          its' with
      | error e' => rfl
      | ok qs => rw [h1, h2] at h; simp [Except.map] at h
    | ok ps =>
      cases h2 : emitAll (cw.or (.num (JSNum.ofNat 1100))) (ch.or (.num (JSNum.ofNat 700)))
          its' with
      | error e' => rw [h1, h2] at h; simp [Except.map] at h
      | ok qs =>
        rw [h1, h2] at h
        simp only [Except.map, Except.ok.injEq] at h
        simp only [Except.map, Except.ok.injEq]
        rw [assemble_proj ps, assemble_proj qs, h]

theorem sampleImage_sameExceptSrc : SameExceptSrc sampleImage sampleImageMoved := by
  refine ⟨rfl, fun k hk => ?_⟩
  simp only [sampleImage, sampleImageMoved, JSVal.get, List.lookup]
  repeat' split
  all_goals first | rfl | (exfalso; simp_all)

/-- C9 on the sample image and the same image with another `src`: same markup, same
stylesheet, different asset requests. -/
theorem C9_src_not_embedded_witness :
    ∃ r r', buildHTMLAndCSS (.arr [sampleImage]) (numV 1100) (numV 700) = .ok r ∧
      buildHTMLAndCSS (.arr [sampleImageMoved]) (numV 1100) (numV 700) = .ok r' ∧
      r.html = r'.html ∧ r.css = r'.css ∧ r.assets ≠ r'.assets := by
  have hC := C9_src_not_embedded [sampleImage] [sampleImageMoved] (numV 1100) (numV 700)
    (List.Forall₂.cons sampleImage_sameExceptSrc List.Forall₂.nil)
  obtain ⟨r, hr⟩ := hC.1 (by decide) rfl rfl
  obtain ⟨ps, _, hr'⟩ := buildHTMLAndCSS_total [sampleImageMoved] (numV 1100) (numV 700)
    (by decide) rfl rfl
  have h := hC.2.2
  rw [hr, hr'] at h
  simp only [Except.map, Except.ok.injEq, Prod.mk.injEq] at h
  refine ⟨r, _, hr, hr', h.1, h.2.1, ?_⟩
  intro hne
  have e1 : (buildHTMLAndCSS (.arr [sampleImage]) (numV 1100) (numV 700)).map Output.assets ≠
      (buildHTMLAndCSS (.arr [sampleImageMoved]) (numV 1100) (numV 700)).map Output.assets := by
    decide!
  rw [hr, hr'] at e1
  exact e1 (by simp [Except.map, hne])

/-! ## Asset requests -/

theorem emitItem_assets {cW cH it : JSVal} {p : EmitState} (h : emitItem cW cH it = .ok p) :
    p.assets = (assetRequest it).toList := by
  by_cases h1 : (it.get "type").isStr "rect" = true
  · obtain ⟨_, l, t, w, hh, c, f, r, _, _, _, _, _, _, _, rfl⟩ := (emitItem_rect h1 p).mp h
    have : (it.get "type").isStr "image" = false := by rw [isStr_eq h1]; decide
    simp [assetRequest, this]
  have h1' : (it.get "type").isStr "rect" = false := by simpa using h1
  by_cases h2 : (it.get "type").isStr "text" = true
  · obtain ⟨_, l, t, v, c, tx, f, _, _, _, _, _, _, rfl⟩ := (emitItem_text h1' h2 p).mp h
    have : (it.get "type").isStr "image" = false := by rw [isStr_eq h2]; decide
    simp [assetRequest, this]
  have h2' : (it.get "type").isStr "text" = false := by simpa using h2
  by_cases h3 : (it.get "type").isStr "image" = true
  · obtain ⟨_, l, t, w, hh, c, _, _, _, _, _, rfl⟩ := (emitItem_image h1' h2' h3 p).mp h
    simp [assetRequest, h3]
  have h3' : (it.get "type").isStr "image" = false := by simpa using h3
  obtain ⟨_, _, rfl⟩ := (emitItem_other (by simp [exported, h1', h2', h3']) p).mp h
  simp [assetRequest, h3', EmitState.empty]

theorem emitAll_assets {cW cH : JSVal} {its : List JSVal} {ps : List EmitState}
    (h : emitAll cW cH its = .ok ps) :
    (ps.map fun p => p.assets).flatten = its.filterMap assetRequest := by
  induction its generalizing ps with
  | nil =>
    simp only [emitAll, Except.ok.injEq] at h
    subst h; rfl
  | cons it rest ih =>
    obtain ⟨p, qs, h1, h2, rfl⟩ := emitAll_cons_ok.mp h
    simp only [List.map_cons, List.flatten_cons, ih h2, emitItem_assets h1, List.filterMap_cons]
    cases assetRequest it <;> simp

/-- C10. Whenever the emitter returns (and on well-formed items with primitive canvas
dimensions it does), the asset requests are the `{ id, src }` pairs of the items whose type
is `image`, one for each, in input order, and nothing else. -/
theorem C10_asset_requests (its : List JSVal) (cw ch : JSVal) :
    ((∀ e ∈ its, wellFormed e = true) → cw.isPrimitive = true → ch.isPrimitive = true →
      ∃ r, buildHTMLAndCSS (.arr its) cw ch = .ok r) ∧
    ∀ r, buildHTMLAndCSS (.arr its) cw ch = .ok r →
      r.assets = its.filterMap assetRequest := by
  constructor
  · intro hits hW hH
    obtain ⟨ps, _, hb⟩ := buildHTMLAndCSS_total its cw ch hits hW hH
    exact ⟨_, hb⟩
  · intro r hr
    obtain ⟨ps, hps, rfl⟩ := buildHTMLAndCSS_ok hr
    exact emitAll_assets hps

/-- C10 on a rect, an image, a text and a second image: two requests, in input order. -/
theorem C10_asset_requests_witness :
    ∃ r, buildHTMLAndCSS (.arr [sampleRect, sampleImage, sampleText, sampleImageMoved])
        (numV 1100) (numV 700) = .ok r ∧
      r.assets = [{ id := .str "img-1", src := .str "https://example.com/a.png" },
        { id := .str "img-1", src := .str "data:image/png;base64,AAAA" }] := by
  have hC := C10_asset_requests [sampleRect, sampleImage, sampleText, sampleImageMoved]
    (numV 1100) (numV 700)
  obtain ⟨r, hr⟩ := hC.1 (by decide) rfl rfl
  exact ⟨r, hr, by rw [hC.2 r hr]; decide⟩

/-! ## One node and one rule per exported element -/

theorem join_cons (a : String) (l : List String) : String.join (a :: l) = a ++ String.join l := by
  apply String.ext; simp [String.data_join]

theorem join_nil : String.join [] = "" := rfl

/-- Node and rule of an exported item, both named after the string of its id. -/
theorem exported_piece {cW cH it : JSVal} {p : EmitState} (he : exported it = true)
    (h : emitItem cW cH it = .ok p) :
    ∃ cls node rule,
      (it.get "id").toStr = .ok cls ∧ p.htmlChildren = node ∧ p.cssRules = [rule] ∧
      (((it.get "type").isStr "rect" = true ∧ node = rectNode (className cls)) ∨
        ((it.get "type").isStr "text" = true ∧ ∃ t, node = textNode (className cls) (escape t)) ∨
        ((it.get "type").isStr "image" = true ∧
          node = imageNode (className cls) (filename cls))) ∧
      ∃ rest, rule = "." ++ className cls ++ "\x7b" ++ rest := by
  obtain ⟨l, t, c, rest, _, _, hc, hrule⟩ := exported_rule he h
  have hr : "." ++ className c ++ "\x7bleft:" ++ l ++ "%;top:" ++ t ++ "%;" ++ rest =
      "." ++ className c ++ "\x7b" ++ ("left:" ++ l ++ "%;top:" ++ t ++ "%;" ++ rest) := by
    apply String.ext
    simp only [String.data_append, List.append_assoc]
    rfl
  rcases emitted_node h with ⟨hne, _⟩ | ⟨cls, hcls, hn⟩
  · rw [he] at hne; exact absurd hne (by decide)
  · have : cls = c := by rw [hc] at hcls; exact (Except.ok.inj hcls).symm
    subst this
    refine ⟨cls, p.htmlChildren, _, hc, rfl, hrule, ?_, _, hr⟩
    rcases hn with ⟨ht, e⟩ | ⟨ht, tx, _, e⟩ | ⟨ht, e⟩
    · exact Or.inl ⟨ht, e⟩
    · exact Or.inr (Or.inl ⟨ht, tx, e⟩)
    · exact Or.inr (Or.inr ⟨ht, e⟩)

theorem emitAll_exported {cW cH : JSVal} {its : List JSVal} {ps : List EmitState}
    (h : emitAll cW cH its = .ok ps) :
    ∃ entries : List (String × String × String),
      List.Forall₂ (fun it e =>
        (it.get "id").toStr = .ok e.1 ∧
        (((it.get "type").isStr "rect" = true ∧ e.2.1 = rectNode (className e.1)) ∨
          ((it.get "type").isStr "text" = true ∧
            ∃ t, e.2.1 = textNode (className e.1) (escape t)) ∨
          ((it.get "type").isStr "image" = true ∧
            e.2.1 = imageNode (className e.1) (filename e.1))) ∧
        ∃ rest, e.2.2 = "." ++ className e.1 ++ "\x7b" ++ rest) (its.filter exported) entries ∧
      String.join (ps.map fun p => p.htmlChildren) = String.join (entries.map fun e => e.2.1) ∧
      (ps.map fun p => p.cssRules).flatten = entries.map fun e => e.2.2 := by
  induction its generalizing ps with
  | nil =>
    simp only [emitAll, Except.ok.injEq] at h
    subst h
    exact ⟨[], List.Forall₂.nil, rfl, rfl⟩
  | cons it rest ih =>
    obtain ⟨p, qs, h1, h2, rfl⟩ := emitAll_cons_ok.mp h
    obtain ⟨es, hes, hj, hc⟩ := ih h2
    by_cases he : exported it = true
    · obtain ⟨cls, node, rule, hid, hn, hr, hshape, hsel⟩ := exported_piece he h1
      refine ⟨(cls, node, rule) :: es, ?_, ?_, ?_⟩
      · rw [List.filter_cons_of_pos he]
        exact List.Forall₂.cons ⟨hid, hshape, hsel⟩ hes
      · simp only [List.map_cons, join_cons, hj, hn]
      · simp only [List.map_cons, List.flatten_cons, hc, hr, List.singleton_append]
    · have he' : exported it = false := by simpa using he
      obtain ⟨_, _, rfl⟩ := (emitItem_other he' p).mp h1
      refine ⟨es, ?_, ?_, ?_⟩
      · rw [List.filter_cons_of_neg he]; exact hes
      · simp only [List.map_cons, join_cons, hj, EmitState.empty, empty_append]
      · simp only [List.map_cons, List.flatten_cons, hc, EmitState.empty, List.nil_append]

/-- C11. Whenever the emitter returns (and on well-formed items with primitive canvas
dimensions it does): each item of type rect, text or image, in input order, has one entry
`(cls, node, rule)` where `cls` is the string of its id, `node` is its one markup node (a
`div` or `img` of class `abs-el el-<id>`) and `rule` is its one style rule, of selector
`.el-<id>`; the markup is the page head, these nodes in order and the page foot; the
stylesheet is the 5 base rules followed by these rules in the same order, joined by line
feeds, so rule `i` goes with node `i` and there are as many rules as such items. -/
theorem C11_one_node_one_rule (its : List JSVal) (cw ch : JSVal) :
    ((∀ e ∈ its, wellFormed e = true) → cw.isPrimitive = true → ch.isPrimitive = true →
      ∃ r, buildHTMLAndCSS (.arr its) cw ch = .ok r) ∧
    ∀ r, buildHTMLAndCSS (.arr its) cw ch = .ok r →
      ∃ entries : List (String × String × String),
        List.Forall₂ (fun it e =>
          (it.get "id").toStr = .ok e.1 ∧
          (((it.get "type").isStr "rect" = true ∧ e.2.1 = rectNode (className e.1)) ∨
            ((it.get "type").isStr "text" = true ∧
              ∃ t, e.2.1 = textNode (className e.1) (escape t)) ∨
            ((it.get "type").isStr "image" = true ∧
              e.2.1 = imageNode (className e.1) (filename e.1))) ∧
          ∃ rest, e.2.2 = "." ++ className e.1 ++ "\x7b" ++ rest) (its.filter exported) entries ∧
        r.html = pageHead ++ String.join (entries.map fun e => e.2.1) ++ pageFoot ∧
        r.css = "\n".intercalate (baseRules ++ entries.map fun e => e.2.2) ∧
        baseRules.length = 5 ∧ entries.length = (its.filter exported).length := by
  constructor
  · intro hits hW hH
    obtain ⟨ps, _, hb⟩ := buildHTMLAndCSS_total its cw ch hits hW hH
    exact ⟨_, hb⟩
  · intro r hr
    obtain ⟨ps, hps, rfl⟩ := buildHTMLAndCSS_ok hr
    obtain ⟨es, hes, hj, hc⟩ := emitAll_exported hps
    refine ⟨es, hes, ?_, ?_, rfl, hes.length_eq.symm⟩
    · simp only [assemble, hj]
    · simp only [assemble, hc]

/-- C11 on a rect, an ellipse, a text and an image: three nodes and, after the 5 base rules,
three rules, in the same order. -/
theorem C11_one_node_one_rule_witness :
    ∃ r, buildHTMLAndCSS
        (.arr [sampleRect, .obj [("id", .str "e"), ("type", .str "ellipse")], sampleText,
          sampleImage]) (numV 1100) (numV 700) = .ok r ∧
      ∃ n1 n2 n3 r1 r2 r3 : String,
        r.html = pageHead ++ String.join [n1, n2, n3] ++ pageFoot ∧
        r.css = "\n".intercalate (baseRules ++ [r1, r2, r3]) ∧
        (∃ rest, n1 = "<div class=\"abs-el el-rect-1\"" ++ rest) ∧
        (∃ rest, r1 = ".el-rect-1\x7b" ++ rest) ∧
        (∃ rest, n2 = "<div class=\"abs-el el-text-1\"" ++ rest) ∧
        (∃ rest, r2 = ".el-text-1\x7b" ++ rest) ∧
        (∃ rest, n3 = "<img class=\"abs-el el-img-1\"" ++ rest) ∧
        (∃ rest, r3 = ".el-img-1\x7b" ++ rest) := by
  have hC := C11_one_node_one_rule
    [sampleRect, .obj [("id", .str "e"), ("type", .str "ellipse")], sampleText, sampleImage]
    (numV 1100) (numV 700)
  obtain ⟨r, hr⟩ := hC.1 (by decide) rfl rfl
  obtain ⟨es, hes, hhtml, hcss, -, -⟩ := hC.2 r hr
  have hf : List.filter exported
      [sampleRect, .obj [("id", .str "e"), ("type", .str "ellipse")], sampleText, sampleImage] =
      [sampleRect, sampleText, sampleImage] := by decide
  rw [hf] at hes
  have i1 : (sampleRect.get "id").toStr = .ok "rect-1" := by decide!
  have i2 : (sampleText.get "id").toStr = .ok "text-1" := by decide!
  have i3 : (sampleImage.get "id").toStr = .ok "img-1" := by decide!
  cases hes with
  | cons h1 t1 =>
    cases t1 with
    | cons h2 t2 =>
      cases t2 with
      | cons h3 t3 =>
        cases t3
        rename_i e1 e2 e3
        obtain ⟨c1, n1, r1⟩ := e1
        obtain ⟨c2, n2, r2⟩ := e2
        obtain ⟨c3, n3, r3⟩ := e3
        obtain ⟨hid1, hn1, s1, hs1⟩ := h1
        obtain ⟨hid2, hn2, s2, hs2⟩ := h2
        obtain ⟨hid3, hn3, s3, hs3⟩ := h3
        simp only at hid1 hid2 hid3 hn1 hn2 hn3 hs1 hs2 hs3
        rw [i1] at hid1; rw [i2] at hid2; rw [i3] at hid3
        obtain rfl := Except.ok.inj hid1
        obtain rfl := Except.ok.inj hid2
        obtain rfl := Except.ok.inj hid3
        refine ⟨r, hr, n1, n2, n3, r1, r2, r3, hhtml, hcss, ?_, ⟨s1, hs1⟩, ?_, ⟨s2, hs2⟩, ?_,
          ⟨s3, hs3⟩⟩
        · rcases hn1 with ⟨_, e⟩ | ⟨ht, _⟩ | ⟨ht, _⟩
          · exact ⟨"></div>\n", by rw [e]; rfl⟩
          · exact absurd ht (by decide)
          · exact absurd ht (by decide)
        · rcases hn2 with ⟨ht, _⟩ | ⟨_, t, e⟩ | ⟨ht, _⟩
          · exact absurd ht (by decide)
          · refine ⟨">" ++ escape t ++ "</div>\n", ?_⟩
            rw [e]
            apply String.ext
            simp only [textNode, className, String.data_append, List.append_assoc]
            rfl
          · exact absurd ht (by decide)
        · rcases hn3 with ⟨ht, _⟩ | ⟨ht, _⟩ | ⟨_, e⟩
          · exact absurd ht (by decide)
          · exact absurd ht (by decide)
          · exact ⟨" src=\"assets/img-1.png\" alt=\"\" />\n", by rw [e]; rfl⟩

/-! ## Naming functions -/

theorem className_injective {a b : String} (h : className a = className b) : a = b := by
  have h' := congrArg String.data h
  simp only [className, String.data_append] at h'
  exact String.ext (List.append_cancel_left h')

theorem filename_injective {a b : String} (h : filename a = filename b) : a = b := by
  have h' := congrArg String.data h
  simp only [filename, String.data_append, List.append_assoc] at h'
  exact String.ext (List.append_cancel_right (List.append_cancel_left h'))

theorem toStr_str (s : String) : (JSVal.str s).toStr = .ok s := by
  simp [JSVal.toStr]

/-- C12. The class name of an id is `"el-" + id` and the asset path is
`"assets/" + id + ".png"`; these are the names the emitter puts on the node, the rule and
the `src` of an element whose id is the string `a`; and for two distinct id strings `a` and
`b` the class names differ and the asset paths differ. -/
theorem C12_names_collision_free (a b : String) (hab : a ≠ b) :
    className a = "el-" ++ a ∧ filename a = "assets/" ++ a ++ ".png" ∧
    className a ≠ className b ∧ filename a ≠ filename b ∧
    (∀ (cW cH it : JSVal) (p : EmitState), it.get "id" = .str a → exported it = true →
      emitItem cW cH it = .ok p →
      (∃ rest, p.cssRules = ["." ++ className a ++ "\x7b" ++ rest]) ∧
      (p.htmlChildren = rectNode (className a) ∨
        (∃ t, p.htmlChildren = textNode (className a) (escape t)) ∨
        p.htmlChildren = imageNode (className a) (filename a))) := by
  refine ⟨rfl, rfl, fun h => hab (className_injective h), fun h => hab (filename_injective h),
    ?_⟩
  intro cW cH it p hid he hp
  obtain ⟨cls, node, rule, hc, hn, hr, hshape, rest, hrest⟩ := exported_piece he hp
  rw [hid, toStr_str] at hc
  obtain rfl := Except.ok.inj hc
  refine ⟨⟨rest, by rw [hr, hrest]⟩, ?_⟩
  rw [hn]
  rcases hshape with ⟨_, e⟩ | ⟨_, t, e⟩ | ⟨_, e⟩
  · exact Or.inl e
  · exact Or.inr (Or.inl ⟨t, e⟩)
  · exact Or.inr (Or.inr e)

/-- C12 on the ids `img-1` and `img-2`. -/
theorem C12_names_collision_free_witness :
    className "img-1" = "el-img-1" ∧ filename "img-1" = "assets/img-1.png" ∧
    className "img-1" ≠ className "img-2" ∧ filename "img-1" ≠ filename "img-2" :=
  let h := C12_names_collision_free "img-1" "img-2" (by decide)
  ⟨h.1, h.2.1, h.2.2.1, h.2.2.2.1⟩

/-! ## Rotation and fill of a rect -/

theorem toString_zero : (JSNum.ofNat 0).toString = "0" := by
  simp [JSNum.ofNat, JSNum.toString]

/-- C13. For a rect at index `i`: whenever the emitter returns (and on well-formed items with
primitive canvas dimensions it does), the rule of that rect ends with
`background:<fill>;transform: rotate(<rot>deg);}` where `rot` is the string of the `rotate`
property as it stands (the text itself for a string, `Number::toString` for a Number: no
division, multiplication or `toFixed` is applied, whatever the canvas size), `0` when
`rotate` is absent, and `fill` is the string of the `fill` property, the text itself for a
string. -/
theorem C13_rotate_fill_passthrough (its : List JSVal) (i : Nat) (it : JSVal) (cw ch : JSVal)
    (hi : its[i]? = some it) (hty : (it.get "type").isStr "rect" = true) :
    ((∀ e ∈ its, wellFormed e = true) → cw.isPrimitive = true → ch.isPrimitive = true →
      ∃ r, buildHTMLAndCSS (.arr its) cw ch = .ok r) ∧
    ∀ r, buildHTMLAndCSS (.arr its) cw ch = .ok r →
      ∃ (ps : List EmitState) (p : EmitState) (pre rot fill : String),
        r.css = "\n".intercalate (baseRules ++ (ps.map fun p => p.cssRules).flatten) ∧
        ps.length = its.length ∧ ps[i]? = some p ∧
        ((it.get "rotate").withDefault (.num (JSNum.ofNat 0))).toStr = .ok rot ∧
        ((it.get "fill").withDefault (.str "#ddd")).toStr = .ok fill ∧
        p.cssRules =
          [pre ++ ("background:" ++ fill ++ ";transform: rotate(" ++ rot ++ "deg);\x7d")] ∧
        (∀ s, it.get "rotate" = .str s → rot = s) ∧
        (∀ n, it.get "rotate" = .num n → rot = n.toString) ∧
        (it.get "rotate" = .undefined → rot = "0") ∧
        (∀ f, it.get "fill" = .str f → fill = f) := by
  constructor
  · intro hits hW hH
    obtain ⟨ps, _, hb⟩ := buildHTMLAndCSS_total its cw ch hits hW hH
    exact ⟨_, hb⟩
  · intro r hr
    obtain ⟨ps, hps, rfl⟩ := buildHTMLAndCSS_ok hr
    obtain ⟨p, hp, hpi⟩ := emitAll_getElem hps hi
    obtain ⟨_, l, t, w, hh, c, f, ro, _, _, _, _, _, hf, hro, rfl⟩ := (emitItem_rect hty p).mp hpi
    refine ⟨ps, _, "." ++ className c ++ "\x7bleft:" ++ l ++ "%;top:" ++ t ++ "%;" ++
      ("width:" ++ w ++ "%;height:" ++ hh ++ "%;"), ro, f, by simp only [assemble],
      emitAll_length hps, hp, hro, hf,
      ?_, ?_, ?_, ?_, ?_⟩
    · rw [rectRule_eq]
      show [_] = [_]
      congr 1
      apply String.ext
      simp only [String.data_append, List.append_assoc]
    · intro s hs
      rw [hs] at hro
      simp only [JSVal.withDefault, toStr_str, Except.ok.injEq] at hro
      exact hro.symm
    · intro n hn
      rw [hn] at hro
      simp only [JSVal.withDefault, JSVal.toStr, Except.ok.injEq] at hro
      exact hro.symm
    · intro hu
      rw [hu] at hro
      simp only [JSVal.withDefault, JSVal.toStr, Except.ok.injEq, toString_zero] at hro
      exact hro.symm
    · intro s hs
      rw [hs] at hf
      simp only [JSVal.withDefault, toStr_str, Except.ok.injEq] at hf
      exact hf.symm

/-- C13 on a rect with `rotate: 45` and `fill: "transparent"` followed by a rect with neither
property: `rotate(45deg)` and `background:transparent`, then `rotate(0deg)`. -/
theorem C13_rotate_fill_passthrough_witness :
    (∃ (r : Output) (ps : List EmitState) (p : EmitState) (pre : String),
      buildHTMLAndCSS (.arr [turnedRect, plainRect]) (numV 1100) (numV 700) = .ok r ∧
      r.css = "\n".intercalate (baseRules ++ (ps.map fun p => p.cssRules).flatten) ∧
      ps[0]? = some p ∧
      p.cssRules = [pre ++ "background:transparent;transform: rotate(45deg);\x7d"]) ∧
    (∃ (r : Output) (ps : List EmitState) (p : EmitState) (pre fill : String),
      buildHTMLAndCSS (.arr [turnedRect, plainRect]) (numV 1100) (numV 700) = .ok r ∧
      r.css = "\n".intercalate (baseRules ++ (ps.map fun p => p.cssRules).flatten) ∧
      ps[1]? = some p ∧
      p.cssRules = [pre ++ ("background:" ++ fill ++ ";transform: rotate(0deg);\x7d")]) := by
  have hA := C13_rotate_fill_passthrough [turnedRect, plainRect] 0 turnedRect (numV 1100)
    (numV 700) rfl (by decide)
  have hB := C13_rotate_fill_passthrough [turnedRect, plainRect] 1 plainRect (numV 1100)
    (numV 700) rfl (by decide)
  obtain ⟨r, hr⟩ := hA.1 (by decide) rfl rfl
  constructor
  · obtain ⟨ps, p, pre, rot, fill, hcss, -, hp, -, -, hrule, -, hnum, -, hfill⟩ := hA.2 r hr
    have h1 : rot = (JSNum.ofNat 45).toString := hnum (JSNum.ofNat 45) (by decide)
    have h2 : fill = "transparent" := hfill "transparent" (by decide)
    have h3 : (JSNum.ofNat 45).toString = "45" := by decide!
    rw [h1, h2, h3] at hrule
    exact ⟨r, ps, p, pre, hr, hcss, hp, by rw [hrule]; rfl⟩
  · obtain ⟨ps, p, pre, rot, fill, hcss, -, hp, -, -, hrule, -, -, hundef, -⟩ := hB.2 r hr
    have h1 : rot = "0" := hundef (by decide)
    rw [h1] at hrule
    refine ⟨r, ps, p, pre, fill, hr, hcss, hp, ?_⟩
    rw [hrule]
    congr 2
    apply String.ext
    simp only [String.data_append, List.append_assoc]
    rfl

/-! ## The positioning rule and the class `abs-el` -/

theorem intercalate_go (sep : String) (l : List String) : ∀ acc : String,
    String.intercalate.go acc sep l = acc ++ String.join (l.map fun s => sep ++ s) := by
  induction l with
  | nil => intro acc; apply String.ext; simp [String.intercalate.go]
  | cons a l ih =>
    intro acc
    rw [String.intercalate.go, ih]
    apply String.ext
    simp [String.data_join, String.data_append]

theorem intercalate_cons (sep a : String) (l : List String) :
    sep.intercalate (a :: l) = a ++ String.join (l.map fun s => sep ++ s) := by
  rw [String.intercalate, intercalate_go]

/-- The stylesheet starts with the five base rules, each on its line; every further rule
follows on a line of its own. -/
theorem css_eq (rules : List String) :
    "\n".intercalate (baseRules ++ rules) =
      "\n".intercalate baseRules ++ String.join (rules.map fun s => "\n" ++ s) := by
  have hb : baseRules = baseRules.head! :: baseRules.tail := by rfl
  rw [hb, List.cons_append, intercalate_cons, intercalate_cons, List.map_append]
  apply String.ext
  simp [String.data_join, String.data_append]

theorem baseCss_data : ∃ pre : List Char, ("\n".intercalate baseRules).data =
    pre ++ ".abs-el\x7bposition:absolute;transform-origin: top left;\x7d".data :=
  ⟨(("\n".intercalate baseRules).data.take 240), by decide!⟩

theorem baseRules_getElem (rules : List String) : (baseRules ++ rules)[4]? =
    some ".abs-el\x7bposition:absolute;transform-origin: top left;\x7d" := by
  simp [baseRules]

/-- C14. Whenever the emitter returns (and on well-formed items with primitive canvas
dimensions it does): the fifth rule of the stylesheet is
`.abs-el{position:absolute;transform-origin: top left;}`, on a line of its own after four
fixed rules and before the element rules, and the markup of every item of type rect, text or
image starts with `<div class="abs-el ` or `<img class="abs-el `, so that each emitted node
carries the class that rule selects. -/
theorem C14_abs_el_rule_and_class (its : List JSVal) (cw ch : JSVal) :
    ((∀ e ∈ its, wellFormed e = true) → cw.isPrimitive = true → ch.isPrimitive = true →
      ∃ r, buildHTMLAndCSS (.arr its) cw ch = .ok r) ∧
    ∀ r, buildHTMLAndCSS (.arr its) cw ch = .ok r →
      ∃ (ps : List EmitState) (rules : List String),
        r.css = "\n".intercalate (baseRules ++ rules) ∧
        (baseRules ++ rules)[4]? =
          some ".abs-el\x7bposition:absolute;transform-origin: top left;\x7d" ∧
        Contains r.css ".abs-el\x7bposition:absolute;transform-origin: top left;\x7d" ∧
        r.html = pageHead ++ String.join (ps.map fun p => p.htmlChildren) ++ pageFoot ∧
        List.Forall₂ (fun it p =>
          emitItem (cw.or (.num (JSNum.ofNat 1100))) (ch.or (.num (JSNum.ofNat 700))) it = .ok p ∧
          (exported it = false → p.htmlChildren = "") ∧
          (exported it = true →
            ∃ rest, p.htmlChildren = "<div class=\"abs-el " ++ rest ∨
              p.htmlChildren = "<img class=\"abs-el " ++ rest)) its ps := by
  constructor
  · intro hits hW hH
    obtain ⟨ps, _, hb⟩ := buildHTMLAndCSS_total its cw ch hits hW hH
    exact ⟨_, hb⟩
  · intro r hr
    obtain ⟨ps, hps, rfl⟩ := buildHTMLAndCSS_ok hr
    refine ⟨ps, (ps.map fun p => p.cssRules).flatten, by simp only [assemble],
      baseRules_getElem _, ?_, by simp only [assemble], ?_⟩
    · obtain ⟨pre, hpre⟩ := baseCss_data
      refine ⟨pre,
        (String.join ((ps.map fun p => p.cssRules).flatten.map fun s => "\n" ++ s)).data, ?_⟩
      simp only [assemble, css_eq, String.data_append, hpre, List.append_assoc]
    · refine (emitAll_forall₂ hps).imp ?_
      intro it p hp
      refine ⟨hp, fun he => ?_, fun he => ?_⟩
      · obtain ⟨_, _, rfl⟩ := (emitItem_other he p).mp hp
        rfl
      · obtain ⟨cls, node, rule, _, hn, _, hshape, _⟩ := exported_piece he hp
        rw [hn]
        rcases hshape with ⟨_, e⟩ | ⟨_, t, e⟩ | ⟨_, e⟩
        · exact ⟨className cls ++ "\"></div>\n", Or.inl (by
            rw [e]; apply String.ext
            simp only [rectNode, String.data_append, List.append_assoc])⟩
        · exact ⟨className cls ++ "\">" ++ escape t ++ "</div>\n", Or.inl (by
            rw [e]; apply String.ext
            simp only [textNode, String.data_append, List.append_assoc])⟩
        · exact ⟨className cls ++ "\" src=\"" ++ filename cls ++ "\" alt=\"\" />\n", Or.inr (by
            rw [e]; apply String.ext
            simp only [imageNode, String.data_append, List.append_assoc])⟩

/-- C14 on the sample rect, text and image: the stylesheet holds the positioning rule and the
three nodes start with `<div class="abs-el ` or `<img class="abs-el `. -/
theorem C14_abs_el_rule_and_class_witness :
    ∃ (r : Output) (n1 n2 n3 : String),
      buildHTMLAndCSS (.arr [sampleRect, sampleText, sampleImage]) (numV 1100) (numV 700) =
        .ok r ∧
      Contains r.css ".abs-el\x7bposition:absolute;transform-origin: top left;\x7d" ∧
      r.html = pageHead ++ String.join [n1, n2, n3] ++ pageFoot ∧
      (∃ rest, n1 = "<div class=\"abs-el " ++ rest ∨ n1 = "<img class=\"abs-el " ++ rest) ∧
      (∃ rest, n2 = "<div class=\"abs-el " ++ rest ∨ n2 = "<img class=\"abs-el " ++ rest) ∧
      (∃ rest, n3 = "<div class=\"abs-el " ++ rest ∨ n3 = "<img class=\"abs-el " ++ rest) := by
  have hC := C14_abs_el_rule_and_class [sampleRect, sampleText, sampleImage] (numV 1100)
    (numV 700)
  obtain ⟨r, hr⟩ := hC.1 (by decide) rfl rfl
  obtain ⟨ps, rules, -, -, hcon, hhtml, hall⟩ := hC.2 r hr
  cases hall with
  | cons h1 t1 =>
    cases t1 with
    | cons h2 t2 =>
      cases t2 with
      | cons h3 t3 =>
        cases t3
        exact ⟨r, _, _, _, hr, hcon, hhtml, h1.2.2 (by decide), h2.2.2 (by decide),
          h3.2.2 (by decide)⟩

/-! ## Lemmas: the archive -/

theorem lookup_cons_eq (k : String) (v : Content) (l : List (String × Content)) (m : String) :
    ((k, v) :: l).lookup m = if m = k then some v else l.lookup m := by
  by_cases h : m = k
  · subst h; simp [List.lookup]
  · have : (m == k) = false := by simpa using h
    simp [List.lookup, this, h]

theorem setEntry_fresh (l : List (String × Content)) (name : String) (data : Content)
    (h : ∀ e ∈ l, e.1 ≠ name) : setEntry l name data = l ++ [(name, data)] := by
  induction l with
  | nil => rfl
  | cons e l ih =>
    obtain ⟨k, v⟩ := e
    have hk : k ≠ name := h (k, v) (by simp)
    simp only [setEntry, if_neg hk, List.cons_append, ih (fun e he => h e (by simp [he]))]

theorem file_fresh (z : Archive) (name : String) (data : Content)
    (h : ∀ e ∈ z.entries, e.1 ≠ name) :
    z.file name data = { entries := z.entries ++ [(name, data)] } := by
  simp [Archive.file, setEntry_fresh _ _ _ h]

theorem lookup_setEntry_same (l : List (String × Content)) (name : String) (data : Content) :
    (setEntry l name data).lookup name = some data := by
  induction l with
  | nil => simp [setEntry, lookup_cons_eq]
  | cons e l ih =>
    obtain ⟨k, v⟩ := e
    by_cases hk : k = name
    · simp [setEntry, hk, lookup_cons_eq]
    · have hk' : ¬ name = k := fun e => hk e.symm
      simp [setEntry, hk, lookup_cons_eq, hk', ih]

theorem lookup_setEntry_other (l : List (String × Content)) {name m : String} (data : Content)
    (hm : m ≠ name) : (setEntry l name data).lookup m = l.lookup m := by
  induction l with
  | nil => simp [setEntry, lookup_cons_eq, hm]
  | cons e l ih =>
    obtain ⟨k, v⟩ := e
    by_cases hk : k = name
    · have hmk : ¬ m = k := by rw [hk]; exact hm
      simp [setEntry, hk, lookup_cons_eq, hm]
    · simp [setEntry, hk, lookup_cons_eq, ih]

/-- After `zip.file(name, data)` the entry `name` holds `data`. -/
theorem read_file_same (z : Archive) (name : String) (data : Content) :
    (z.file name data).read name = some data :=
  lookup_setEntry_same z.entries name data

/-- The call `zip.file(name, data)` leaves every other entry as it was. -/
theorem read_file_other (z : Archive) {name m : String} (data : Content) (hm : m ≠ name) :
    (z.file name data).read m = z.read m :=
  lookup_setEntry_other z.entries data hm

/-! ## Lemmas: the asset callbacks -/

theorem assetWrite_some {assets : List Asset} {outcome : Nat → FetchOutcome} {i : Nat}
    {e : String × Content} (h : assetWrite assets outcome i = some e) :
    ∃ a s buf, assets[i]? = some a ∧ a.id.toStr = .ok s ∧ (outcome i).bytes = some buf ∧
      e = ("assets/" ++ (s ++ ".png"), .binary buf) := by
  unfold assetWrite at h
  cases ha : assets[i]? with
  | none => simp [ha] at h
  | some a =>
    cases hb : (outcome i).bytes with
    | none => simp [ha, hb] at h
    | some buf =>
      cases hs : a.id.toStr with
      | error err => simp [ha, hb, hs] at h
      | ok s =>
        simp only [ha, hb, hs, Option.some.injEq] at h
        exact ⟨a, s, buf, rfl, hs, rfl, h.symm⟩

theorem assetWrite_of {assets : List Asset} (outcome : Nat → FetchOutcome) {i : Nat}
    {a : Asset} {s : String} (ha : assets[i]? = some a) (hs : a.id.toStr = .ok s) :
    assetWrite assets outcome i =
      ((outcome i).bytes).map fun buf => ("assets/" ++ (s ++ ".png"), Content.binary buf) := by
  unfold assetWrite
  cases hb : (outcome i).bytes <;> simp [ha, hs]

theorem callback_eq (assets : List Asset) (outcome : Nat → FetchOutcome) (z : Archive)
    (i : Nat) :
    (match assets[i]? with
      | some a => assetCallback z a (outcome i)
      | none => z) =
    (match assetWrite assets outcome i with
      | some e => z.file e.1 e.2
      | none => z) := by
  unfold assetWrite assetCallback
  cases assets[i]? with
  | none => rfl
  | some a =>
    cases hb : (outcome i).bytes with
    | none => rfl
    | some buf =>
      cases hs : a.id.toStr with
      | error err => simp only [hs]
      | ok s => simp only [hs]

/-- The run of the handler once the emitter has returned `out`. -/
theorem exportZip_sent {body items : JSVal} {out : Output} (outcome : Nat → FetchOutcome)
    (order : List Nat) (hb : body.destructurable = true) (hi : body.get "items" = items)
    (ht : items.toBoolean = true)
    (ho : buildHTMLAndCSS items (body.get "canvasWidth") (body.get "canvasHeight") = .ok out) :
    exportZip body outcome order =
      { response := .sent 200 zipHeaders (writeAll out.assets outcome order (baseArchive out))
        fetched := out.assets.map fun a => a.src } := by
  simp only [exportZip, hb, hi, ht, ho, writeAll, baseArchive, callback_eq]
  simp

theorem asset_name_ne_index (s : String) : "assets/" ++ (s ++ ".png") ≠ "index.html" := by
  intro h
  have := congrArg String.data h
  simp only [String.data_append] at this
  exact absurd this (by simp)

theorem asset_name_ne_styles (s : String) : "assets/" ++ (s ++ ".png") ≠ "styles.css" := by
  intro h
  have := congrArg String.data h
  simp only [String.data_append] at this
  exact absurd this (by simp)

theorem asset_name_injective {s t : String}
    (h : "assets/" ++ (s ++ ".png") = "assets/" ++ (t ++ ".png")) : s = t := by
  have h' := congrArg String.data h
  simp only [String.data_append] at h'
  exact String.ext (List.append_cancel_right (List.append_cancel_left h'))

/-- Entries that no callback writes are read as before. -/
theorem writeAll_read_untouched (assets : List Asset) (outcome : Nat → FetchOutcome)
    (name : String) (order : List Nat) : ∀ z : Archive,
    (∀ i ∈ order, ∀ e, assetWrite assets outcome i = some e → e.1 ≠ name) →
    (writeAll assets outcome order z).read name = z.read name := by
  induction order with
  | nil => intro z _; rfl
  | cons i rest ih =>
    intro z h
    simp only [writeAll, List.foldl_cons]
    have hrest := ih
    unfold writeAll at hrest
    cases hw : assetWrite assets outcome i with
    | none => exact hrest z (fun j hj => h j (by simp [hj]))
    | some e =>
      simp only
      rw [hrest _ (fun j hj => h j (by simp [hj]))]
      exact read_file_other z e.2 (fun hn => h i (by simp) e hw hn.symm)

/-- When all names written are new and pairwise distinct, each write adds one entry. -/
theorem writeAll_fresh (assets : List Asset) (outcome : Nat → FetchOutcome)
    (order : List Nat) : ∀ z : Archive,
    (z.entries.map Prod.fst ++ (order.filterMap (assetWrite assets outcome)).map Prod.fst).Nodup →
    writeAll assets outcome order z =
      { entries := z.entries ++ order.filterMap (assetWrite assets outcome) } := by
  induction order with
  | nil => intro z _; simp [writeAll]
  | cons i rest ih =>
    intro z h
    simp only [writeAll, List.foldl_cons]
    have hrest := ih
    unfold writeAll at hrest
    cases hw : assetWrite assets outcome i with
    | none =>
      simp only [List.filterMap_cons, hw] at h ⊢
      exact hrest z h
    | some e =>
      simp only [List.filterMap_cons, hw, List.map_cons] at h ⊢
      have hfresh : ∀ x ∈ z.entries, x.1 ≠ e.1 := by
        intro x hx hxe
        have hnd := (List.nodup_append.mp h).2.2
        exact hnd (List.mem_map_of_mem Prod.fst hx) (by simp [hxe])
      rw [file_fresh z e.1 e.2 hfresh, hrest]
      · simp
      · simp only [List.map_append, List.map_cons, List.map_nil, List.append_assoc,
          List.singleton_append]
        exact h

/-! ## Lemmas: the entries of the archive -/

theorem lookup_of_mem {l : List (String × Content)} {k : String} {v : Content}
    (hn : (l.map Prod.fst).Nodup) (hm : (k, v) ∈ l) : l.lookup k = some v := by
  induction l with
  | nil => simp at hm
  | cons x rest ih =>
    obtain ⟨k', v'⟩ := x
    simp only [List.map_cons, List.nodup_cons] at hn
    by_cases hk : k = k'
    · subst hk
      rw [lookup_cons_eq]
      simp only [if_true]
      rcases List.mem_cons.mp hm with h | h
      · simp only [Prod.mk.injEq, true_and] at h
        rw [h]
      · exact absurd (List.mem_map_of_mem Prod.fst h) hn.1
    · rw [lookup_cons_eq]
      simp only [hk, if_false]
      rcases List.mem_cons.mp hm with h | h
      · simp only [Prod.mk.injEq] at h
        exact absurd h.1 hk
      · exact ih hn.2 h

theorem lookup_of_not_mem {l : List (String × Content)} {k : String}
    (hn : k ∉ l.map Prod.fst) : l.lookup k = none := by
  induction l with
  | nil => rfl
  | cons x rest ih =>
    obtain ⟨k', v'⟩ := x
    simp only [List.map_cons, List.mem_cons, not_or] at hn
    rw [lookup_cons_eq]
    simp only [hn.1, if_false]
    exact ih hn.2

theorem length_filterMap_eq_filter {α β : Type} (f : α → Option β) (p : α → Bool) (l : List α)
    (h : ∀ a ∈ l, (f a).isSome = p a) : (l.filterMap f).length = (l.filter p).length := by
  induction l with
  | nil => rfl
  | cons a rest ih =>
    have ha := h a (by simp)
    have hrest := ih (fun b hb => h b (by simp [hb]))
    cases hf : f a with
    | none =>
      rw [hf] at ha
      simp only [List.filterMap_cons, hf, List.filter_cons, ← ha, Option.isSome_none]
      simpa using hrest
    | some b =>
      rw [hf] at ha
      simp only [List.filterMap_cons, hf, List.filter_cons, ← ha, Option.isSome_some, if_true,
        List.length_cons, hrest]

theorem build_assets {its : List JSVal} {cw ch : JSVal} {out : Output}
    (h : buildHTMLAndCSS (.arr its) cw ch = .ok out) :
    out.assets = its.filterMap assetRequest := by
  obtain ⟨ps, hps, rfl⟩ := buildHTMLAndCSS_ok h
  simp only [assemble]
  exact emitAll_assets hps

theorem build_asset_id {its : List JSVal} {cw ch : JSVal} {out : Output}
    (h : buildHTMLAndCSS (.arr its) cw ch = .ok out) {a : Asset} (ha : a ∈ out.assets) :
    ∃ s, a.id.toStr = .ok s := by
  rw [build_assets h, List.mem_filterMap] at ha
  obtain ⟨it, hit, hreq⟩ := ha
  obtain ⟨ps, hps, _⟩ := buildHTMLAndCSS_ok h
  obtain ⟨i, hi, hget⟩ := List.mem_iff_getElem.mp hit
  have hi' : its[i]? = some it := by rw [List.getElem?_eq_getElem hi, hget]
  obtain ⟨p, _, hp⟩ := emitAll_getElem hps hi'
  unfold assetRequest at hreq
  by_cases h3 : (it.get "type").isStr "image" = true
  · simp only [h3, if_true, Option.some.injEq] at hreq
    obtain ⟨h1, h2⟩ := isStr_image h3
    obtain ⟨_, l, t, w, hh, c, _, _, _, _, hc, _⟩ := (emitItem_image h1 h2 h3 p).mp hp
    exact ⟨c, by rw [← hreq]; exact hc⟩
  · simp [h3] at hreq

theorem asset_ids_sublist (its : List JSVal) :
    ((its.filterMap assetRequest).map fun a => a.id.toStr).Sublist
      (its.map fun it => (it.get "id").toStr) := by
  induction its with
  | nil => exact List.Sublist.slnil
  | cons it rest ih =>
    simp only [List.filterMap_cons, List.map_cons]
    unfold assetRequest
    by_cases h3 : (it.get "type").isStr "image" = true
    · simp only [h3, if_true, List.map_cons]
      exact List.Sublist.cons₂ _ ih
    · simp only [h3]
      exact List.Sublist.cons _ ih

/-- With pairwise distinct id strings, two asset requests with the same id string sit at the
same index. -/
theorem asset_index_unique {assets : List Asset}
    (hu : (assets.map fun a => a.id.toStr).Nodup) {i j : Nat} {a b : Asset}
    (hi : assets[i]? = some a) (hj : assets[j]? = some b) (h : a.id.toStr = b.id.toStr) :
    i = j := by
  have hi' : (assets.map fun a => a.id.toStr)[i]? = some a.id.toStr := by
    rw [List.getElem?_map, hi]; rfl
  have hj' : (assets.map fun a => a.id.toStr)[j]? = some a.id.toStr := by
    rw [List.getElem?_map, hj, h]; rfl
  obtain ⟨hil, hie⟩ := List.getElem?_eq_some_iff.mp hi'
  obtain ⟨hjl, hje⟩ := List.getElem?_eq_some_iff.mp hj'
  exact (List.Nodup.getElem_inj_iff hu).mp (hie.trans hje.symm)

theorem assetWrite_name_unique {assets : List Asset} (outcome : Nat → FetchOutcome)
    (hu : (assets.map fun a => a.id.toStr).Nodup) {i j : Nat} {e e' : String × Content}
    (hi : assetWrite assets outcome i = some e) (hj : assetWrite assets outcome j = some e')
    (h : e.1 = e'.1) : i = j := by
  obtain ⟨a, s, buf, ha, hs, _, rfl⟩ := assetWrite_some hi
  obtain ⟨b, t, buf', hb, ht, _, rfl⟩ := assetWrite_some hj
  have hst : s = t := asset_name_injective h
  exact asset_index_unique hu ha hb (by rw [hs, ht, hst])

theorem written_names_nodup {assets : List Asset} (outcome : Nat → FetchOutcome)
    (hu : (assets.map fun a => a.id.toStr).Nodup) {order : List Nat} (ho : order.Nodup) :
    ((order.filterMap (assetWrite assets outcome)).map Prod.fst).Nodup := by
  rw [List.map_filterMap]
  refine List.Nodup.filterMap ?_ ho
  intro i j n hi hj
  simp only [Option.mem_def, Option.map_eq_some'] at hi hj
  obtain ⟨e, he, rfl⟩ := hi
  obtain ⟨e', he', hn⟩ := hj
  exact assetWrite_name_unique outcome hu he he' hn.symm

theorem base_entries (out : Output) :
    (baseArchive out).entries =
      [("index.html", .text out.html), ("styles.css", .text out.css)] := by
  simp [baseArchive, Archive.file, Archive.empty, setEntry]

theorem written_name {assets : List Asset} {outcome : Nat → FetchOutcome} {order : List Nat}
    {n : String} (h : n ∈ (order.filterMap (assetWrite assets outcome)).map Prod.fst) :
    ∃ i ∈ order, ∃ s c, n = "assets/" ++ (s ++ ".png") ∧
      assetWrite assets outcome i = some (n, c) := by
  obtain ⟨e, he, rfl⟩ := List.mem_map.mp h
  obtain ⟨i, hi, hw⟩ := List.mem_filterMap.mp he
  obtain ⟨a, s, buf, _, _, _, rfl⟩ := assetWrite_some hw
  exact ⟨i, hi, s, _, rfl, hw⟩

/-- The archive of a run whose asset names are pairwise distinct: the two texts, then one
entry for each write, in completion order. -/
theorem writeAll_entries {assets : List Asset} (outcome : Nat → FetchOutcome)
    (hu : (assets.map fun a => a.id.toStr).Nodup) {order : List Nat} (ho : order.Nodup)
    (out : Output) :
    (((baseArchive out).entries ++ order.filterMap (assetWrite assets outcome)).map
        Prod.fst).Nodup ∧
    writeAll assets outcome order (baseArchive out) =
      { entries := (baseArchive out).entries ++ order.filterMap (assetWrite assets outcome) } := by
  have hn : ((baseArchive out).entries.map Prod.fst ++
      (order.filterMap (assetWrite assets outcome)).map Prod.fst).Nodup := by
    rw [base_entries]
    simp only [List.map_cons, List.map_nil, List.cons_append, List.nil_append, List.nodup_cons,
      List.mem_cons, not_or]
    refine ⟨⟨by decide, ?_⟩, ?_, written_names_nodup outcome hu ho⟩
    · intro h
      obtain ⟨i, _, s, c, hs, _⟩ := written_name h
      exact asset_name_ne_index s hs.symm
    · intro h
      obtain ⟨i, _, s, c, hs, _⟩ := written_name h
      exact asset_name_ne_styles s hs.symm
  exact ⟨by rw [List.map_append]; exact hn, writeAll_fresh assets outcome order _ hn⟩

theorem asset_name_prefix (s : String) :
    "assets/".data.isPrefixOf ("assets/" ++ (s ++ ".png")).data = true := by
  rw [List.isPrefixOf_iff_prefix, String.data_append]
  exact List.prefix_append _ _

theorem assetEntries_written {assets : List Asset} (outcome : Nat → FetchOutcome)
    (order : List Nat) (out : Output) :
    (Archive.mk ((baseArchive out).entries ++
      order.filterMap (assetWrite assets outcome))).assetEntries =
      order.filterMap (assetWrite assets outcome) := by
  rw [base_entries]
  simp only [Archive.assetEntries, List.cons_append, List.nil_append]
  have h1 : "assets/".data.isPrefixOf "index.html".data = false := by decide
  have h2 : "assets/".data.isPrefixOf "styles.css".data = false := by decide
  simp only [List.filter_cons, h1, h2, Bool.false_eq_true, if_false]
  apply List.filter_eq_self.mpr
  intro e he
  obtain ⟨i, _, hw⟩ := List.mem_filterMap.mp he
  obtain ⟨a, s, buf, _, _, _, rfl⟩ := assetWrite_some hw
  exact asset_name_prefix s

/-- The number of writes of a run in which every asset callback runs once. -/
theorem written_count {its : List JSVal} {cw ch : JSVal} {out : Output}
    (h : buildHTMLAndCSS (.arr its) cw ch = .ok out) (outcome : Nat → FetchOutcome)
    {order : List Nat} (hp : order.Perm (List.range out.assets.length)) :
    (order.filterMap (assetWrite out.assets outcome)).length =
      ((List.range out.assets.length).filter fun i => ((outcome i).bytes).isSome).length := by
  rw [(hp.filterMap _).length_eq]
  apply length_filterMap_eq_filter
  intro i hi
  have hi' : i < out.assets.length := List.mem_range.mp hi
  have ha : out.assets[i]? = some out.assets[i] := List.getElem?_eq_getElem hi'
  obtain ⟨s, hs⟩ := build_asset_id h (List.getElem_mem hi')
  rw [assetWrite_of outcome ha hs]
  cases (outcome i).bytes <;> rfl

/-- The entry of the asset request at index `i` after a run in which every callback ran
once, for pairwise distinct id strings: the fetched bytes, or no entry. -/
theorem read_asset {out : Output}
    (hids : (out.assets.map fun a => a.id.toStr).Nodup) (outcome : Nat → FetchOutcome)
    {order : List Nat} (hp : order.Perm (List.range out.assets.length))
    {i : Nat} {a : Asset} {s : String} (ha : out.assets[i]? = some a)
    (hs : a.id.toStr = .ok s) :
    (writeAll out.assets outcome order (baseArchive out)).read ("assets/" ++ (s ++ ".png")) =
      ((outcome i).bytes).map Content.binary := by
  have hord : order.Nodup := hp.nodup_iff.mpr (List.nodup_range _)
  obtain ⟨hkeys, hz⟩ := writeAll_entries outcome hids hord out
  have hw := assetWrite_of outcome ha hs
  have hmem : i ∈ order := by
    rw [hp.mem_iff, List.mem_range]
    exact (List.getElem?_eq_some_iff.mp ha).1
  rw [hz]
  cases hbytes : (outcome i).bytes with
  | none =>
    rw [hbytes] at hw
    apply lookup_of_not_mem
    intro hn
    rw [List.map_append, List.mem_append] at hn
    rcases hn with hn | hn
    · rw [base_entries] at hn
      simp only [List.map_cons, List.map_nil, List.mem_cons, List.mem_singleton,
        List.not_mem_nil, or_false] at hn
      rcases hn with hn | hn
      · exact asset_name_ne_index s hn
      · exact asset_name_ne_styles s hn
    · obtain ⟨j, _, t, c, ht, hj⟩ := written_name hn
      obtain ⟨b, t', buf, hb', ht', _, he⟩ := assetWrite_some hj
      simp only [Prod.mk.injEq] at he
      have hst : s = t' := asset_name_injective he.1
      have hij : i = j := asset_index_unique hids ha hb' (by rw [hs, ht', hst])
      subst hij
      rw [hw] at hj
      simp at hj
  | some buf =>
    rw [hbytes] at hw
    exact lookup_of_mem hkeys
      (List.mem_append_right _ (List.mem_filterMap.mpr ⟨i, hmem, hw⟩))

theorem asset_ids_nodup {its : List JSVal} {cw ch : JSVal} {out : Output}
    (ho : buildHTMLAndCSS (.arr its) cw ch = .ok out)
    (hu : (its.map fun it => (it.get "id").toStr).Nodup) :
    (out.assets.map fun a => a.id.toStr).Nodup := by
  rw [build_assets ho]
  exact List.Nodup.sublist (asset_ids_sublist its) hu

/-- Reading `index.html` and `styles.css` after the callbacks have run, in any order and with
any outcomes. -/
theorem read_texts (out : Output) (outcome : Nat → FetchOutcome) (order : List Nat) :
    (writeAll out.assets outcome order (baseArchive out)).read "index.html" =
        some (.text out.html) ∧
      (writeAll out.assets outcome order (baseArchive out)).read "styles.css" =
        some (.text out.css) := by
  constructor
  · rw [writeAll_read_untouched]
    · simp [Archive.read, base_entries, lookup_cons_eq]
    · intro i _ e he
      obtain ⟨a, s, buf, _, _, _, rfl⟩ := assetWrite_some he
      exact asset_name_ne_index s
  · rw [writeAll_read_untouched]
    · simp [Archive.read, base_entries, lookup_cons_eq]
    · intro i _ e he
      obtain ⟨a, s, buf, _, _, _, rfl⟩ := assetWrite_some he
      exact asset_name_ne_styles s

/-- C15. For a request whose items carry pairwise distinct ids (as the strings they are
written as): the emitter returns on well-formed items, and whenever it returns `out`, then
for every assignment of fetch outcomes and every order in which the asset callbacks (one for
each asset request, that is for each image item) complete, the response is the archive `z`
with status 200 in which `index.html` holds `out.html`, `styles.css` holds `out.css`, the
entry `assets/<id>.png` of the `i`-th image holds the fetched bytes when its fetch and the
reading of its body both resolved and is absent otherwise; the archive has no other entry:
its entries are these two texts and one entry for each resolved fetch, all of them under
`assets/`. -/
theorem C15_archive_entries (body : JSVal) (its : List JSVal) (outcome : Nat → FetchOutcome)
    (hb : body.destructurable = true) (hi : body.get "items" = .arr its)
    (hu : (its.map fun it => (it.get "id").toStr).Nodup) :
    ((∀ e ∈ its, wellFormed e = true) → (body.get "canvasWidth").isPrimitive = true →
      (body.get "canvasHeight").isPrimitive = true →
      ∃ out, buildHTMLAndCSS (.arr its) (body.get "canvasWidth") (body.get "canvasHeight") =
        .ok out) ∧
    ∀ out order,
      buildHTMLAndCSS (.arr its) (body.get "canvasWidth") (body.get "canvasHeight") = .ok out →
      order.Perm (List.range out.assets.length) →
      out.assets = its.filterMap assetRequest ∧
      ∃ z, (exportZip body outcome order).response = .sent 200 zipHeaders z ∧
        z.read "index.html" = some (.text out.html) ∧
        z.read "styles.css" = some (.text out.css) ∧
        (∀ i a, out.assets[i]? = some a → ∃ s, a.id.toStr = .ok s ∧
          z.read ("assets/" ++ (s ++ ".png")) = ((outcome i).bytes).map Content.binary) ∧
        z.entries = [("index.html", .text out.html), ("styles.css", .text out.css)] ++
          z.assetEntries ∧
        z.assetEntries.length =
          ((List.range out.assets.length).filter fun i => ((outcome i).bytes).isSome).length := by
  refine ⟨fun hw hW hH => ?_, ?_⟩
  · obtain ⟨ps, _, h⟩ := buildHTMLAndCSS_total its _ _ hw hW hH
    exact ⟨_, h⟩
  intro out order ho hp
  have hassets := build_assets ho
  have hids := asset_ids_nodup ho hu
  have hord : order.Nodup := hp.nodup_iff.mpr (List.nodup_range _)
  obtain ⟨hkeys, hz⟩ := writeAll_entries outcome hids hord out
  have hrun := exportZip_sent outcome order hb hi rfl ho
  refine ⟨hassets, _, by rw [hrun], (read_texts out outcome order).1,
    (read_texts out outcome order).2, ?_, ?_, ?_⟩
  · intro i a ha
    obtain ⟨hlt, hget⟩ := List.getElem?_eq_some_iff.mp ha
    obtain ⟨s, hs⟩ := build_asset_id ho (hget ▸ List.getElem_mem hlt)
    exact ⟨s, hs, read_asset hids outcome hp ha hs⟩
  · rw [hz, assetEntries_written, base_entries]
  · rw [hz, assetEntries_written]
    exact written_count ho outcome hp

/-- C15 on three images of which the second cannot be fetched, the callbacks completing in
the order third, first, second: exactly two entries lie under `assets/`, those of the first
and of the third image, and the response is the archive with status 200. -/
theorem C15_archive_entries_witness :
    ∃ out z,
      buildHTMLAndCSS (.arr threeImages) (numV 1100) (numV 700) = .ok out ∧
      (exportZip (requestOf (.arr threeImages)) secondFails [2, 0, 1]).response =
        .sent 200 zipHeaders z ∧
      z.read "index.html" = some (.text out.html) ∧
      z.read "styles.css" = some (.text out.css) ∧
      z.read "assets/a.png" = some (.binary [137, 80, 78, 71]) ∧
      z.read "assets/b.png" = none ∧
      z.read "assets/c.png" = some (.binary [137, 80, 78, 71, 13]) ∧
      z.assetEntries.length = 2 ∧ z.entries.length = 4 := by
  have hC := C15_archive_entries (requestOf (.arr threeImages)) threeImages secondFails rfl rfl
    (by decide!)
  obtain ⟨out, hout⟩ := hC.1 (by decide) rfl rfl
  have hlen : out.assets = threeImages.filterMap assetRequest := build_assets hout
  have hperm : [2, 0, 1].Perm (List.range out.assets.length) := by
    rw [hlen]; decide
  obtain ⟨ha, z, hz, h1, h2, h3, h4, h5⟩ := hC.2 out [2, 0, 1] hout hperm
  rw [ha] at h3 h5
  obtain ⟨s0, hs0, hr0⟩ := h3 0 _ rfl
  obtain ⟨s1, hs1, hr1⟩ := h3 1 _ rfl
  obtain ⟨s2, hs2, hr2⟩ := h3 2 _ rfl
  obtain rfl : "a" = s0 := Except.ok.inj ((by decide! : _ = Except.ok "a").symm.trans hs0)
  obtain rfl : "b" = s1 := Except.ok.inj ((by decide! : _ = Except.ok "b").symm.trans hs1)
  obtain rfl : "c" = s2 := Except.ok.inj ((by decide! : _ = Except.ok "c").symm.trans hs2)
  have h5' : z.assetEntries.length = 2 := h5
  refine ⟨out, z, hout, hz, h1, h2, hr0, hr1, hr2, h5', ?_⟩
  rw [h4]
  simp [h5']

/-! ## Lemmas: the responses of the handler -/

theorem writeAll_none (assets : List Asset) (outcome : Nat → FetchOutcome) (order : List Nat)
    (z : Archive) (h : ∀ i ∈ order, (outcome i).bytes = none) :
    writeAll assets outcome order z = z := by
  induction order with
  | nil => rfl
  | cons i rest ih =>
    have hi : assetWrite assets outcome i = none := by
      unfold assetWrite
      cases assets[i]? with
      | none => rfl
      | some a => simp [h i (by simp)]
    have hrest := ih (fun j hj => h j (by simp [hj]))
    unfold writeAll at hrest ⊢
    simp only [List.foldl_cons, hi]
    exact hrest

theorem exportZip_failed {body : JSVal} {err : JSError} (outcome : Nat → FetchOutcome)
    (order : List Nat) (hb : body.destructurable = true)
    (ht : (body.get "items").toBoolean = true)
    (ho : buildHTMLAndCSS (body.get "items") (body.get "canvasWidth")
      (body.get "canvasHeight") = .error err) :
    exportZip body outcome order = { response := .failed 500 err, fetched := [] } := by
  simp [exportZip, hb, ht, ho]

theorem exportZip_invalid {body : JSVal} (outcome : Nat → FetchOutcome)
    (order : List Nat) (hb : body.destructurable = true)
    (ht : (body.get "items").toBoolean = false) :
    exportZip body outcome order =
      { response := .invalid 400 "No 'items' array provided in request body.", fetched := [] } := by
  simp [exportZip, hb, ht]

theorem get_of_not_hasOwn {ps : List (String × JSVal)} {k : String}
    (h : hasOwn ps k = false) : (JSVal.obj ps).get k = .undefined := by
  have hl : ps.lookup k = none := by
    induction ps with
    | nil => rfl
    | cons p rest ih =>
      obtain ⟨a, b⟩ := p
      simp only [hasOwn, List.any_cons, Bool.or_eq_false_iff] at h
      have hne : (k == a) = false := by
        have := h.1
        simp only [beq_eq_false_iff_ne, ne_eq] at this ⊢
        exact fun e => this e.symm
      simp only [List.lookup, hne]
      exact ih (by simpa [hasOwn] using h.2)
  simp [JSVal.get, hl]

theorem emitItem_not_destructurable {cW cH it : JSVal} (h : it.destructurable = false) :
    emitItem cW cH it = .error .typeError := by
  simp [emitItem, forEachBody, h]

theorem build_invalid_entry {its : List JSVal} (cw ch : JSVal)
    (h : ∃ e ∈ its, e.destructurable = false) :
    buildHTMLAndCSS (.arr its) cw ch = .error .typeError := by
  obtain ⟨e, he, hd⟩ := h
  cases hb : buildHTMLAndCSS (.arr its) cw ch with
  | error err => rfl
  | ok out =>
    obtain ⟨ps, hps, _⟩ := buildHTMLAndCSS_ok hb
    obtain ⟨i, hi, hget⟩ := List.mem_iff_getElem.mp he
    have hi' : its[i]? = some e := by rw [List.getElem?_eq_getElem hi, hget]
    obtain ⟨p, _, hp⟩ := emitAll_getElem hps hi'
    rw [emitItem_not_destructurable hd] at hp
    exact absurd hp (by simp)

theorem build_not_array {items : JSVal} (cw ch : JSVal) (h : ∀ its, items ≠ .arr its) :
    buildHTMLAndCSS items cw ch = .error .typeError := by
  cases items with
  | arr its => exact absurd rfl (h its)
  | _ => rfl

theorem contains_of_eq {s a p b : String} (h : s = a ++ p ++ b) : Contains s p :=
  ⟨a.data, b.data, by rw [h]; simp [String.data_append]⟩

theorem join_contains {l : List String} {i : Nat} {a : String} (h : l[i]? = some a) :
    ∃ before after, String.join l = before ++ a ++ after := by
  refine ⟨String.join (l.take i), String.join (l.drop (i + 1)), ?_⟩
  apply String.ext
  conv_lhs => rw [list_split h]
  simp [String.data_join, String.data_append]

/-- The markup names the asset path of every image item. -/
theorem html_names_asset {its : List JSVal} {cw ch : JSVal} {out : Output}
    (h : buildHTMLAndCSS (.arr its) cw ch = .ok out) {it : JSVal} (hit : it ∈ its)
    (h3 : (it.get "type").isStr "image" = true) :
    ∃ s, (it.get "id").toStr = .ok s ∧ Contains out.html ("assets/" ++ s ++ ".png") := by
  obtain ⟨ps, hps, rfl⟩ := buildHTMLAndCSS_ok h
  obtain ⟨i, hi, hget⟩ := List.mem_iff_getElem.mp hit
  have hi' : its[i]? = some it := by rw [List.getElem?_eq_getElem hi, hget]
  obtain ⟨p, hpi, hp⟩ := emitAll_getElem hps hi'
  obtain ⟨h1, h2⟩ := isStr_image h3
  obtain ⟨_, l, t, w, hh, c, _, _, _, _, hc, rfl⟩ := (emitItem_image h1 h2 h3 p).mp hp
  refine ⟨c, hc, ?_⟩
  have hnode : (ps.map fun p => p.htmlChildren)[i]? =
      some (imageNode (className c) (filename c)) := by
    rw [List.getElem?_map, hpi]; rfl
  obtain ⟨before, after, hj⟩ := join_contains hnode
  apply contains_of_eq
    (a := pageHead ++ before ++ ("<img class=\"abs-el " ++ className c ++ "\" src=\""))
    (b := "\" alt=\"\" />\n" ++ after ++ pageFoot)
  simp only [assemble, hj, imageNode, filename]
  apply String.ext
  simp only [String.data_append, List.append_assoc]

/-- C16. For a request whose `items` is an array of well-formed items, with primitive or
absent canvas dimensions (the elements of the data model and every item the editing surface
creates, lines and pencil strokes with their `points` included, are well-formed): for every
assignment of fetch outcomes and every completion order of the callbacks the emitter
returns and the handler answers with status 200, the headers
`Content-Type: application/zip` and `Content-Disposition: attachment;
filename=design-export.zip` and an archive; when every fetch fails the archive holds
`index.html` and `styles.css` and nothing else.  More generally the handler answers so
whenever the emitter returns: no fetch outcome turns the response into an error. -/
theorem C16_success_whatever_fetches (body : JSVal) (its : List JSVal)
    (outcome : Nat → FetchOutcome) (order : List Nat)
    (hb : body.destructurable = true) (hi : body.get "items" = .arr its) :
    ((∀ e ∈ its, wellFormed e = true) → (body.get "canvasWidth").isPrimitive = true →
      (body.get "canvasHeight").isPrimitive = true →
      ∃ out z,
        buildHTMLAndCSS (.arr its) (body.get "canvasWidth") (body.get "canvasHeight") =
          .ok out ∧
        (exportZip body outcome order).response =
          .sent 200 [("Content-Type", "application/zip"),
            ("Content-Disposition", "attachment; filename=design-export.zip")] z ∧
        ((∀ i ∈ order, (outcome i).bytes = none) →
          z.entries = [("index.html", .text out.html), ("styles.css", .text out.css)])) ∧
    ∀ out,
      buildHTMLAndCSS (.arr its) (body.get "canvasWidth") (body.get "canvasHeight") = .ok out →
      ∃ z, (exportZip body outcome order).response =
          .sent 200 [("Content-Type", "application/zip"),
            ("Content-Disposition", "attachment; filename=design-export.zip")] z ∧
        ((∀ i ∈ order, (outcome i).bytes = none) →
          z.entries = [("index.html", .text out.html), ("styles.css", .text out.css)]) := by
  have hsent : ∀ out,
      buildHTMLAndCSS (.arr its) (body.get "canvasWidth") (body.get "canvasHeight") = .ok out →
      ∃ z, (exportZip body outcome order).response =
          .sent 200 [("Content-Type", "application/zip"),
            ("Content-Disposition", "attachment; filename=design-export.zip")] z ∧
        ((∀ i ∈ order, (outcome i).bytes = none) →
          z.entries = [("index.html", .text out.html), ("styles.css", .text out.css)]) := by
    intro out ho
    refine ⟨_, by rw [exportZip_sent outcome order hb hi rfl ho]; rfl, ?_⟩
    intro hnone
    rw [writeAll_none _ _ _ _ hnone, base_entries]
  refine ⟨fun hw hW hH => ?_, hsent⟩
  obtain ⟨ps, _, h⟩ := buildHTMLAndCSS_total its _ _ hw hW hH
  obtain ⟨z, hz, hent⟩ := hsent _ h
  exact ⟨_, z, h, hz, hent⟩

/-- C16 on a scene with a rect, a pencil stroke, a line and three images whose fetches all
reject: the items are well-formed and the handler answers with status 200 and an archive of
two entries. -/
theorem C16_success_whatever_fetches_witness :
    wellFormed samplePencil = true ∧ wellFormed sampleLine = true ∧
    ∃ z, (exportZip (requestOf (.arr ([sampleRect, samplePencil, sampleLine] ++ threeImages)))
        (fun _ => .rejected) [0, 1, 2]).response =
        .sent 200 [("Content-Type", "application/zip"),
          ("Content-Disposition", "attachment; filename=design-export.zip")] z ∧
      z.entries.length = 2 := by
  have hC := C16_success_whatever_fetches
    (requestOf (.arr ([sampleRect, samplePencil, sampleLine] ++ threeImages)))
    ([sampleRect, samplePencil, sampleLine] ++ threeImages) (fun _ => .rejected) [0, 1, 2]
    rfl rfl
  obtain ⟨out, z, _, hz, hent⟩ := hC.1 (by decide) rfl rfl
  exact ⟨by decide, by decide, z, hz, by rw [hent (fun _ _ => rfl)]; rfl⟩

/-- C17. For a request body that is an object without an own `items` property, the handler
answers with status 400 and the body `{ error: "No 'items' array provided in request body." }`,
whatever the fetch outcomes would be; no fetch is issued and the response carries no
archive.  The answer is given before the emitter runs: the emitter called on the absent
`items` throws, which the handler would have reported with status 500. -/
theorem C17_missing_items (ps : List (String × JSVal)) (outcome : Nat → FetchOutcome)
    (order : List Nat) (hk : hasOwn ps "items" = false) :
    exportZip (.obj ps) outcome order =
      { response := .invalid 400 "No 'items' array provided in request body.", fetched := [] } ∧
    buildHTMLAndCSS ((JSVal.obj ps).get "items") ((JSVal.obj ps).get "canvasWidth")
      ((JSVal.obj ps).get "canvasHeight") = .error .typeError := by
  have hg := get_of_not_hasOwn hk
  refine ⟨exportZip_invalid outcome order rfl (by rw [hg]; rfl), ?_⟩
  rw [hg]
  rfl

/-- C17 on a body holding the canvas size only. -/
theorem C17_missing_items_witness :
    exportZip (.obj [("canvasWidth", numV 1100), ("canvasHeight", numV 700)]) secondFails
        [0, 1, 2] =
      { response := .invalid 400 "No 'items' array provided in request body.", fetched := [] } ∧
    buildHTMLAndCSS .undefined (numV 1100) (numV 700) = .error .typeError :=
  C17_missing_items [("canvasWidth", numV 1100), ("canvasHeight", numV 700)] secondFails
    [0, 1, 2] (by decide)

/-- C18, counterexample: with `items` the number 5, the plain object `{}` or the array
`[null]` the handler answers with status 500, not with a 400-class error. -/
theorem C18_counterexample :
    (exportZip (requestOf (numV 5)) secondFails [0, 1, 2]).response = .failed 500 .typeError ∧
    (exportZip (requestOf (.obj [])) secondFails [0, 1, 2]).response =
      .failed 500 .typeError ∧
    (exportZip (requestOf (.arr [.null])) secondFails [0, 1, 2]).response =
      .failed 500 .typeError := by
  refine ⟨by decide!, by decide!, by decide!⟩

/-- C18 (amended). For a request body that can be destructured: when `items` is absent or
falsy (`undefined`, `null`, `false`, `0`, `NaN`, the empty string) the handler answers with
status 400 and `No 'items' array provided in request body.`; when `items` is truthy but not
an array (a non-zero number, a non-empty string, `true`, a plain object), or an array with
an entry that is `null` or `undefined`, the emitter throws a TypeError and the handler
answers with status 500 and the message of that error.  In each of these cases no fetch is
issued and the response carries no archive. -/
theorem C18_invalid_items (body : JSVal) (outcome : Nat → FetchOutcome) (order : List Nat)
    (hb : body.destructurable = true) :
    ((body.get "items").toBoolean = false →
      exportZip body outcome order =
        { response := .invalid 400 "No 'items' array provided in request body."
          fetched := [] }) ∧
    ((body.get "items").toBoolean = true → (∀ its, body.get "items" ≠ .arr its) →
      exportZip body outcome order = { response := .failed 500 .typeError, fetched := [] }) ∧
    (∀ its, body.get "items" = .arr its → (∃ e ∈ its, e.destructurable = false) →
      exportZip body outcome order = { response := .failed 500 .typeError, fetched := [] }) := by
  refine ⟨fun ht => exportZip_invalid outcome order hb ht,
    fun ht hn => exportZip_failed outcome order hb ht (build_not_array _ _ hn), ?_⟩
  intro its hi hex
  refine exportZip_failed outcome order hb (by rw [hi]; rfl) ?_
  rw [hi]
  exact build_invalid_entry _ _ hex

/-- C18 on `items = 0` (status 400), `items = "abc"` (status 500) and `items = [null]`
(status 500). -/
theorem C18_invalid_items_witness :
    exportZip (requestOf (numV 0)) secondFails [0, 1, 2] =
      { response := .invalid 400 "No 'items' array provided in request body."
        fetched := [] } ∧
    exportZip (requestOf (.str "abc")) secondFails [0, 1, 2] =
      { response := .failed 500 .typeError, fetched := [] } ∧
    exportZip (requestOf (.arr [.null])) secondFails [0, 1, 2] =
      { response := .failed 500 .typeError, fetched := [] } :=
  ⟨(C18_invalid_items (requestOf (numV 0)) secondFails [0, 1, 2] rfl).1 (by decide!),
    (C18_invalid_items (requestOf (.str "abc")) secondFails [0, 1, 2] rfl).2.1 (by decide)
      (fun its h => by simp [requestOf, JSVal.get, List.lookup] at h),
    (C18_invalid_items (requestOf (.arr [.null])) secondFails [0, 1, 2] rfl).2.2 [.null] rfl
      ⟨.null, by simp, rfl⟩⟩

/-- C19. For a request whose `items` is an array: the emitter returns on well-formed items,
and whenever it returns `out`, then in every run, whatever the fetch outcomes and the order
in which the callbacks complete, the archive sent holds `out.html` as `index.html` and
`out.css` as `styles.css`, so that any two runs of the request hold the same two texts; and
for every image item the markup contains `assets/<id>.png`, whether or not its fetch
failed. -/
theorem C19_texts_independent (body : JSVal) (its : List JSVal)
    (hb : body.destructurable = true) (hi : body.get "items" = .arr its) :
    ((∀ e ∈ its, wellFormed e = true) → (body.get "canvasWidth").isPrimitive = true →
      (body.get "canvasHeight").isPrimitive = true →
      ∃ out, buildHTMLAndCSS (.arr its) (body.get "canvasWidth") (body.get "canvasHeight") =
        .ok out) ∧
    ∀ out,
      buildHTMLAndCSS (.arr its) (body.get "canvasWidth") (body.get "canvasHeight") = .ok out →
      (∀ (outcome : Nat → FetchOutcome) (order : List Nat),
        ∃ z, (exportZip body outcome order).response = .sent 200 zipHeaders z ∧
          z.read "index.html" = some (.text out.html) ∧
          z.read "styles.css" = some (.text out.css)) ∧
      (∀ it ∈ its, (it.get "type").isStr "image" = true →
        ∃ s, (it.get "id").toStr = .ok s ∧ Contains out.html ("assets/" ++ s ++ ".png")) := by
  refine ⟨fun hw hW hH => ?_, ?_⟩
  · obtain ⟨ps, _, h⟩ := buildHTMLAndCSS_total its _ _ hw hW hH
    exact ⟨_, h⟩
  intro out ho
  refine ⟨fun outcome order => ?_, fun it hit h3 => html_names_asset ho hit h3⟩
  exact ⟨_, by rw [exportZip_sent outcome order hb hi rfl ho],
    (read_texts out outcome order).1, (read_texts out outcome order).2⟩

/-- C19 on three images: the run in which the second fetch rejects and the run in which all
fetches reject hold the same `index.html` and the same `styles.css`, and the markup names
`assets/b.png`. -/
theorem C19_texts_independent_witness :
    ∃ (out : Output) (z z' : Archive),
      (exportZip (requestOf (.arr threeImages)) secondFails [2, 0, 1]).response =
        .sent 200 zipHeaders z ∧
      (exportZip (requestOf (.arr threeImages)) (fun _ => .rejected) [0, 1, 2]).response =
        .sent 200 zipHeaders z' ∧
      z.read "index.html" = some (.text out.html) ∧
      z'.read "index.html" = some (.text out.html) ∧
      z.read "styles.css" = some (.text out.css) ∧
      z'.read "styles.css" = some (.text out.css) ∧
      Contains out.html "assets/b.png" := by
  have hC := C19_texts_independent (requestOf (.arr threeImages)) threeImages rfl rfl
  obtain ⟨out, hout⟩ := hC.1 (by decide) rfl rfl
  obtain ⟨hruns, hnames⟩ := hC.2 out hout
  obtain ⟨z, hz, h1, h2⟩ := hruns secondFails [2, 0, 1]
  obtain ⟨z', hz', h1', h2'⟩ := hruns (fun _ => .rejected) [0, 1, 2]
  obtain ⟨s, hs, hc⟩ := hnames
    (.obj [("id", .str "b"), ("type", .str "image"), ("x", numV 10), ("y", numV 10),
      ("src", .str "https://unreachable.invalid/b.png")]) (by simp [threeImages]) (by decide)
  obtain rfl : "b" = s := Except.ok.inj ((by decide! : _ = Except.ok "b").symm.trans hs)
  exact ⟨out, z, z', hz, hz', h1, h1', h2, h2', hc⟩

/-- C20, counterexample: every fetch answers with status 404 and a body of nine bytes; the
handler writes that body as `assets/a.png`. -/
theorem C20_counterexample :
    ∃ z, (exportZip (requestOf (.arr threeImages)) notFound [0, 1, 2]).response =
        .sent 200 zipHeaders z ∧
      z.read "assets/a.png" = some (.binary [78, 111, 116, 32, 70, 111, 117, 110, 100]) := by
  obtain ⟨ps, _, hout⟩ := buildHTMLAndCSS_total threeImages (numV 1100) (numV 700)
    (by decide) rfl rfl
  have hids := asset_ids_nodup hout (by decide!)
  have hperm : [0, 1, 2].Perm (List.range (assemble ps).assets.length) := by
    rw [build_assets hout]; decide
  have hrun := exportZip_sent notFound [0, 1, 2]
    (rfl : (requestOf (.arr threeImages)).destructurable = true)
    (rfl : (requestOf (.arr threeImages)).get "items" = .arr threeImages) rfl hout
  refine ⟨_, by rw [hrun], ?_⟩
  have ha : (assemble ps).assets[0]? =
      some ⟨.str "a", .str "https://example.com/a.png"⟩ := by
    rw [build_assets hout]; decide
  have hs : (JSVal.str "a").toStr = .ok "a" := toStr_str "a"
  exact read_asset hids notFound hperm ha hs

/-- C20 (amended). The callback of an asset whose fetch rejects (a thrown network error, an
invalid reference), or whose body cannot be read, leaves the archive as it is.  For a
request whose items carry pairwise distinct ids: the emitter returns on well-formed items,
and whenever it returns and every callback has run, the archive sent has no entry
`assets/<id>.png` for an image whose fetch rejected or whose body could not be read, and
for an image whose fetch was answered, with whatever HTTP status (404 included), it holds
the bytes of the body of that answer as `assets/<id>.png`. -/
theorem C20_rejected_omitted (body : JSVal) (its : List JSVal) (outcome : Nat → FetchOutcome)
    (hb : body.destructurable = true) (hi : body.get "items" = .arr its)
    (hu : (its.map fun it => (it.get "id").toStr).Nodup) :
    (∀ z a, assetCallback z a .rejected = z ∧ ∀ st, assetCallback z a (.response st none) = z) ∧
    ((∀ e ∈ its, wellFormed e = true) → (body.get "canvasWidth").isPrimitive = true →
      (body.get "canvasHeight").isPrimitive = true →
      ∃ out, buildHTMLAndCSS (.arr its) (body.get "canvasWidth") (body.get "canvasHeight") =
        .ok out) ∧
    ∀ out order,
      buildHTMLAndCSS (.arr its) (body.get "canvasWidth") (body.get "canvasHeight") = .ok out →
      order.Perm (List.range out.assets.length) →
      ∃ z, (exportZip body outcome order).response = .sent 200 zipHeaders z ∧
        ∀ i a, out.assets[i]? = some a → ∃ s, a.id.toStr = .ok s ∧
          (outcome i = .rejected → z.read ("assets/" ++ (s ++ ".png")) = none) ∧
          (∀ st, outcome i = .response st none →
            z.read ("assets/" ++ (s ++ ".png")) = none) ∧
          (∀ st buf, outcome i = .response st (some buf) →
            z.read ("assets/" ++ (s ++ ".png")) = some (.binary buf)) := by
  refine ⟨fun z a => ⟨rfl, fun st => rfl⟩, fun hw hW hH => ?_, ?_⟩
  · obtain ⟨ps, _, h⟩ := buildHTMLAndCSS_total its _ _ hw hW hH
    exact ⟨_, h⟩
  intro out order ho hp
  have hids := asset_ids_nodup ho hu
  refine ⟨_, by rw [exportZip_sent outcome order hb hi rfl ho], ?_⟩
  intro i a ha
  obtain ⟨hlt, hget⟩ := List.getElem?_eq_some_iff.mp ha
  obtain ⟨s, hs⟩ := build_asset_id ho (hget ▸ List.getElem_mem hlt)
  have hr := read_asset hids outcome hp ha hs
  refine ⟨s, hs, fun h => ?_, fun st h => ?_, fun st buf h => ?_⟩
  · rw [hr, h]; rfl
  · rw [hr, h]; rfl
  · rw [hr, h]; rfl

/-- C20 on three images of which the second fetch rejects: the archive has no entry
`assets/b.png`, and holds the bytes fetched for the first image as `assets/a.png`. -/
theorem C20_rejected_omitted_witness :
    ∃ z, (exportZip (requestOf (.arr threeImages)) secondFails [2, 0, 1]).response =
        .sent 200 zipHeaders z ∧
      z.read "assets/b.png" = none ∧
      z.read "assets/a.png" = some (.binary [137, 80, 78, 71]) := by
  have hC := C20_rejected_omitted (requestOf (.arr threeImages)) threeImages secondFails rfl rfl
    (by decide!)
  obtain ⟨out, hout⟩ := hC.2.1 (by decide) rfl rfl
  have hlen : out.assets = threeImages.filterMap assetRequest := build_assets hout
  have hperm : [2, 0, 1].Perm (List.range out.assets.length) := by
    rw [hlen]; decide
  obtain ⟨z, hz, h⟩ := hC.2.2 out [2, 0, 1] hout hperm
  rw [hlen] at h
  obtain ⟨s0, hs0, _, _, hr0⟩ := h 0 _ rfl
  obtain ⟨s1, hs1, hr1, _, _⟩ := h 1 _ rfl
  obtain rfl : "a" = s0 := Except.ok.inj ((by decide! : _ = Except.ok "a").symm.trans hs0)
  obtain rfl : "b" = s1 := Except.ok.inj ((by decide! : _ = Except.ok "b").symm.trans hs1)
  exact ⟨z, hz, hr1 rfl, hr0 200 _ rfl⟩

/-! ## The empty document, omitted types, concatenation -/

theorem assemble_nil : assemble [] =
    { html := pageHead ++ pageFoot, css := "\n".intercalate baseRules, assets := [] } := by
  simp only [assemble, List.map_nil, List.flatten_nil, List.append_nil, join_nil]
  congr 1

theorem buildHTMLAndCSS_nil (cw ch : JSVal) :
    buildHTMLAndCSS (.arr []) cw ch =
      .ok { html := pageHead ++ pageFoot, css := "\n".intercalate baseRules, assets := [] } := by
  rw [buildHTMLAndCSS_arr]
  simp only [emitAll, Except.map, assemble_nil]

theorem writeAll_nil (outcome : Nat → FetchOutcome) (order : List Nat) (z : Archive) :
    writeAll [] outcome order z = z := by
  induction order with
  | nil => rfl
  | cons i rest ih =>
    unfold writeAll at ih ⊢
    simp only [List.foldl_cons, assetWrite, List.getElem?_nil]
    exact ih

/-- C21. For an empty `items` array and any canvas size, `buildHTMLAndCSS` returns the page
template with nothing between the opening and the closing tag of the `#page` container, the
five base rules joined by line feeds and no other rule, and an empty list of asset
requests.  The handler answers such a request with status 200 and an archive whose entries
are `index.html` and `styles.css` with these two texts, none under `assets/`, and it issues
no fetch, whatever the environment. -/
theorem C21_empty_items (cw ch body : JSVal) (outcome : Nat → FetchOutcome) (order : List Nat)
    (hb : body.destructurable = true) (hi : body.get "items" = .arr []) :
    buildHTMLAndCSS (.arr []) cw ch =
      .ok { html := "<!doctype html>\n<html>\n<head>\n<meta charset=\"utf-8\" />\n" ++
              "<meta name=\"viewport\" content=\"width=device-width,initial-scale=1\" />\n" ++
              "<link rel=\"stylesheet\" href=\"styles.css\" />\n" ++
              "<title>Exported Design</title>\n</head>\n<body>\n  <div id=\"page\">\n" ++
              "\n  </div>\n</body>\n</html>"
            css := "\n".intercalate baseRules
            assets := [] } ∧
    baseRules.length = 5 ∧
    ∃ z, exportZip body outcome order = { response := .sent 200 zipHeaders z, fetched := [] } ∧
      z.entries = [("index.html", .text (pageHead ++ pageFoot)),
        ("styles.css", .text ("\n".intercalate baseRules))] ∧
      z.assetEntries = [] := by
  refine ⟨?_, rfl, ?_⟩
  · rw [buildHTMLAndCSS_nil]
    congr 2
  · have hrun := exportZip_sent outcome order hb hi rfl (buildHTMLAndCSS_nil _ _)
    refine ⟨writeAll [] outcome order (baseArchive
      { html := pageHead ++ pageFoot, css := "\n".intercalate baseRules, assets := [] }),
      hrun, ?_, ?_⟩
    · rw [writeAll_nil, base_entries]
    · rw [writeAll_nil]
      simp only [Archive.assetEntries, base_entries]
      have h1 : "assets/".data.isPrefixOf "index.html".data = false := by decide
      have h2 : "assets/".data.isPrefixOf "styles.css".data = false := by decide
      simp only [List.filter_cons, h1, h2, Bool.false_eq_true, if_false, List.filter_nil]

/-- C21 on the request `{ items: [], canvasWidth: 1100, canvasHeight: 700 }`. -/
theorem C21_empty_items_witness :
    ∃ z, exportZip (requestOf (.arr [])) secondFails [0, 1, 2] =
        { response := .sent 200 zipHeaders z, fetched := [] } ∧
      z.entries = [("index.html", .text (pageHead ++ pageFoot)),
        ("styles.css", .text ("\n".intercalate baseRules))] ∧
      z.assetEntries = [] :=
  (C21_empty_items (numV 1100) (numV 700) (requestOf (.arr [])) secondFails [0, 1, 2]
    rfl rfl).2.2

theorem assemble_collect (ps : List EmitState) :
    assemble ps =
      { html := pageHead ++ (collect ps).htmlChildren ++ pageFoot
        css := "\n".intercalate (baseRules ++ (collect ps).cssRules)
        assets := (collect ps).assets } := rfl

theorem collect_cons (p : EmitState) (ps : List EmitState) :
    collect (p :: ps) = p.append (collect ps) := by
  simp only [collect, List.map_cons, List.flatten_cons, join_cons, EmitState.append]

theorem append_empty_left (p : EmitState) : EmitState.empty.append p = p := by
  simp only [EmitState.append, EmitState.empty, empty_append, List.nil_append]

theorem collect_append (a b : List EmitState) :
    collect (a ++ b) = (collect a).append (collect b) := by
  induction a with
  | nil =>
    have h : collect [] = EmitState.empty := rfl
    rw [List.nil_append, h, append_empty_left]
  | cons p ps ih =>
    rw [List.cons_append, collect_cons, collect_cons, ih]
    simp only [EmitState.append, List.append_assoc, EmitState.mk.injEq, and_true]
    apply String.ext
    simp only [String.data_append, List.append_assoc]

theorem emitAll_cons (cW cH it : JSVal) (rest : List JSVal) :
    emitAll cW cH (it :: rest) =
      (emitItem cW cH it).bind fun p => (emitAll cW cH rest).map fun ps => p :: ps := by
  simp only [emitAll]
  cases emitItem cW cH it with
  | error e => rfl
  | ok p =>
    cases emitAll cW cH rest with
    | error e => rfl
    | ok ps => rfl

theorem emitAll_append (cW cH : JSVal) (a b : List JSVal) :
    emitAll cW cH (a ++ b) =
      (emitAll cW cH a).bind fun pa => (emitAll cW cH b).map fun pb => pa ++ pb := by
  induction a with
  | nil =>
    simp only [List.nil_append, emitAll, Except.bind]
    cases emitAll cW cH b with
    | error e => rfl
    | ok pb => rfl
  | cons it rest ih =>
    rw [List.cons_append, emitAll_cons, emitAll_cons, ih]
    cases emitItem cW cH it with
    | error e => rfl
    | ok p =>
      cases emitAll cW cH rest with
      | error e => rfl
      | ok ps =>
        cases emitAll cW cH b with
        | error e => rfl
        | ok pb => rfl

/-- An item of another type than rect, text and image that has a readable position emits
nothing and does not throw. -/
theorem emitItem_omitted {cW cH it : JSVal} (he : exported it = false)
    (hp : positioned it = true) (hW : cW.isPrimitive = true) (hH : cH.isPrimitive = true) :
    emitItem cW cH it = .ok EmitState.empty := by
  simp only [positioned, Bool.and_eq_true] at hp
  obtain ⟨⟨hd, hx⟩, hy⟩ := hp
  obtain ⟨l, hl⟩ := percent_of_isPrimitive hx hW
  obtain ⟨t, ht⟩ := percent_of_isPrimitive hy hH
  exact (emitItem_other he _).mpr ⟨hd, ⟨l, t, hl, ht⟩, rfl⟩

theorem emitAll_filter_exported {cW cH : JSVal} (hW : cW.isPrimitive = true)
    (hH : cH.isPrimitive = true) (its : List JSVal)
    (ho : ∀ e ∈ its, exported e = false → positioned e = true) :
    (emitAll cW cH its).map collect = (emitAll cW cH (its.filter exported)).map collect := by
  induction its with
  | nil => rfl
  | cons it rest ih =>
    have ih' := ih (fun e he => ho e (by simp [he]))
    by_cases he : exported it = true
    · rw [List.filter_cons_of_pos he, emitAll_cons, emitAll_cons]
      cases emitItem cW cH it with
      | error e => rfl
      | ok p =>
        cases h1 : emitAll cW cH rest with
        | error e =>
          cases h2 : emitAll cW cH (rest.filter exported) with
          | error e' => rfl
          | ok qs => rw [h1, h2] at ih'; simp [Except.map] at ih'
        | ok ps =>
          cases h2 : emitAll cW cH (rest.filter exported) with
          | error e' => rw [h1, h2] at ih'; simp [Except.map] at ih'
          | ok qs =>
            rw [h1, h2] at ih'
            simp only [Except.map, Except.ok.injEq] at ih'
            simp only [Except.bind, Except.map, collect_cons, ih']
    · have he' : exported it = false := by simpa using he
      rw [List.filter_cons_of_neg he, emitAll_cons,
        emitItem_omitted he' (ho it (by simp) he') hW hH, ← ih']
      cases emitAll cW cH rest with
      | error e => rfl
      | ok ps =>
        simp only [Except.bind, Except.map, collect_cons, append_empty_left]

theorem buildHTMLAndCSS_collect (its : List JSVal) (cw ch : JSVal) :
    buildHTMLAndCSS (.arr its) cw ch =
      ((emitAll (cw.or (.num (JSNum.ofNat 1100))) (ch.or (.num (JSNum.ofNat 700))) its).map
        collect).map fun c =>
          { html := pageHead ++ c.htmlChildren ++ pageFoot
            css := "\n".intercalate (baseRules ++ c.cssRules)
            assets := c.assets } := by
  rw [buildHTMLAndCSS_arr]
  cases emitAll (cw.or (.num (JSNum.ofNat 1100))) (ch.or (.num (JSNum.ofNat 700))) its with
  | error e => rfl
  | ok ps => rfl

/-- C22. For primitive (or absent) canvas dimensions and a list of items in which every item
of a type other than `rect`, `text` and `image` (a missing `type` included) can be
destructured and has primitive or absent `x` and `y`: `buildHTMLAndCSS` gives the same
outcome as on the list with those items removed, the same markup, stylesheet and asset
requests or a throw in both cases; each such item emits no node, no rule and no asset
request and does not throw. -/
theorem C22_other_types_omitted (its : List JSVal) (cw ch : JSVal)
    (hW : cw.isPrimitive = true) (hH : ch.isPrimitive = true)
    (ho : ∀ e ∈ its, exported e = false → positioned e = true) :
    buildHTMLAndCSS (.arr its) cw ch = buildHTMLAndCSS (.arr (its.filter exported)) cw ch ∧
    ∀ e ∈ its, exported e = false →
      emitItem (cw.or (.num (JSNum.ofNat 1100))) (ch.or (.num (JSNum.ofNat 700))) e =
        .ok { htmlChildren := "", cssRules := [], assets := [] } := by
  have hW' := isPrimitive_or hW (d := .num (JSNum.ofNat 1100)) rfl
  have hH' := isPrimitive_or hH (d := .num (JSNum.ofNat 700)) rfl
  refine ⟨?_, fun e he hx => emitItem_omitted hx (ho e he hx) hW' hH'⟩
  rw [buildHTMLAndCSS_collect, buildHTMLAndCSS_collect, emitAll_filter_exported hW' hH' its ho]

/-- C22 on a rect between an ellipse, a pencil stroke and a line: the result is the one of
the rect alone. -/
theorem C22_other_types_omitted_witness :
    buildHTMLAndCSS (.arr [sampleEllipse, sampleRect, samplePencil, sampleLine]) (numV 1100)
        (numV 700) =
      buildHTMLAndCSS (.arr [sampleRect]) (numV 1100) (numV 700) ∧
    emitItem (numV 1100) (numV 700) samplePencil =
      .ok { htmlChildren := "", cssRules := [], assets := [] } := by
  have hC := C22_other_types_omitted [sampleEllipse, sampleRect, samplePencil, sampleLine]
    (numV 1100) (numV 700) rfl rfl (by decide)
  exact ⟨hC.1, hC.2 samplePencil (by simp) (by decide)⟩

theorem buildHTMLAndCSS_pageOf (its : List JSVal) (cw ch : JSVal) :
    buildHTMLAndCSS (.arr its) cw ch =
      (emitAll (cw.or (.num (JSNum.ofNat 1100))) (ch.or (.num (JSNum.ofNat 700))) its).map
        fun ps => pageOf (collect ps) := by
  rw [buildHTMLAndCSS_arr]
  rfl

/-- C26. For item lists `a` and `b` and fixed canvas dimensions: the emitter returns on
`a ++ b` exactly when it returns on `a` and on `b`; and when the items of `a` emit the pieces
`pa` and those of `b` the pieces `pb`, each piece being what the callback emits for its item
alone, the result for `a` is the page of the nodes, rules and asset requests of `pa`, the
result for `b` that of `pb`, and the result for `a ++ b` has the nodes of `pa` followed by
those of `pb`, the base rules followed by the rules of `pa` and then those of `pb`, and the
asset requests of `pa` followed by those of `pb`. -/
theorem C26_concatenation (a b : List JSVal) (cw ch : JSVal) :
    ((∃ r, buildHTMLAndCSS (.arr (a ++ b)) cw ch = .ok r) ↔
      (∃ ra, buildHTMLAndCSS (.arr a) cw ch = .ok ra) ∧
        ∃ rb, buildHTMLAndCSS (.arr b) cw ch = .ok rb) ∧
    ∀ ra rb, buildHTMLAndCSS (.arr a) cw ch = .ok ra → buildHTMLAndCSS (.arr b) cw ch = .ok rb →
      ∃ pa pb,
        List.Forall₂ (fun it p => emitItem (cw.or (.num (JSNum.ofNat 1100)))
          (ch.or (.num (JSNum.ofNat 700))) it = .ok p) (a ++ b) (pa ++ pb) ∧
        pa.length = a.length ∧
        ra = pageOf (collect pa) ∧ rb = pageOf (collect pb) ∧
        buildHTMLAndCSS (.arr (a ++ b)) cw ch =
          .ok { html := pageHead ++ ((collect pa).htmlChildren ++ (collect pb).htmlChildren) ++
                  pageFoot
                css := "\n".intercalate
                  (baseRules ++ ((collect pa).cssRules ++ (collect pb).cssRules))
                assets := ra.assets ++ rb.assets } := by
  simp only [buildHTMLAndCSS_pageOf, emitAll_append]
  constructor
  · cases emitAll (cw.or (.num (JSNum.ofNat 1100))) (ch.or (.num (JSNum.ofNat 700))) a with
    | error e => simp [Except.bind, Except.map]
    | ok pa =>
      cases emitAll (cw.or (.num (JSNum.ofNat 1100))) (ch.or (.num (JSNum.ofNat 700))) b with
      | error e => simp [Except.bind, Except.map]
      | ok pb => simp [Except.bind, Except.map]
  · intro ra rb ha hb
    cases hpa : emitAll (cw.or (.num (JSNum.ofNat 1100))) (ch.or (.num (JSNum.ofNat 700))) a with
    | error e => rw [hpa] at ha; simp [Except.map] at ha
    | ok pa =>
      cases hpb : emitAll (cw.or (.num (JSNum.ofNat 1100)))
          (ch.or (.num (JSNum.ofNat 700))) b with
      | error e => rw [hpb] at hb; simp [Except.map] at hb
      | ok pb =>
        rw [hpa] at ha
        rw [hpb] at hb
        simp only [Except.map, Except.ok.injEq] at ha hb
        subst ha hb
        refine ⟨pa, pb, ?_, emitAll_length hpa, rfl, rfl, ?_⟩
        · exact emitAll_forall₂ (by rw [emitAll_append, hpa, hpb]; rfl)
        · simp only [Except.bind, Except.map, collect_append, pageOf, EmitState.append]

/-- C26 on the sample rect followed by the sample text and the sample image. -/
theorem C26_concatenation_witness :
    ∃ ra rb pa pb,
      buildHTMLAndCSS (.arr [sampleRect]) (numV 1100) (numV 700) = .ok ra ∧
      buildHTMLAndCSS (.arr [sampleText, sampleImage]) (numV 1100) (numV 700) = .ok rb ∧
      pa.length = 1 ∧ ra = pageOf (collect pa) ∧ rb = pageOf (collect pb) ∧
      buildHTMLAndCSS (.arr [sampleRect, sampleText, sampleImage]) (numV 1100) (numV 700) =
        .ok { html := pageHead ++ ((collect pa).htmlChildren ++ (collect pb).htmlChildren) ++
                pageFoot
              css := "\n".intercalate
                (baseRules ++ ((collect pa).cssRules ++ (collect pb).cssRules))
              assets := ra.assets ++ rb.assets } := by
  have hC := C26_concatenation [sampleRect] [sampleText, sampleImage] (numV 1100) (numV 700)
  obtain ⟨qa, _, ha⟩ := buildHTMLAndCSS_total [sampleRect] (numV 1100) (numV 700)
    (by decide) rfl rfl
  obtain ⟨qb, _, hb⟩ := buildHTMLAndCSS_total [sampleText, sampleImage] (numV 1100) (numV 700)
    (by decide) rfl rfl
  obtain ⟨pa, pb, _, hl, h1, h2, h3⟩ := hC.2 _ _ ha hb
  exact ⟨_, _, pa, pb, ha, hb, hl, h1, h2, h3⟩

theorem flatMap_singleton_of_ne (l : List Char) (h1 : '<' ∉ l) (h2 : '>' ∉ l) :
    l.flatMap escapeChar = l := by
  induction l with
  | nil => rfl
  | cons c rest ih =>
    simp only [List.mem_cons, not_or] at h1 h2
    have e1 : c ≠ '<' := fun e => h1.1 e.symm
    have e2 : c ≠ '>' := fun e => h2.1 e.symm
    simp only [List.flatMap_cons, escapeChar, e1, e2, if_false, ih h1.2 h2.2,
      List.singleton_append]

/-- C28. The two-pass escaping of the emitter, `replace(/</g, "&lt;")` followed by
`replace(/>/g, "&gt;")`, gives on every text the result of the single-pass substitution
that writes `&lt;` for `<`, `&gt;` for `>` and every other character, `&` and `"` among
them, as it is.  The second pass leaves the text `&lt;` written by the first pass as it
is, and on a text without `<` and `>` the escaping returns the text unchanged.  This
escaping is what the emitter applies to the string of `text` in the node of a text
element. -/
theorem C28_escape_single_pass :
    (∀ s, escape s = escapeSinglePass s) ∧
    (∀ s, escape s = replaceAll '>' "&gt;" (replaceAll '<' "&lt;" s)) ∧
    replaceAll '>' "&gt;" "&lt;" = "&lt;" ∧
    escapeChar '<' = "&lt;".data ∧ escapeChar '>' = "&gt;".data ∧
    (∀ c, c ≠ '<' → c ≠ '>' → escapeChar c = [c]) ∧
    escapeChar '&' = ['&'] ∧ escapeChar '"' = ['"'] ∧
    (∀ s : String, '<' ∉ s.data → '>' ∉ s.data → escape s = s) ∧
    (∀ cW cH it p, (it.get "type").isStr "text" = true → emitItem cW cH it = .ok p →
      ∃ cls t, (it.get "id").toStr = .ok cls ∧
        ((it.get "text").withDefault (.str "")).toStr = .ok t ∧
        p.htmlChildren = textNode (className cls) (escapeSinglePass t)) := by
  have hesc : ∀ s, escape s = escapeSinglePass s := fun s =>
    String.ext (by rw [escape_data]; rfl)
  refine ⟨hesc, fun s => rfl, by decide, by decide, by decide, ?_, by decide, by decide, ?_, ?_⟩
  · intro c h1 h2
    simp only [escapeChar, h1, h2, if_false]
  · intro s h1 h2
    apply String.ext
    rw [escape_data, flatMap_singleton_of_ne _ h1 h2]
  · intro cW cH it p ht hp
    obtain ⟨_, l, t, v, c, tx, f, _, _, _, hc, htx, _, rfl⟩ :=
      (emitItem_text (isStr_text ht) ht p).mp hp
    exact ⟨c, tx, hc, htx, by rw [← hesc]⟩

/-- C28 on a text with `<`, `>`, `&` and `"`, and on a text without `<` and `>`. -/
theorem C28_escape_single_pass_witness :
    escape "a<b>&\"c" = "a&lt;b&gt;&\"c" ∧ escape "R&D \"ok\"" = "R&D \"ok\"" :=
  ⟨(C28_escape_single_pass.1 "a<b>&\"c").trans (by decide),
    C28_escape_single_pass.2.2.2.2.2.2.2.2.1 "R&D \"ok\"" (by decide) (by decide)⟩

/-! ## The `rotation` property -/

theorem emitItem_sameExceptRotation (cW cH : JSVal) {a b : JSVal}
    (h : SameExceptRotation a b) : emitItem cW cH a = emitItem cW cH b := by
  obtain ⟨hd, hg⟩ := h
  have hid := hg "id" (by decide)
  have hty := hg "type" (by decide)
  have hx := hg "x" (by decide)
  have hy := hg "y" (by decide)
  have hwd := hg "width" (by decide)
  have hht := hg "height" (by decide)
  have hfi := hg "fill" (by decide)
  have hro := hg "rotate" (by decide)
  have hte := hg "text" (by decide)
  have hfs := hg "fontSize" (by decide)
  have hsr := hg "src" (by decide)
  simp only [emitItem, forEachBody, hd, hid, hty, hx, hy, hwd, hht, hfi, hro, hte, hfs, hsr]

theorem emitAll_sameExceptRotation (cW cH : JSVal) {its its' : List JSVal}
    (h : List.Forall₂ SameExceptRotation its its') : emitAll cW cH its = emitAll cW cH its' := by
  induction h with
  | nil => rfl
  | @cons a b l l' hab _ ih =>
    rw [emitAll_cons, emitAll_cons, emitItem_sameExceptRotation cW cH hab, ih]

theorem rectRule_rotate_zero (cls left top width height fill : String) :
    rectRule cls left top width height fill "0" =
      "." ++ cls ++ "\x7bleft:" ++ left ++ "%;top:" ++ top ++ "%;width:" ++ width ++
        "%;height:" ++ height ++ "%;background:" ++ fill ++ ";transform: rotate(0deg);\x7d" := by
  apply String.ext
  simp only [rectRule, String.data_append, List.append_assoc]
  rfl

theorem lookup_except (pre post : List (String × JSVal)) (key : String) (v v' : JSVal)
    (k : String) (hk : k ≠ key) :
    (pre ++ (key, v) :: post).lookup k = (pre ++ (key, v') :: post).lookup k := by
  induction pre with
  | nil =>
    have : (k == key) = false := by simpa using hk
    simp [List.lookup, this]
  | cons p rest ih =>
    obtain ⟨a, b⟩ := p
    simp only [List.cons_append, List.lookup]
    cases k == a
    · exact ih
    · rfl

/-- C30. The emitter reads the rotation of a rect from its `rotate` property only: the rule
of a rect without `rotate` ends with `transform: rotate(0deg);}` whatever its `rotation`;
two items that differ only in `rotation` emit the same piece or both throw, and two lists
of such items give the same result.  The rect that `CanvasWithToolbar` creates, and the same
rect after the patch of a transform end, have a `rotation` and no `rotate`; the rect that
`CanvasWithPanels` creates has neither. -/
theorem C30_rotation_not_read :
    (∀ cW cH it p, (it.get "type").isStr "rect" = true → it.get "rotate" = .undefined →
      emitItem cW cH it = .ok p →
      ∃ cls left top width height fill,
        p.cssRules = ["." ++ cls ++ "\x7bleft:" ++ left ++ "%;top:" ++ top ++ "%;width:" ++
          width ++ "%;height:" ++ height ++ "%;background:" ++ fill ++
          ";transform: rotate(0deg);\x7d"]) ∧
    (∀ cW cH a b, SameExceptRotation a b → emitItem cW cH a = emitItem cW cH b) ∧
    (∀ its its' cw ch, List.Forall₂ SameExceptRotation its its' →
      buildHTMLAndCSS (.arr its) cw ch = buildHTMLAndCSS (.arr its') cw ch) ∧
    (∀ id x y, (CanvasWithToolbar.addRect id x y).get "rotate" = .undefined ∧
      (CanvasWithToolbar.addRect id x y).get "rotation" = numV 0 ∧
      (CanvasWithToolbar.addRect id x y).get "type" = .str "rect") ∧
    (∀ id x y nx ny r w h,
      (updateItem (CanvasWithToolbar.addRect id x y)
        (CanvasWithToolbar.transformEndPatch nx ny r w h)).get "rotate" = .undefined ∧
      (updateItem (CanvasWithToolbar.addRect id x y)
        (CanvasWithToolbar.transformEndPatch nx ny r w h)).get "rotation" = r ∧
      SameExceptRotation
        (updateItem (CanvasWithToolbar.addRect id x y)
          (CanvasWithToolbar.transformEndPatch nx ny r w h))
        (updateItem (CanvasWithToolbar.addRect id x y)
          (CanvasWithToolbar.transformEndPatch nx ny (numV 0) w h))) ∧
    (∀ id x y, (CanvasWithPanels.addRect id x y).get "rotate" = .undefined ∧
      (CanvasWithPanels.addRect id x y).get "rotation" = .undefined) := by
  refine ⟨?_, fun cW cH a b h => emitItem_sameExceptRotation cW cH h, ?_, ?_, ?_, ?_⟩
  · intro cW cH it p ht hr hp
    obtain ⟨_, l, t, w, h, c, f, r, _, _, _, _, _, _, hrot, rfl⟩ := (emitItem_rect ht p).mp hp
    rw [hr] at hrot
    simp only [JSVal.withDefault, JSVal.toStr, toString_zero, Except.ok.injEq] at hrot
    subst hrot
    exact ⟨className c, l, t, w, h, f, by rw [rectRule_rotate_zero]⟩
  · intro its its' cw ch h
    rw [buildHTMLAndCSS_arr, buildHTMLAndCSS_arr, emitAll_sameExceptRotation _ _ h]
  · intro id x y
    exact ⟨rfl, rfl, rfl⟩
  · intro id x y nx ny r w h
    refine ⟨rfl, rfl, rfl, ?_⟩
    intro k hk
    exact congrArg (fun o : Option JSVal => o.getD .undefined)
      (lookup_except [("id", id), ("type", .str "rect"), ("x", nx), ("y", ny), ("width", w),
        ("height", h), ("fill", .str "#F97316"), ("stroke", .str "#0f172a"),
        ("strokeWidth", numV 2)] [] "rotation" r (numV 0) k hk)
  · intro id x y
    exact ⟨rfl, rfl⟩

/-- C30 on the rect that `CanvasWithToolbar` creates, turned by 45 degrees at a transform
end: it is exported with `transform: rotate(0deg);}`, like the same rect not turned. -/
theorem C30_rotation_not_read_witness :
    ∃ p cls left top width height fill,
      emitItem (numV 1100) (numV 700)
        (updateItem (CanvasWithToolbar.addRect (.str "rect-9") (numV 200) (numV 200))
          (CanvasWithToolbar.transformEndPatch (numV 200) (numV 200) (numV 45) (numV 200)
            (numV 120))) = .ok p ∧
      emitItem (numV 1100) (numV 700)
        (updateItem (CanvasWithToolbar.addRect (.str "rect-9") (numV 200) (numV 200))
          (CanvasWithToolbar.transformEndPatch (numV 200) (numV 200) (numV 0) (numV 200)
            (numV 120))) = .ok p ∧
      p.cssRules = ["." ++ cls ++ "\x7bleft:" ++ left ++ "%;top:" ++ top ++ "%;width:" ++
        width ++ "%;height:" ++ height ++ "%;background:" ++ fill ++
        ";transform: rotate(0deg);\x7d"] := by
  have hwf : wellFormed
      (updateItem (CanvasWithToolbar.addRect (.str "rect-9") (numV 200) (numV 200))
        (CanvasWithToolbar.transformEndPatch (numV 200) (numV 200) (numV 45) (numV 200)
          (numV 120))) = true := by decide
  have hW : (numV 1100).isPrimitive = true := rfl
  have hH : (numV 700).isPrimitive = true := rfl
  obtain ⟨p, hp⟩ := emitItem_total hwf hW hH
  obtain ⟨cls, l, t, w, h, f, hrule⟩ := C30_rotation_not_read.1 (numV 1100) (numV 700)
    (updateItem (CanvasWithToolbar.addRect (.str "rect-9") (numV 200) (numV 200))
      (CanvasWithToolbar.transformEndPatch (numV 200) (numV 200) (numV 45) (numV 200)
        (numV 120))) p (by decide) rfl hp
  have hsame := (C30_rotation_not_read.2.2.2.2.1 (.str "rect-9") (numV 200) (numV 200)
    (numV 200) (numV 200) (numV 45) (numV 200) (numV 120)).2.2
  have heq := C30_rotation_not_read.2.1 (numV 1100) (numV 700) _ _ hsame
  exact ⟨p, cls, l, t, w, h, f, hp, heq ▸ hp, hrule⟩

/-! ## Determinism -/

theorem emitItem_sameReads (cW cH : JSVal) {a b : JSVal} (h : SameReads a b) :
    emitItem cW cH a = emitItem cW cH b := by
  obtain ⟨hd, hg⟩ := h
  have hid := hg "id" (by decide)
  have hty := hg "type" (by decide)
  have hx := hg "x" (by decide)
  have hy := hg "y" (by decide)
  have hwd := hg "width" (by decide)
  have hht := hg "height" (by decide)
  have hfi := hg "fill" (by decide)
  have hro := hg "rotate" (by decide)
  have hte := hg "text" (by decide)
  have hfs := hg "fontSize" (by decide)
  have hsr := hg "src" (by decide)
  simp only [emitItem, forEachBody, hd, hid, hty, hx, hy, hwd, hht, hfi, hro, hte, hfs, hsr]

theorem emitAll_sameReads (cW cH : JSVal) {its its' : List JSVal}
    (h : List.Forall₂ SameReads its its') : emitAll cW cH its = emitAll cW cH its' := by
  induction h with
  | nil => rfl
  | @cons a b l l' hab _ ih =>
    rw [emitAll_cons, emitAll_cons, emitItem_sameReads cW cH hab, ih]

/-- C25. Two invocations of `buildHTMLAndCSS` with the same items, `canvasWidth` and
`canvasHeight` have the same outcome: both throw, or both return and then the markup, the
stylesheet and the asset requests are the same; and on well-formed items with primitive
canvas dimensions the invocations return.  The outcome depends on the arguments only
through what the emitter reads of them: two item lists whose items agree, one by one, on
the eleven properties the callback reads give the same outcome. -/
theorem C25_deterministic (items items' cw cw' ch ch' : JSVal)
    (hi : items = items') (hw : cw = cw') (hh : ch = ch') :
    buildHTMLAndCSS items cw ch = buildHTMLAndCSS items' cw' ch' ∧
    (∀ r r', buildHTMLAndCSS items cw ch = .ok r → buildHTMLAndCSS items' cw' ch' = .ok r' →
      r.html = r'.html ∧ r.css = r'.css ∧ r.assets = r'.assets) ∧
    (∀ its, items = .arr its → (∀ e ∈ its, wellFormed e = true) → cw.isPrimitive = true →
      ch.isPrimitive = true → ∃ r, buildHTMLAndCSS items cw ch = .ok r ∧
        buildHTMLAndCSS items' cw' ch' = .ok r) ∧
    (∀ its its', List.Forall₂ SameReads its its' →
      buildHTMLAndCSS (.arr its) cw ch = buildHTMLAndCSS (.arr its') cw' ch') := by
  subst hi hw hh
  refine ⟨rfl, ?_, ?_, ?_⟩
  · intro r r' h1 h2
    rw [h1] at h2
    obtain rfl := Except.ok.inj h2
    exact ⟨rfl, rfl, rfl⟩
  · intro its hits hwf hW hH
    subst hits
    obtain ⟨ps, _, h⟩ := buildHTMLAndCSS_total its cw ch hwf hW hH
    exact ⟨_, h, h⟩
  · intro its its' h
    rw [buildHTMLAndCSS_arr, buildHTMLAndCSS_arr, emitAll_sameReads _ _ h]

/-- C25 on the sample rect: two invocations return the same result, which is also the result
for the same rect written with its properties in another order. -/
theorem C25_deterministic_witness :
    ∃ r, buildHTMLAndCSS (.arr [sampleRect]) (numV 1100) (numV 700) = .ok r ∧
      buildHTMLAndCSS (.arr [sampleRect]) (numV 1100) (numV 700) = .ok r ∧
      buildHTMLAndCSS (.arr [sampleRectShuffled]) (numV 1100) (numV 700) = .ok r := by
  have hC := C25_deterministic (.arr [sampleRect]) (.arr [sampleRect]) (numV 1100) (numV 1100)
    (numV 700) (numV 700) rfl rfl rfl
  obtain ⟨r, h1, h2⟩ := hC.2.2.1 [sampleRect] rfl (by decide) rfl rfl
  have hs : List.Forall₂ SameReads [sampleRect] [sampleRectShuffled] :=
    List.Forall₂.cons ⟨rfl, by decide⟩ List.Forall₂.nil
  exact ⟨r, h1, h2, (hC.2.2.2 _ _ hs) ▸ h1⟩

/-! ## Uniform scaling -/

theorem except_ext {α : Type} {a b : Except JSError α} (h : ∀ p, a = .ok p ↔ b = .ok p) :
    a = b := by
  cases a with
  | error e =>
    cases b with
    | error e' => rfl
    | ok q => exact absurd ((h q).mpr rfl) (by simp)
  | ok p => exact ((h p).mp rfl).symm

theorem lookup_cons_if {β : Type} (key a : String) (b : β) (l : List (String × β)) :
    ((a, b) :: l).lookup key = if key = a then some b else l.lookup key := by
  by_cases h : key = a
  · subst h; simp [List.lookup]
  · have : (key == a) = false := by simpa using h
    simp [List.lookup, this, h]

theorem lookup_scale (k : ℚ) (ps : List (String × JSVal)) (key : String) :
    (ps.map fun p => if p.1 ∈ scaledKeys then (p.1, scaleVal k p.2) else p).lookup key =
      (ps.lookup key).map fun v => if key ∈ scaledKeys then scaleVal k v else v := by
  induction ps with
  | nil => rfl
  | cons p rest ih =>
    obtain ⟨a, v⟩ := p
    by_cases hm : a ∈ scaledKeys
    · simp only [List.map_cons, hm, if_true, lookup_cons_if, ih]
      by_cases hka : key = a
      · subst hka; simp [hm]
      · simp [hka]
    · simp only [List.map_cons, hm, if_false, lookup_cons_if, ih]
      by_cases hka : key = a
      · subst hka; simp [hm]
      · simp [hka]

theorem get_scaleItem (k : ℚ) (it : JSVal) (key : String) :
    (scaleItem k it).get key =
      if key ∈ scaledKeys then scaleVal k (it.get key) else it.get key := by
  cases it with
  | obj ps =>
    simp only [scaleItem, JSVal.get, lookup_scale]
    cases ps.lookup key with
    | none => by_cases hm : key ∈ scaledKeys <;> simp [hm, scaleVal]
    | some v => by_cases hm : key ∈ scaledKeys <;> simp [hm]
  | _ => by_cases hm : key ∈ scaledKeys <;> simp [scaleItem, JSVal.get, hm, scaleVal]

theorem destructurable_scaleItem (k : ℚ) (it : JSVal) :
    (scaleItem k it).destructurable = it.destructurable := by
  cases it <;> rfl

theorem div_scale {k : ℚ} (hk : 0 < k) (n : JSNum) (s : Bool) (w : ℚ) :
    (scaleNum k n).div (.fin s (k * w)) = n.div (.fin s w) := by
  cases n with
  | nan => rfl
  | inf t => rfl
  | fin t q =>
    simp only [scaleNum, JSNum.div]
    have hk' : k ≠ 0 := ne_of_gt hk
    by_cases hw : w = 0
    · subst hw
      simp [hk']
    · have hkw : k * w ≠ 0 := mul_ne_zero hk' hw
      simp only [hkw, hw, if_false]
      rw [mul_div_mul_left _ _ hk']

theorem percent_scale {k : ℚ} (hk : 0 < k) {v : JSVal} (hv : v.isNum = true) (s : Bool)
    (w : ℚ) :
    percent (scaleVal k v) (.num (.fin s (k * w))) = percent v (.num (.fin s w)) := by
  cases v with
  | num n => simp only [scaleVal, percent_num, div_scale hk]
  | _ => simp [JSVal.isNum] at hv

theorem withDefault_isNum {v : JSVal} (hv : v.isNum = true) (d : JSVal) :
    v.withDefault d = v := by
  cases v with
  | num n => rfl
  | _ => simp [JSVal.isNum] at hv

theorem isNum_scaleVal (k : ℚ) {v : JSVal} (hv : v.isNum = true) :
    (scaleVal k v).isNum = true := by
  cases v with
  | num n => rfl
  | _ => simp [JSVal.isNum] at hv

theorem percent_ok_iff (v : JSVal) (n : JSNum) :
    (∃ l, percent v (.num n) = .ok l) ↔ ∃ m, v.toNumber = .ok m := by
  have hn : (JSVal.num n).toNumber = .ok n := rfl
  simp only [percent, JSVal.div, bind, Except.bind, pure, Except.pure, hn]
  cases v.toNumber with
  | error e =>
    constructor
    · intro h; obtain ⟨l, h⟩ := h; cases h
    · intro h; obtain ⟨l, h⟩ := h; cases h
  | ok m => exact ⟨fun _ => ⟨m, rfl⟩, fun _ => ⟨_, rfl⟩⟩

theorem toNumber_scaleVal_ok (k : ℚ) (v : JSVal) :
    (∃ m, (scaleVal k v).toNumber = .ok m) ↔ ∃ m, v.toNumber = .ok m := by
  cases v with
  | num n => simp [scaleVal, JSVal.toNumber]
  | _ => rfl

/-- One item scaled against a scaled canvas emits what the item emits against the canvas. -/
theorem emitItem_scale {k : ℚ} (hk : 0 < k) (s t : Bool) (w h : ℚ) {it : JSVal}
    (hm : measured it = true) :
    emitItem (.num (.fin s (k * w))) (.num (.fin t (k * h))) (scaleItem k it) =
      emitItem (.num (.fin s w)) (.num (.fin t h)) it := by
  have gx : (scaleItem k it).get "x" = scaleVal k (it.get "x") := by
    rw [get_scaleItem]; rfl
  have gy : (scaleItem k it).get "y" = scaleVal k (it.get "y") := by
    rw [get_scaleItem]; rfl
  have gw : (scaleItem k it).get "width" = scaleVal k (it.get "width") := by
    rw [get_scaleItem]; rfl
  have gh : (scaleItem k it).get "height" = scaleVal k (it.get "height") := by
    rw [get_scaleItem]; rfl
  have gf : (scaleItem k it).get "fontSize" = scaleVal k (it.get "fontSize") := by
    rw [get_scaleItem]; rfl
  have gty : (scaleItem k it).get "type" = it.get "type" := by
    rw [get_scaleItem]; rfl
  have gid : (scaleItem k it).get "id" = it.get "id" := by
    rw [get_scaleItem]; rfl
  have gfi : (scaleItem k it).get "fill" = it.get "fill" := by
    rw [get_scaleItem]; rfl
  have gro : (scaleItem k it).get "rotate" = it.get "rotate" := by
    rw [get_scaleItem]; rfl
  have gte : (scaleItem k it).get "text" = it.get "text" := by
    rw [get_scaleItem]; rfl
  have gsr : (scaleItem k it).get "src" = it.get "src" := by
    rw [get_scaleItem]; rfl
  apply except_ext
  intro p
  by_cases h1 : (it.get "type").isStr "rect" = true
  · simp only [measured, h1, Bool.true_or, if_true, Bool.and_eq_true] at hm
    obtain ⟨⟨⟨hx, hy⟩, hwd⟩, hht⟩ := hm
    rw [emitItem_rect (by rw [gty]; exact h1), emitItem_rect h1, destructurable_scaleItem,
      gx, gy, gw, gh, gid, gfi, gro, percent_scale hk hx, percent_scale hk hy,
      percent_scale hk hwd, percent_scale hk hht]
  have h1' : (it.get "type").isStr "rect" = false := by simpa using h1
  by_cases h2 : (it.get "type").isStr "text" = true
  · have h3' : (it.get "type").isStr "image" = false := by rw [isStr_eq h2]; decide
    simp only [measured, h1', h3', Bool.or_self, Bool.false_eq_true, if_false, h2, if_true,
      Bool.and_eq_true] at hm
    obtain ⟨⟨hx, hy⟩, hfs⟩ := hm
    rw [emitItem_text (by rw [gty]; exact h1') (by rw [gty]; exact h2), emitItem_text h1' h2,
      destructurable_scaleItem, gx, gy, gf, gid, gfi, gte,
      withDefault_isNum (isNum_scaleVal k hfs), withDefault_isNum hfs,
      percent_scale hk hx, percent_scale hk hy, percent_scale hk hfs]
  have h2' : (it.get "type").isStr "text" = false := by simpa using h2
  by_cases h3 : (it.get "type").isStr "image" = true
  · simp only [measured, h3, Bool.or_true, if_true, Bool.and_eq_true] at hm
    obtain ⟨⟨⟨hx, hy⟩, hwd⟩, hht⟩ := hm
    rw [emitItem_image (by rw [gty]; exact h1') (by rw [gty]; exact h2')
        (by rw [gty]; exact h3), emitItem_image h1' h2' h3, destructurable_scaleItem,
      gx, gy, gw, gh, gid, gsr,
      withDefault_isNum (isNum_scaleVal k hwd), withDefault_isNum hwd,
      withDefault_isNum (isNum_scaleVal k hht), withDefault_isNum hht,
      percent_scale hk hx, percent_scale hk hy, percent_scale hk hwd, percent_scale hk hht]
  have h3' : (it.get "type").isStr "image" = false := by simpa using h3
  have he : exported it = false := by simp [exported, h1', h2', h3']
  have he' : exported (scaleItem k it) = false := by simp [exported, gty, h1', h2', h3']
  rw [emitItem_other he', emitItem_other he, destructurable_scaleItem, gx, gy]
  have hxy : (∃ left top, percent (scaleVal k (it.get "x")) (.num (.fin s (k * w))) = .ok left ∧
      percent (scaleVal k (it.get "y")) (.num (.fin t (k * h))) = .ok top) ↔
      ∃ left top, percent (it.get "x") (.num (.fin s w)) = .ok left ∧
        percent (it.get "y") (.num (.fin t h)) = .ok top := by
    have ex : ∀ (a b : JSVal) (c d : JSVal),
        (∃ left top, percent a c = .ok left ∧ percent b d = .ok top) ↔
          (∃ l, percent a c = .ok l) ∧ ∃ l, percent b d = .ok l :=
      fun a b c d => ⟨fun ⟨l, t, h1, h2⟩ => ⟨⟨l, h1⟩, ⟨t, h2⟩⟩,
        fun ⟨⟨l, h1⟩, ⟨t, h2⟩⟩ => ⟨l, t, h1, h2⟩⟩
    rw [ex, ex, percent_ok_iff, percent_ok_iff, percent_ok_iff, percent_ok_iff,
      toNumber_scaleVal_ok, toNumber_scaleVal_ok]
  rw [hxy]

theorem emitAll_scale {k : ℚ} (hk : 0 < k) (s t : Bool) (w h : ℚ) (its : List JSVal)
    (hm : ∀ e ∈ its, measured e = true) :
    emitAll (.num (.fin s (k * w))) (.num (.fin t (k * h))) (its.map (scaleItem k)) =
      emitAll (.num (.fin s w)) (.num (.fin t h)) its := by
  induction its with
  | nil => rfl
  | cons it rest ih =>
    rw [List.map_cons, emitAll_cons, emitAll_cons, emitItem_scale hk s t w h (hm it (by simp)),
      ih (fun e he => hm e (by simp [he]))]

/-- C27. For a positive rational `k`, a canvas of positive width `w` and height `h`, and
items whose geometry is given by Numbers (a rect and an image with `x`, `y`, `width`,
`height`, a text with `x`, `y`, `fontSize`): the document in which `canvasWidth`,
`canvasHeight` and the `x`, `y`, `width`, `height` and `fontSize` of every item are
multiplied by `k`, the products taken exactly, gives the same outcome as the unscaled
document, the same markup and the same stylesheet (and asset requests), or a throw in both
cases; on well-formed items both return. -/
theorem C27_uniform_scaling (k w h : ℚ) (its : List JSVal) (hk : 0 < k) (hw : 0 < w)
    (hh : 0 < h) (hm : ∀ e ∈ its, measured e = true) :
    buildHTMLAndCSS (.arr (its.map (scaleItem k))) (.num (.fin false (k * w)))
        (.num (.fin false (k * h))) =
      buildHTMLAndCSS (.arr its) (.num (.fin false w)) (.num (.fin false h)) ∧
    ((∀ e ∈ its, wellFormed e = true) →
      ∃ r, buildHTMLAndCSS (.arr its) (.num (.fin false w)) (.num (.fin false h)) = .ok r ∧
        buildHTMLAndCSS (.arr (its.map (scaleItem k))) (.num (.fin false (k * w)))
          (.num (.fin false (k * h))) = .ok r) := by
  have heq : buildHTMLAndCSS (.arr (its.map (scaleItem k))) (.num (.fin false (k * w)))
        (.num (.fin false (k * h))) =
      buildHTMLAndCSS (.arr its) (.num (.fin false w)) (.num (.fin false h)) := by
    rw [buildHTMLAndCSS_arr, buildHTMLAndCSS_arr, or_of_pos (mul_pos hk hw),
      or_of_pos (mul_pos hk hh), or_of_pos hw, or_of_pos hh, emitAll_scale hk _ _ _ _ _ hm]
  refine ⟨heq, fun hwf => ?_⟩
  obtain ⟨ps, _, hr⟩ := buildHTMLAndCSS_total its (.num (.fin false w)) (.num (.fin false h))
    hwf rfl rfl
  exact ⟨_, hr, heq.trans hr⟩

/-- C27 on the sample rect, text and image, on a canvas of 1100 by 700, scaled by 3/2. -/
theorem C27_uniform_scaling_witness :
    ∃ r,
      buildHTMLAndCSS (.arr [sampleRect, sampleText, sampleImage]) (.num (.fin false 1100))
        (.num (.fin false 700)) = .ok r ∧
      buildHTMLAndCSS (.arr ([sampleRect, sampleText, sampleImage].map (scaleItem (3 / 2))))
        (.num (.fin false (3 / 2 * 1100))) (.num (.fin false (3 / 2 * 700))) = .ok r :=
  (C27_uniform_scaling (3 / 2) 1100 700 [sampleRect, sampleText, sampleImage] (by norm_num)
    (by norm_num) (by norm_num) (by decide)).2 (by decide)

/-! ## Value of the emitted numerals -/

theorem digitValue_digitChar {d : Nat} (h : d < 10) : digitValue 10 (Nat.digitChar d) = some d := by
  interval_cases d <;> decide

theorem digitsFold_toDigits (n : Nat) :
    (Nat.toDigits 10 n).foldl
      (fun acc c => acc.bind fun a => (digitValue 10 c).map fun d => a * 10 + d) (some 0) =
      some n := by
  induction n using Nat.strong_induction_on with
  | _ n ih =>
    by_cases h : n < 10
    · rw [toDigits_of_lt h]
      simp [digitValue_digitChar h]
    · have h' : 10 ≤ n := by omega
      rw [toDigits_of_ge h', List.foldl_append, ih (n / 10) (by omega)]
      simp only [List.foldl_cons, List.foldl_nil, Option.some_bind,
        digitValue_digitChar (Nat.mod_lt n (by norm_num : 0 < 10)), Option.map_some']
      congr 1
      omega

theorem digitsValue_numeral (n : Nat) :
    digitsValue 10 ('0' :: (Nat.toDigits 10 (n / 100) ++
      [Nat.digitChar (n / 10 % 10), Nat.digitChar (n % 10)])) = some n := by
  have h0 : digitValue 10 '0' = some 0 := by decide
  have ha := digitValue_digitChar (Nat.mod_lt (n / 10) (by norm_num : 0 < 10))
  have hb := digitValue_digitChar (Nat.mod_lt n (by norm_num : 0 < 10))
  simp only [digitsValue, List.cons_ne_nil, if_false, List.foldl_cons, Option.some_bind, h0,
    Option.map_some', Nat.zero_mul, Nat.add_zero, List.foldl_append, digitsFold_toDigits,
    List.foldl_nil, ha, hb]
  congr 1
  omega

theorem unsignedDecimalValue_numeral (n : Nat) :
    unsignedDecimalValue (Nat.toDigits 10 (n / 100) ++
      ['.', Nat.digitChar (n / 10 % 10), Nat.digitChar (n % 10)]) = some ((n : ℚ) / 100) := by
  have hda := isDigit_digitChar (Nat.mod_lt (n / 10) (by norm_num : 0 < 10))
  have hdb := isDigit_digitChar (Nat.mod_lt n (by norm_num : 0 < 10))
  obtain ⟨ht, hd⟩ := takeWhile_digits (Nat.toDigits 10 (n / 100))
    [Nat.digitChar (n / 10 % 10), Nat.digitChar (n % 10)] (isDigit_toDigits _)
  have hne : Nat.toDigits 10 (n / 100) ≠ [] := by
    intro h
    have := toDigits_length_pos (n / 100)
    rw [h] at this
    simp at this
  simp only [unsignedDecimalValue, ht, hd, List.takeWhile_cons, hda, hdb, if_true,
    List.takeWhile_nil, List.dropWhile_cons, List.dropWhile_nil, hne, false_and, if_false,
    digitsValue_numeral, exponentValue]
  simp [pow10]
  norm_num
  ring

theorem head_toDigits_ne_minus (n : Nat) (rest : List Char) :
    (Nat.toDigits 10 n ++ rest).head? ≠ some '-' := by
  have hpos := toDigits_length_pos n
  cases hd : Nat.toDigits 10 n with
  | nil => rw [hd] at hpos; simp at hpos
  | cons c cs =>
    have hc : c.isDigit = true := isDigit_toDigits n c (by rw [hd]; simp)
    simp only [List.cons_append, List.head?_cons, ne_eq, Option.some.injEq]
    intro h
    rw [h] at hc
    exact absurd hc (by decide)

/-- The value of the numeral with two decimals: the hundredth count `n` of the magnitude,
with the sign. -/
theorem decimalValue_twoDecimals (s : Bool) (q : ℚ) :
    decimalValue (twoDecimals s q) =
      some ((if s = true ∧ 0 < q then -1 else 1) *
        (((q * 10 ^ 2 + 1 / 2).floor.toNat : ℚ) / 100)) := by
  have hu := unsignedDecimalValue_numeral (q * 10 ^ 2 + 1 / 2).floor.toNat
  by_cases hs : s = true ∧ 0 < q
  · have hdata : (twoDecimals s q).data = '-' ::
        (Nat.toDigits 10 ((q * 10 ^ 2 + 1 / 2).floor.toNat / 100) ++
          ['.', Nat.digitChar ((q * 10 ^ 2 + 1 / 2).floor.toNat / 10 % 10),
            Nat.digitChar ((q * 10 ^ 2 + 1 / 2).floor.toNat % 10)]) := by
      simp only [twoDecimals, hs, and_self, if_true, String.data_append, digits_data]
      simp
    rw [if_pos hs]
    unfold decimalValue
    rw [hdata]
    simp only [List.head?_cons, if_true, List.drop_succ_cons, List.drop_zero, hu,
      Option.map_some']
    congr 1
    ring
  · have hdata : (twoDecimals s q).data =
        Nat.toDigits 10 ((q * 10 ^ 2 + 1 / 2).floor.toNat / 100) ++
          ['.', Nat.digitChar ((q * 10 ^ 2 + 1 / 2).floor.toNat / 10 % 10),
            Nat.digitChar ((q * 10 ^ 2 + 1 / 2).floor.toNat % 10)] := by
      simp only [twoDecimals, hs, if_false, String.data_append, digits_data]
      simp
    rw [if_neg hs]
    unfold decimalValue
    rw [hdata]
    simp only [head_toDigits_ne_minus, if_false, hu]
    congr 1
    ring

/-- The nearest hundredth is within `0.005` of the magnitude. -/
theorem hundredth_near {q : ℚ} (hq : 0 ≤ q) :
    |((q * 10 ^ 2 + 1 / 2).floor.toNat : ℚ) / 100 - q| ≤ 1 / 200 := by
  have hpos : (0 : ℚ) ≤ q * 10 ^ 2 + 1 / 2 := by positivity
  have h1 : ((Rat.floor (q * 10 ^ 2 + 1 / 2) : ℤ) : ℚ) ≤ q * 10 ^ 2 + 1 / 2 :=
    Int.floor_le (q * 10 ^ 2 + 1 / 2)
  have h2 : q * 10 ^ 2 + 1 / 2 < ((Rat.floor (q * 10 ^ 2 + 1 / 2) : ℤ) : ℚ) + 1 :=
    Int.lt_floor_add_one (q * 10 ^ 2 + 1 / 2)
  have hnn : 0 ≤ Rat.floor (q * 10 ^ 2 + 1 / 2) := Int.floor_nonneg.mpr hpos
  have hcast : (((Rat.floor (q * 10 ^ 2 + 1 / 2)).toNat : ℕ) : ℚ) =
      ((Rat.floor (q * 10 ^ 2 + 1 / 2) : ℤ) : ℚ) := by
    rw [← Int.cast_natCast, Int.toNat_of_nonneg hnn]
  rw [hcast, abs_le]
  constructor <;> linarith

theorem roundBinary64_nonneg {q v : ℚ} (h : roundBinary64 q = some v) : 0 ≤ v := by
  unfold roundBinary64 at h
  split at h
  · simp only [Option.some.injEq] at h
    rw [← h]
  · simp only at h
    split at h
    · split at h
      · simp at h
      · simp only [Option.some.injEq] at h
        rw [← h]
        exact Nat.cast_nonneg _
    · simp only [Option.some.injEq] at h
      rw [← h, Rat.mkRat_eq_div]
      apply div_nonneg
      · exact_mod_cast Nat.zero_le _
      · exact_mod_cast Nat.zero_le _

theorem mul_mag_nonneg {a b : JSNum} {s : Bool} {q : ℚ} (h : a.mul b = .fin s q) : 0 ≤ q := by
  cases a with
  | nan => simp [JSNum.mul] at h
  | inf t =>
    cases b with
    | nan => simp [JSNum.mul] at h
    | inf u => simp [JSNum.mul] at h
    | fin u y =>
      simp only [JSNum.mul] at h
      split at h <;> simp at h
  | fin t x =>
    cases b with
    | nan => simp [JSNum.mul] at h
    | inf u =>
      simp only [JSNum.mul] at h
      split at h <;> simp at h
    | fin u y =>
      simp only [JSNum.mul, JSNum.ofMag] at h
      cases hr : roundBinary64 (x * y) with
      | none => rw [hr] at h; simp at h
      | some v =>
        rw [hr] at h
        simp only [JSNum.fin.injEq] at h
        rw [← h.2]
        exact roundBinary64_nonneg hr

/-- The numeral that `percent` writes for Numbers, when the Number computed is below
`10 ^ 21` in magnitude: its value is within `0.005` of that Number. -/
theorem percent_value (x c : JSNum) (d : ℚ)
    (hd : ((x.div c).mul (JSNum.ofNat 100)).value = some d) (hlt : |d| < 10 ^ 21) :
    ∃ str val, percent (.num x) (.num c) = .ok str ∧ isTwoDecimal str = true ∧
      decimalValue str = some val ∧ |val - d| ≤ 1 / 200 := by
  cases hv : (x.div c).mul (JSNum.ofNat 100) with
  | nan => rw [hv] at hd; simp [JSNum.value] at hd
  | inf t => rw [hv] at hd; simp [JSNum.value] at hd
  | fin s q =>
    have hq : 0 ≤ q := mul_mag_nonneg hv
    rw [hv] at hd
    simp only [JSNum.value, Option.some.injEq] at hd
    have habs : |d| = q := by
      rw [← hd]
      split
      · rw [abs_neg, abs_of_nonneg hq]
      · exact abs_of_nonneg hq
    obtain ⟨h1, h2⟩ := toFixed_two_spec _ s q hv (by rw [← habs]; exact hlt)
    refine ⟨_, _, percent_num x c, h2, by rw [h1]; exact decimalValue_twoDecimals s q, ?_⟩
    have hn := hundredth_near hq
    by_cases hs : s = true ∧ 0 < q
    · rw [if_pos hs, ← hd, if_pos hs.1]
      have : -1 * (((q * 10 ^ 2 + 1 / 2).floor.toNat : ℚ) / 100) - -q =
          -(((q * 10 ^ 2 + 1 / 2).floor.toNat : ℚ) / 100 - q) := by ring
      rw [this, abs_neg]
      exact hn
    · rw [if_neg hs, one_mul, ← hd]
      by_cases hs' : s = true
      · have hq0 : q = 0 := le_antisymm (not_lt.mp (fun h => hs ⟨hs', h⟩)) hq
        rw [if_pos hs']
        subst hq0
        rw [neg_zero]
        exact hn
      · rw [if_neg hs']
        exact hn

/-- C23, counterexample: a rect at `x = 0.385` (the Number of that literal) on a 1100 wide
canvas gets `left:0.03%`, while the exact value `x / 1100 * 100` is above `0.035`, more than
`0.005` away from `0.03`; and a rect at `x = 1.1e22` gets `left:1e+21%`, which is not a
numeral with two decimals. -/
theorem C23_counterexample :
    stringToNumber "0.385" = x0385 ∧
    x0385.value = some (1733885856537641 / 4503599627370496) ∧
    percent (nearTieRect.get "x") (numV 1100) = .ok "0.03" ∧
    (buildHTMLAndCSS (.arr [nearTieRect]) (numV 1100) (numV 700)).map Output.css =
      .ok ("\n".intercalate (baseRules ++
        [".el-r\x7bleft:0.03%;top:10.00%;width:20.00%;height:20.00%;" ++
          "background:#ddd;transform: rotate(0deg);\x7d"])) ∧
    decimalValue "0.03" = some (3 / 100) ∧
    (1733885856537641 / 4503599627370496 : ℚ) / 1100 * 100 - 3 / 100 > 5 / 1000 ∧
    percent (farRect.get "x") (numV 1100) = .ok "1e+21" ∧
    isTwoDecimal "1e+21" = false := by
  refine ⟨by decide!, by decide!, by decide!, by decide!, by decide!, by norm_num, by decide!,
    by decide!⟩

/-- C23 (amended). The numbers the emitter writes are `left` and `top` for every exported
element, `width` and `height` for a rect and an image, and `font-size` for a text, each
the `toFixed(2)` of the Number `v / c * 100` computed in binary64 from the property `v` (or
its default) and the canvas dimension `c`.  For Numbers `v` and `c` such that the computed
Number is finite and below `10 ^ 21` in magnitude, what is written is a decimal numeral with
exactly two digits after the point whose value differs from the computed Number by at most
`0.005`. -/
theorem C23_nearest_hundredth :
    (∀ cW cH it p, emitItem cW cH it = .ok p → (it.get "type").isStr "rect" = true →
      ∃ left top width height cls fill rot,
        percent (it.get "x") cW = .ok left ∧ percent (it.get "y") cH = .ok top ∧
        percent (it.get "width") cW = .ok width ∧ percent (it.get "height") cH = .ok height ∧
        p.cssRules = ["." ++ cls ++ "\x7bleft:" ++ left ++ "%;top:" ++ top ++ "%;width:" ++
          width ++ "%;height:" ++ height ++ "%;background:" ++ fill ++
          ";transform: rotate(" ++ rot ++ "deg);\x7d"]) ∧
    (∀ cW cH it p, emitItem cW cH it = .ok p → (it.get "type").isStr "text" = true →
      ∃ left top fontVw cls fill,
        percent (it.get "x") cW = .ok left ∧ percent (it.get "y") cH = .ok top ∧
        percent ((it.get "fontSize").withDefault (.num (JSNum.ofNat 16))) cW = .ok fontVw ∧
        p.cssRules = ["." ++ cls ++ "\x7bleft:" ++ left ++ "%;top:" ++ top ++ "%;font-size:" ++
          fontVw ++ "vw;color:" ++ fill ++ ";\x7d"]) ∧
    (∀ cW cH it p, emitItem cW cH it = .ok p → (it.get "type").isStr "image" = true →
      ∃ left top width height cls,
        percent (it.get "x") cW = .ok left ∧ percent (it.get "y") cH = .ok top ∧
        percent ((it.get "width").withDefault (.num (JSNum.ofNat 200))) cW = .ok width ∧
        percent ((it.get "height").withDefault (.num (JSNum.ofNat 120))) cH = .ok height ∧
        p.cssRules = ["." ++ cls ++ "\x7bleft:" ++ left ++ "%;top:" ++ top ++ "%;width:" ++
          width ++ "%;height:" ++ height ++ "%;\x7d"]) ∧
    (∀ (x c : JSNum) (d : ℚ), ((x.div c).mul (JSNum.ofNat 100)).value = some d →
      |d| < 10 ^ 21 →
      ∃ str val, percent (.num x) (.num c) = .ok str ∧ isTwoDecimal str = true ∧
        decimalValue str = some val ∧ |val - d| ≤ 1 / 200) := by
  refine ⟨?_, ?_, ?_, percent_value⟩
  · intro cW cH it p hp ht
    obtain ⟨_, l, t, w, h, c, f, r, hl, htp, hw, hh, _, _, _, rfl⟩ := (emitItem_rect ht p).mp hp
    exact ⟨l, t, w, h, className c, f, r, hl, htp, hw, hh, rfl⟩
  · intro cW cH it p hp ht
    obtain ⟨_, l, t, v, c, tx, f, hl, htp, hv, _, _, _, rfl⟩ :=
      (emitItem_text (isStr_text ht) ht p).mp hp
    exact ⟨l, t, v, className c, f, hl, htp, hv, rfl⟩
  · intro cW cH it p hp ht
    obtain ⟨h1, h2⟩ := isStr_image ht
    obtain ⟨_, l, t, w, h, c, hl, htp, hw, hh, _, rfl⟩ := (emitItem_image h1 h2 ht p).mp hp
    exact ⟨l, t, w, h, className c, hl, htp, hw, hh, rfl⟩

/-- C23 on the sample rect: its `left` is `percent` of `x = 110` against 1100, a numeral with
two decimals whose value is within `0.005` of the computed Number 10. -/
theorem C23_nearest_hundredth_witness :
    (∃ p left, emitItem (numV 1100) (numV 700) sampleRect = .ok p ∧
      percent (numV 110) (numV 1100) = .ok left) ∧
    ∃ str val, percent (numV 110) (numV 1100) = .ok str ∧ isTwoDecimal str = true ∧
      decimalValue str = some val ∧ |val - 10| ≤ 1 / 200 := by
  refine ⟨?_, C23_nearest_hundredth.2.2.2 (JSNum.ofNat 110) (JSNum.ofNat 1100) 10
    (by decide!) (by norm_num)⟩
  have hwf : wellFormed sampleRect = true := by decide
  have hW : (numV 1100).isPrimitive = true := rfl
  have hH : (numV 700).isPrimitive = true := rfl
  obtain ⟨p, hp⟩ := emitItem_total hwf hW hH
  obtain ⟨l, t, w, h, c, f, r, hl, _⟩ :=
    C23_nearest_hundredth.1 (numV 1100) (numV 700) sampleRect p hp (by decide)
  exact ⟨p, l, hp, hl⟩

/-! ## The unit `px` -/

theorem pxScan_append (q : Nat) (a b : List Char) :
    pxScan q (a ++ b) = pxScan (pxScan q a) b := by
  simp [pxScan, List.foldl_append]

theorem pxScan_two (l : List Char) : pxScan 2 l = 2 := by
  induction l with
  | nil => rfl
  | cons c l ih => simpa [pxScan, pxStep] using ih

theorem pxStep_le (q : Nat) (c : Char) : pxStep q c ≤ 2 := by
  unfold pxStep
  split_ifs <;> omega

theorem pxScan_le {q : Nat} (hq : q ≤ 2) (l : List Char) : pxScan q l ≤ 2 := by
  induction l generalizing q with
  | nil => exact hq
  | cons c l ih => exact ih (pxStep_le q c)

theorem pxScan_of_present {l : List Char} (h : "px".data <:+: l) (q : Nat) :
    pxScan q l = 2 := by
  obtain ⟨s, t, rfl⟩ := h
  have hpx : ∀ q', pxScan q' "px".data = 2 := by
    intro q'
    show pxStep (pxStep q' 'p') 'x' = 2
    unfold pxStep
    split_ifs <;> simp_all
  rw [pxScan_append, pxScan_append, hpx, pxScan_two]

theorem pxScan_inv (l : List Char) : ∀ q, pxScan q l = 2 →
    q = 2 ∨ (q = 1 ∧ l.head? = some 'x') ∨ "px".data <:+: l := by
  induction l with
  | nil => intro q h; exact Or.inl h
  | cons c l ih =>
    intro q h
    have h' : pxScan (pxStep q c) l = 2 := h
    rcases ih _ h' with h2 | ⟨h1, hx⟩ | hin
    · by_cases e1 : q = 2
      · exact Or.inl e1
      · by_cases e2 : q = 1 ∧ c = 'x'
        · exact Or.inr (Or.inl ⟨e2.1, by rw [e2.2]; rfl⟩)
        · by_cases e3 : c = 'p'
          · simp [pxStep, e1, e2, e3] at h2
          · simp [pxStep, e1, e2, e3] at h2
    · have hc : c = 'p' := by
        by_cases e3 : c = 'p'
        · exact e3
        · by_cases e1 : q = 2
          · simp [pxStep, e1] at h1
          · by_cases e2 : q = 1 ∧ c = 'x'
            · simp [pxStep, e1, e2] at h1
            · simp [pxStep, e1, e2, e3] at h1
      subst hc
      cases l with
      | nil => simp at hx
      | cons d l' =>
        simp only [List.head?_cons, Option.some.injEq] at hx
        subst hx
        exact Or.inr (Or.inr ⟨[], l', rfl⟩)
    · obtain ⟨s, t, e⟩ := hin
      exact Or.inr (Or.inr ⟨c :: s, t, by rw [← e]; simp⟩)

theorem pxScan_lt_of_absent {s : String} (h : ¬ Contains s "px") : pxScan 0 s.data < 2 := by
  have h1 := pxScan_le (Nat.zero_le 2) s.data
  have h2 : pxScan 0 s.data ≠ 2 := by
    intro e
    rcases pxScan_inv _ 0 e with h0 | ⟨h0, _⟩ | hin
    · omega
    · omega
    · exact h hin
  omega

theorem absent_of_pxScan {s : String} (h : pxScan 0 s.data = 0) : ¬ Contains s "px" := by
  intro hc
  rw [pxScan_of_present hc 0] at h
  omega

theorem pxScan_zero_of_no_p (l : List Char) (h : ∀ c ∈ l, c ≠ 'p') : pxScan 0 l = 0 := by
  induction l with
  | nil => rfl
  | cons c l ih =>
    have hc : c ≠ 'p' := h c (by simp)
    have hs : pxStep 0 c = 0 := by simp [pxStep, hc]
    show pxScan (pxStep 0 c) l = 0
    rw [hs]
    exact ih (fun d hd => h d (by simp [hd]))

theorem noP_append (a b : List Char) : noP (a ++ b) = (noP a && noP b) := by
  simp [noP, List.all_append]

theorem noP_take {l : List Char} (h : noP l = true) (n : Nat) : noP (l.take n) = true := by
  simp only [noP, List.all_eq_true] at h ⊢
  exact fun c hc => h c (List.mem_of_mem_take hc)

theorem noP_drop {l : List Char} (h : noP l = true) (n : Nat) : noP (l.drop n) = true := by
  simp only [noP, List.all_eq_true] at h ⊢
  exact fun c hc => h c (List.mem_of_mem_drop hc)

theorem noP_toDigits (n : Nat) : noP (Nat.toDigits 10 n) = true := by
  simp only [noP, List.all_eq_true]
  intro c hc
  have hd := isDigit_toDigits n c hc
  have : c ≠ 'p' := by
    intro e
    rw [e] at hd
    exact absurd hd (by decide)
  simpa using this

theorem noP_digits (n : Nat) : noP (digits n).data = true := noP_toDigits n

theorem noP_zeros (n : Nat) : noP (zeros n).data = true := by
  simp only [noP, zeros, List.all_eq_true]
  intro c hc
  have : c = '0' := List.eq_of_mem_replicate hc
  rw [this]
  decide

theorem noP_magToString (q : ℚ) : noP (magToString q).data = true := by
  unfold magToString
  simp only
  split_ifs <;>
    simp only [String.data_append, noP_append, noP_digits, noP_zeros, Bool.and_true,
      Bool.true_and, noP_take (noP_digits _), noP_drop (noP_digits _), Bool.and_self] <;>
    rfl

theorem noP_toString (n : JSNum) : noP n.toString.data = true := by
  cases n with
  | nan => decide
  | inf s => cases s <;> decide
  | fin s q =>
    simp only [JSNum.toString]
    split_ifs
    · decide
    · simp only [String.data_append, noP_append, noP_magToString, Bool.and_true]; decide
    · simp only [String.data_append, noP_append, noP_magToString, Bool.and_true]; decide

theorem noP_toFixed (x : JSNum) (f : Nat) : noP (x.toFixed f).data = true := by
  cases x with
  | nan => rfl
  | inf s => cases s <;> rfl
  | fin s q =>
    simp only [JSNum.toFixed]
    have hsign : noP (if s = true ∧ 0 < q then "-" else "").data = true := by
      split_ifs <;> decide
    have hm : noP (if (q * 10 ^ f + 1 / 2).floor.toNat = 0 then "0"
        else digits (q * 10 ^ f + 1 / 2).floor.toNat).data = true := by
      split_ifs
      · decide
      · exact noP_digits _
    generalize (if s = true ∧ 0 < q then "-" else "") = sg at hsign ⊢
    generalize (if (q * 10 ^ f + 1 / 2).floor.toNat = 0 then "0"
        else digits (q * 10 ^ f + 1 / 2).floor.toNat) = m at hm ⊢
    have hdot : noP ".".data = true := by decide
    split_ifs
    · simp only [String.data_append, noP_append, hsign, noP_toString, Bool.and_self]
    · simp only [String.data_append, noP_append, hsign, hm, Bool.and_self]
    · have hz : noP ((zeros (f + 1 - m.length)).data ++ m.data) = true := by
        simp only [noP_append, noP_zeros, hm, Bool.and_self]
      simp only [String.data_append, noP_append, hsign, hdot, noP_take hz, noP_drop hz,
        Bool.and_self]
    · simp only [String.data_append, noP_append, hsign, hdot, noP_take hm, noP_drop hm,
        Bool.and_self]

theorem pxScan_lit (l : List Char) (h0 : pxScan 0 l = 0) (h1 : pxScan 1 l = 0) {q : Nat}
    (hq : q < 2) : pxScan q l = 0 := by
  interval_cases q
  · exact h0
  · exact h1

theorem pxScan_noP {s : String} (h : noP s.data = true) : pxScan 0 s.data = 0 := by
  apply pxScan_zero_of_no_p
  simp only [noP, List.all_eq_true] at h
  intro c hc
  simpa using h c hc

theorem noP_percent {v c : JSVal} {str : String} (h : percent v c = .ok str) :
    noP str.data = true := by
  simp only [percent, bind, Except.bind, pure, Except.pure] at h
  cases hd : JSVal.div v c with
  | error e => rw [hd] at h; simp at h
  | ok q =>
    rw [hd] at h
    simp only [Except.ok.injEq] at h
    rw [← h]
    exact noP_toFixed _ _

theorem pxScan_percent {v c : JSVal} {str : String} (h : percent v c = .ok str) :
    pxScan 0 str.data = 0 := pxScan_noP (noP_percent h)

theorem pxScan_rectRule {id l t w h f r : String} (hid : pxScan 0 id.data < 2)
    (hl : pxScan 0 l.data = 0) (ht : pxScan 0 t.data = 0) (hw : pxScan 0 w.data = 0)
    (hh : pxScan 0 h.data = 0) (hf : pxScan 0 f.data < 2) (hr : pxScan 0 r.data < 2) :
    pxScan 0 (rectRule (className id) l t w h f r).data = 0 := by
  have e0 : pxScan 0 ".".data = 0 := by decide
  have e1 : pxScan 0 "el-".data = 0 := by decide
  have e2 := pxScan_lit "\x7bleft:".data (by decide) (by decide) hid
  have e3 : pxScan 0 "%;top:".data = 0 := by decide
  have e4 : pxScan 0 "%;width:".data = 0 := by decide
  have e5 : pxScan 0 "%;height:".data = 0 := by decide
  have e6 : pxScan 0 "%;background:".data = 0 := by decide
  have e7 := pxScan_lit ";transform: rotate(".data (by decide) (by decide) hf
  have e8 := pxScan_lit "deg);\x7d".data (by decide) (by decide) hr
  simp only [rectRule, className, String.data_append, pxScan_append, e0, e1, e2, hl, e3, ht, e4,
    hw, e5, hh, e6, e7, e8]

theorem pxScan_textRule {id l t v f : String} (hid : pxScan 0 id.data < 2)
    (hl : pxScan 0 l.data = 0) (ht : pxScan 0 t.data = 0) (hv : pxScan 0 v.data = 0)
    (hf : pxScan 0 f.data < 2) :
    pxScan 0 (textRule (className id) l t v f).data = 0 := by
  have e0 : pxScan 0 ".".data = 0 := by decide
  have e1 : pxScan 0 "el-".data = 0 := by decide
  have e2 := pxScan_lit "\x7bleft:".data (by decide) (by decide) hid
  have e3 : pxScan 0 "%;top:".data = 0 := by decide
  have e4 : pxScan 0 "%;font-size:".data = 0 := by decide
  have e5 : pxScan 0 "vw;color:".data = 0 := by decide
  have e6 := pxScan_lit ";\x7d".data (by decide) (by decide) hf
  simp only [textRule, className, String.data_append, pxScan_append, e0, e1, e2, hl, e3, ht, e4,
    hv, e5, e6]

theorem pxScan_imageRule {id l t w h : String} (hid : pxScan 0 id.data < 2)
    (hl : pxScan 0 l.data = 0) (ht : pxScan 0 t.data = 0) (hw : pxScan 0 w.data = 0)
    (hh : pxScan 0 h.data = 0) :
    pxScan 0 (imageRule (className id) l t w h).data = 0 := by
  have e0 : pxScan 0 ".".data = 0 := by decide
  have e1 : pxScan 0 "el-".data = 0 := by decide
  have e2 := pxScan_lit "\x7bleft:".data (by decide) (by decide) hid
  have e3 : pxScan 0 "%;top:".data = 0 := by decide
  have e4 : pxScan 0 "%;width:".data = 0 := by decide
  have e5 : pxScan 0 "%;height:".data = 0 := by decide
  have e6 : pxScan 0 "%;\x7d".data = 0 := by decide
  simp only [imageRule, className, String.data_append, pxScan_append, e0, e1, e2, hl, e3, ht, e4,
    hw, e5, hh, e6]

theorem pxScan_withDefault {v : JSVal} (d : JSVal) (sd : String) (hd : d.toStr = .ok sd)
    (hsd : pxScan 0 sd.data < 2) (hv : ∀ s, v.toStr = .ok s → ¬ Contains s "px") {f : String}
    (hf : (v.withDefault d).toStr = .ok f) : pxScan 0 f.data < 2 := by
  cases v with
  | undefined =>
    simp only [JSVal.withDefault] at hf
    rw [hd] at hf
    obtain rfl := Except.ok.inj hf
    exact hsd
  | _ => exact pxScan_lt_of_absent (hv f hf)

/-- Every rule of an item whose embedded texts are free of `px` is free of `px` and ends in
another character than `p`. -/
theorem pxScan_piece {cW cH it : JSVal} {p : EmitState} (hp : emitItem cW cH it = .ok p)
    (hc : embedsNoPx it) : ∀ rule ∈ p.cssRules, pxScan 0 rule.data = 0 := by
  have hid : ∀ s, (it.get "id").toStr = .ok s → pxScan 0 s.data < 2 :=
    fun s hs => pxScan_lt_of_absent (hc "id" (by simp) s hs)
  have hfill := hc "fill" (by simp)
  have hrot := hc "rotate" (by simp)
  intro rule hrule
  by_cases h1 : (it.get "type").isStr "rect" = true
  · obtain ⟨_, l, t, w, h, c, f, r, hl, ht, hw, hh, hcls, hf, hr, rfl⟩ :=
      (emitItem_rect h1 p).mp hp
    simp only [List.mem_singleton] at hrule
    subst hrule
    exact pxScan_rectRule (hid c hcls) (pxScan_percent hl) (pxScan_percent ht)
      (pxScan_percent hw) (pxScan_percent hh)
      (pxScan_withDefault (.str "#ddd") "#ddd" (toStr_str _) (by decide) hfill hf)
      (pxScan_withDefault (.num (JSNum.ofNat 0)) "0" (by decide!) (by decide) hrot hr)
  have h1' : (it.get "type").isStr "rect" = false := by simpa using h1
  by_cases h2 : (it.get "type").isStr "text" = true
  · obtain ⟨_, l, t, v, c, tx, f, hl, ht, hv, hcls, _, hf, rfl⟩ :=
      (emitItem_text h1' h2 p).mp hp
    simp only [List.mem_singleton] at hrule
    subst hrule
    exact pxScan_textRule (hid c hcls) (pxScan_percent hl) (pxScan_percent ht)
      (pxScan_percent hv) (pxScan_withDefault (.str "#000") "#000" (toStr_str _) (by decide) hfill hf)
  have h2' : (it.get "type").isStr "text" = false := by simpa using h2
  by_cases h3 : (it.get "type").isStr "image" = true
  · obtain ⟨_, l, t, w, h, c, hl, ht, hw, hh, hcls, rfl⟩ := (emitItem_image h1' h2' h3 p).mp hp
    simp only [List.mem_singleton] at hrule
    subst hrule
    exact pxScan_imageRule (hid c hcls) (pxScan_percent hl) (pxScan_percent ht)
      (pxScan_percent hw) (pxScan_percent hh)
  have h3' : (it.get "type").isStr "image" = false := by simpa using h3
  have he : exported it = false := by simp [exported, h1', h2', h3']
  obtain ⟨_, _, rfl⟩ := (emitItem_other he p).mp hp
  simp [EmitState.empty] at hrule

theorem pxScan_join_lines (l : List String) (h : ∀ s ∈ l, pxScan 0 s.data = 0) :
    pxScan 0 (String.join (l.map fun s => "\n" ++ s)).data = 0 := by
  induction l with
  | nil => rfl
  | cons a rest ih =>
    have hn : pxScan 0 "\n".data = 0 := by decide
    simp only [List.map_cons, join_cons, String.data_append, pxScan_append, hn,
      h a (by simp), ih (fun s hs => h s (by simp [hs]))]

theorem pxScan_css (rules : List String) (h : ∀ s ∈ rules, pxScan 0 s.data = 0) :
    pxScan 0 ("\n".intercalate (baseRules ++ rules)).data = 0 := by
  have hb : pxScan 0 ("\n".intercalate baseRules).data = 0 := by decide!
  rw [css_eq, String.data_append, pxScan_append, hb]
  exact pxScan_join_lines rules h

theorem baseCss_page : ∃ pre post : List Char, ("\n".intercalate baseRules).data =
    pre ++ ("#page\x7bposition:relative;width:100vw;height:100vh;background:#fff;" ++
      "overflow:hidden;\x7d").data ++ post :=
  ⟨(("\n".intercalate baseRules).data.take 157), (("\n".intercalate baseRules).data.drop 239),
    by decide!⟩

theorem baseRules_page (rules : List String) : (baseRules ++ rules)[3]? =
    some ("#page\x7bposition:relative;width:100vw;height:100vh;background:#fff;" ++
      "overflow:hidden;\x7d") := by
  simp [baseRules]

/-- C24, counterexample: a rect whose `fill` is `red;width:10px` gets a rule that sets its
width in pixels after the width in percent. -/
theorem C24_counterexample :
    (buildHTMLAndCSS (.arr [pxFillRect]) (numV 1100) (numV 700)).map Output.css =
      .ok ("\n".intercalate (baseRules ++
        [".el-r\x7bleft:10.00%;top:10.00%;width:20.00%;height:20.00%;" ++
          "background:red;width:10px;transform: rotate(0deg);\x7d"])) ∧
    Contains (".el-r\x7bleft:10.00%;top:10.00%;width:20.00%;height:20.00%;" ++
      "background:red;width:10px;transform: rotate(0deg);\x7d") "width:10px" := by
  refine ⟨by decide!, by decide!⟩

/-- C24 (amended). Whenever the emitter returns (and on well-formed items with primitive
canvas dimensions it does), the fourth rule of the stylesheet is
`#page{position:relative;width:100vw;height:100vh;background:#fff;overflow:hidden;}`, which
sizes the page container relative to the viewport; and when the texts that the emitter
embeds as they are, the `id`, `fill` and `rotate` of the items, do not contain `px`, the
stylesheet does not contain `px` anywhere: no declaration written by the emitter itself,
whatever the geometry, is in pixels. -/
theorem C24_relative_units (its : List JSVal) (cw ch : JSVal) :
    ((∀ e ∈ its, wellFormed e = true) → cw.isPrimitive = true → ch.isPrimitive = true →
      ∃ r, buildHTMLAndCSS (.arr its) cw ch = .ok r) ∧
    ∀ r, buildHTMLAndCSS (.arr its) cw ch = .ok r →
      ∃ rules : List String,
        r.css = "\n".intercalate (baseRules ++ rules) ∧
        (baseRules ++ rules)[3]? =
          some ("#page\x7bposition:relative;width:100vw;height:100vh;background:#fff;" ++
            "overflow:hidden;\x7d") ∧
        Contains r.css ("#page\x7bposition:relative;width:100vw;height:100vh;background:#fff;" ++
          "overflow:hidden;\x7d") ∧
        ((∀ it ∈ its, embedsNoPx it) → ¬ Contains r.css "px") := by
  constructor
  · intro hits hW hH
    obtain ⟨ps, _, hb⟩ := buildHTMLAndCSS_total its cw ch hits hW hH
    exact ⟨_, hb⟩
  · intro r hr
    obtain ⟨ps, hps, rfl⟩ := buildHTMLAndCSS_ok hr
    refine ⟨(ps.map fun p => p.cssRules).flatten, by simp only [assemble], baseRules_page _,
      ?_, ?_⟩
    · obtain ⟨pre, post, hpre⟩ := baseCss_page
      refine ⟨pre, post ++
        (String.join ((ps.map fun p => p.cssRules).flatten.map fun s => "\n" ++ s)).data, ?_⟩
      have hcss : (assemble ps).css.data = ("\n".intercalate baseRules).data ++
          (String.join ((ps.map fun p => p.cssRules).flatten.map fun s => "\n" ++ s)).data := by
        simp only [assemble, css_eq, String.data_append]
      rw [hcss, hpre]
      simp only [List.append_assoc]
    · intro hclean
      apply absent_of_pxScan
      simp only [assemble]
      apply pxScan_css
      intro rule hrule
      obtain ⟨rs, hrs, hin⟩ := List.mem_flatten.mp hrule
      obtain ⟨p, hpm, rfl⟩ := List.mem_map.mp hrs
      obtain ⟨i, hi, hget⟩ := List.mem_iff_getElem.mp hpm
      have hlen := emitAll_length hps
      have hi' : i < its.length := by omega
      obtain ⟨q, hq, hemit⟩ := emitAll_getElem hps (List.getElem?_eq_getElem hi')
      rw [List.getElem?_eq_getElem hi, Option.some.injEq, hget] at hq
      subst hq
      exact pxScan_piece hemit (hclean _ (List.getElem_mem hi')) rule hin

/-- C24 on the sample rect: the stylesheet holds the `#page` rule with viewport units and
contains no `px`. -/
theorem C24_relative_units_witness :
    ∃ r, buildHTMLAndCSS (.arr [sampleRect]) (numV 1100) (numV 700) = .ok r ∧
      Contains r.css ("#page\x7bposition:relative;width:100vw;height:100vh;background:#fff;" ++
        "overflow:hidden;\x7d") ∧
      ¬ Contains r.css "px" := by
  have hC := C24_relative_units [sampleRect] (numV 1100) (numV 700)
  obtain ⟨r, hr⟩ := hC.1 (by decide) rfl rfl
  obtain ⟨rules, _, _, hpage, hpx⟩ := hC.2 r hr
  refine ⟨r, hr, hpage, hpx ?_⟩
  intro it hit k hk s hs
  simp only [List.mem_singleton] at hit
  subst hit
  simp only [List.mem_cons, List.mem_singleton, List.not_mem_nil, or_false] at hk
  rcases hk with rfl | rfl | rfl
  · have e : (sampleRect.get "id").toStr = .ok "rect-1" := by decide!
    rw [e] at hs
    obtain rfl := Except.ok.inj hs
    decide
  · have e : (sampleRect.get "fill").toStr = .ok "#60A5FA" := by decide!
    rw [e] at hs
    obtain rfl := Except.ok.inj hs
    decide
  · have e : (sampleRect.get "rotate").toStr = .ok "0" := by decide!
    rw [e] at hs
    obtain rfl := Except.ok.inj hs
    decide

/-! ## The in-browser exporter and the backend emitter -/

theorem conversions_agree (v : JSVal) :
    (v.toNumber = .error .typeError ∧ v.toStr = .error .typeError) ∨
      ∃ n s, v.toNumber = .ok n ∧ v.toStr = .ok s := by
  by_cases hp : v.isPrimitive = true
  · obtain ⟨n, hn⟩ := toNumber_of_isPrimitive hp
    obtain ⟨s, hs⟩ := toStr_of_isPrimitive hp
    exact Or.inr ⟨n, s, hn, hs⟩
  · cases v with
    | arr xs =>
      cases h : (JSVal.arr xs).toStr with
      | error e => exact Or.inl ⟨by simp only [JSVal.toNumber, h, Except.map], rfl⟩
      | ok s =>
        exact Or.inr ⟨stringToNumber s, s, by simp only [JSVal.toNumber, h, Except.map], rfl⟩
    | obj ps =>
      cases h : (JSVal.obj ps).toStr with
      | error e => exact Or.inl ⟨by simp only [JSVal.toNumber, h, Except.map], rfl⟩
      | ok s =>
        exact Or.inr ⟨stringToNumber s, s, by simp only [JSVal.toNumber, h, Except.map], rfl⟩
    | _ => exact absurd rfl hp

theorem percent_canvas {c : JSVal} {n : JSNum} (hc : c.toNumber = .ok n) (v : JSVal) :
    percent v c =
      v.toNumber.map fun a => ((a.div n).mul (JSNum.ofNat 100)).toFixed 2 := by
  simp only [percent, JSVal.div, bind, Except.bind, pure, Except.pure, hc, Except.map]
  cases v.toNumber with
  | error e => rfl
  | ok a => rfl

/-- One call of each callback, from states with the same nodes and asset requests: both
throw, or both return states with the same nodes and asset requests. -/
theorem callbacks_agree {cW cH : JSVal} {nW nH : JSNum} (hW : cW.toNumber = .ok nW)
    (hH : cH.toNumber = .ok nH) {st st' : EmitState}
    (h1 : st.htmlChildren = st'.htmlChildren) (h2 : st.assets = st'.assets) (it : JSVal) :
    (forEachBody cW cH st it).map (fun s => (s.htmlChildren, s.assets)) =
      (CanvasEditor.forEachBody st' it).map (fun s => (s.htmlChildren, s.assets)) := by
  simp only [forEachBody, CanvasEditor.forEachBody, percent_canvas hW, percent_canvas hH,
    mathRound, bind, Except.bind, pure, Except.pure]
  by_cases hd : it.destructurable = false
  · simp only [hd, if_true]
  simp only [if_neg hd]
  cases (it.get "x").toNumber
  · rfl
  cases (it.get "y").toNumber
  · rfl
  simp only [Except.map]
  split_ifs
  · cases (it.get "width").toNumber
    · cases (it.get "id").toStr <;> rfl
    cases (it.get "height").toNumber
    · cases (it.get "id").toStr <;> rfl
    cases (it.get "id").toStr
    · rfl
    cases ((it.get "fill").withDefault (.str "#ddd")).toStr
    · rfl
    cases ((it.get "rotate").withDefault (.num (JSNum.ofNat 0))).toStr
    · rfl
    simp only [h1, h2]
  · rcases conversions_agree ((it.get "fontSize").withDefault (.num (JSNum.ofNat 16))) with
      ⟨hn, hs⟩ | ⟨n, s, hn, hs⟩
    · rw [hn, hs]
      cases (it.get "id").toStr
      · rfl
      cases ((it.get "text").withDefault (.str "")).toStr <;> rfl
    · rw [hn, hs]
      cases (it.get "id").toStr
      · rfl
      cases ((it.get "text").withDefault (.str "")).toStr
      · rfl
      cases ((it.get "fill").withDefault (.str "#000")).toStr
      · rfl
      simp only [h1, h2]
  · cases ((it.get "width").withDefault (.num (JSNum.ofNat 200))).toNumber
    · cases (it.get "id").toStr <;> rfl
    cases ((it.get "height").withDefault (.num (JSNum.ofNat 120))).toNumber
    · cases (it.get "id").toStr <;> rfl
    cases (it.get "id").toStr
    · rfl
    simp only [h1, h2]
  · simp only [h1, h2]

theorem folds_agree {cW cH : JSVal} {nW nH : JSNum} (hW : cW.toNumber = .ok nW)
    (hH : cH.toNumber = .ok nH) (its : List JSVal) : ∀ st st' : EmitState,
    st.htmlChildren = st'.htmlChildren → st.assets = st'.assets →
    (its.foldlM (forEachBody cW cH) st).map (fun s => (s.htmlChildren, s.assets)) =
      (its.foldlM CanvasEditor.forEachBody st').map (fun s => (s.htmlChildren, s.assets)) := by
  induction its with
  | nil =>
    intro st st' h1 h2
    simp only [List.foldlM_nil, pure, Except.pure, Except.map, h1, h2]
  | cons it rest ih =>
    intro st st' h1 h2
    have hstep := callbacks_agree hW hH h1 h2 it
    simp only [List.foldlM_cons, bind, Except.bind]
    cases ha : forEachBody cW cH st it with
    | error e =>
      cases hb : CanvasEditor.forEachBody st' it with
      | error e' => rfl
      | ok s' => rw [ha, hb] at hstep; simp [Except.map] at hstep
    | ok s =>
      cases hb : CanvasEditor.forEachBody st' it with
      | error e' => rw [ha, hb] at hstep; simp [Except.map] at hstep
      | ok s' =>
        rw [ha, hb] at hstep
        simp only [Except.map, Except.ok.injEq, Prod.mk.injEq] at hstep
        exact ih s s' hstep.1 hstep.2

/-- C29. For every list of items and primitive (or absent) canvas dimensions given to the
backend, the in-browser exporter and `buildHTMLAndCSS` have the same outcome as to markup
and asset requests: both throw, or both return, with the same `index.html` text and the
same list of `{ id, src }` requests in the same order; on well-formed items both return.
They differ in the stylesheet only. -/
theorem C29_exporters_agree (its : List JSVal) (cw ch : JSVal)
    (hW : cw.isPrimitive = true) (hH : ch.isPrimitive = true) :
    (CanvasEditor.generateHTMLCSS its).map (fun r => (r.html, r.assets)) =
      (buildHTMLAndCSS (.arr its) cw ch).map (fun r => (r.html, r.assets)) ∧
    ((∀ e ∈ its, wellFormed e = true) →
      ∃ r r', CanvasEditor.generateHTMLCSS its = .ok r ∧
        buildHTMLAndCSS (.arr its) cw ch = .ok r' ∧ r.html = r'.html ∧
        r.assets = r'.assets) := by
  obtain ⟨nW, hnW⟩ := toNumber_of_isPrimitive
    (isPrimitive_or hW (d := .num (JSNum.ofNat 1100)) rfl)
  obtain ⟨nH, hnH⟩ := toNumber_of_isPrimitive
    (isPrimitive_or hH (d := .num (JSNum.ofNat 700)) rfl)
  have hfold := folds_agree hnW hnH its
    { htmlChildren := "", cssRules := baseRules, assets := [] }
    { htmlChildren := "", cssRules := CanvasEditor.baseRules, assets := [] } rfl rfl
  have hagree : (CanvasEditor.generateHTMLCSS its).map (fun r => (r.html, r.assets)) =
      (buildHTMLAndCSS (.arr its) cw ch).map (fun r => (r.html, r.assets)) := by
    simp only [CanvasEditor.generateHTMLCSS, buildHTMLAndCSS, bind, Except.bind, pure,
      Except.pure]
    cases ha : its.foldlM (forEachBody (cw.or (.num (JSNum.ofNat 1100)))
        (ch.or (.num (JSNum.ofNat 700))))
        { htmlChildren := "", cssRules := baseRules, assets := [] } with
    | error e =>
      cases hb : its.foldlM CanvasEditor.forEachBody
          { htmlChildren := "", cssRules := CanvasEditor.baseRules, assets := [] } with
      | error e' => rfl
      | ok s' => rw [ha, hb] at hfold; simp [Except.map] at hfold
    | ok s =>
      cases hb : its.foldlM CanvasEditor.forEachBody
          { htmlChildren := "", cssRules := CanvasEditor.baseRules, assets := [] } with
      | error e' => rw [ha, hb] at hfold; simp [Except.map] at hfold
      | ok s' =>
        rw [ha, hb] at hfold
        simp only [Except.map, Except.ok.injEq, Prod.mk.injEq] at hfold
        simp only [Except.map, hfold.1, hfold.2]
  refine ⟨hagree, fun hwf => ?_⟩
  obtain ⟨ps, _, hb⟩ := buildHTMLAndCSS_total its cw ch hwf hW hH
  rw [hb] at hagree
  cases hg : CanvasEditor.generateHTMLCSS its with
  | error e => rw [hg] at hagree; simp [Except.map] at hagree
  | ok r =>
    rw [hg] at hagree
    simp only [Except.map, Except.ok.injEq, Prod.mk.injEq] at hagree
    exact ⟨r, assemble ps, rfl, hb, hagree.1, hagree.2⟩

/-- C29 on the sample rect, text and image: the two exporters return the same markup and the
same asset requests, and different stylesheets. -/
theorem C29_exporters_agree_witness :
    ∃ r r', CanvasEditor.generateHTMLCSS [sampleRect, sampleText, sampleImage] = .ok r ∧
      buildHTMLAndCSS (.arr [sampleRect, sampleText, sampleImage]) (numV 1100) (numV 700) =
        .ok r' ∧
      r.html = r'.html ∧ r.assets = r'.assets ∧
      (CanvasEditor.generateHTMLCSS [sampleRect, sampleText, sampleImage]).map Output.css ≠
        (buildHTMLAndCSS (.arr [sampleRect, sampleText, sampleImage]) (numV 1100)
          (numV 700)).map Output.css := by
  obtain ⟨r, r', h1, h2, h3, h4⟩ :=
    (C29_exporters_agree [sampleRect, sampleText, sampleImage] (numV 1100) (numV 700) rfl rfl).2
      (by decide)
  exact ⟨r, r', h1, h2, h3, h4, by decide!⟩

/-! ## A canvas width that is truthy and zero -/

/-- The guard `canvasWidth || 1100` replaces falsy values only: a `canvasWidth` given as the
string `"0"` is truthy and is kept, the division by it is a division by zero, and the rect at
`x = 110` gets `left:Infinity%` and `width:Infinity%`. -/
theorem string_zero_canvas_kept :
    (JSVal.str "0").or (.num (JSNum.ofNat 1100)) = .str "0" ∧
    (buildHTMLAndCSS (.arr [sampleRect]) (.str "0") (numV 700)).map Output.css =
      .ok ("\n".intercalate (baseRules ++
        [".el-rect-1\x7bleft:Infinity%;top:10.00%;width:Infinity%;height:20.00%;" ++
          "background:#60A5FA;transform: rotate(0deg);\x7d"])) := by
  refine ⟨by decide, by decide!⟩

end DTC
